import Mathlib

/-!
Shallow embedding of the checkers AI core (board model, move generator,
evaluator, search policies) of the `damas` repository, together with proofs
of the specification claims.

Coordinates and piece ids are JavaScript numbers holding small integers; they
are modelled as `Int`.  Scores use exact rationals `ℚ`: every numeric literal
appearing in the source (10, 25, 0.5, 0.3, 0.2, 1.41, ...) is an exactly
representable decimal, and the claims under verification only concern
comparisons and algebraic identities on these values.

JavaScript object mutation in the simulation helpers only ever targets pieces
freshly created by `cloneBoard`, so the board-level operations are modelled as
pure functions from boards to boards; piece lookup/update is by `id`, which is
unique per board (spec §3 data-model invariant).  A separate explicit-heap
model of `applyMoveOnBoard` is given further down to settle the frame/purity
claim about non-mutation of the input board.
-/

namespace Damas

/-- Piece objects: `new Piece(id, x, y, team)` sets `x0 := x`, `y0 := y`,
`king := false`; `x0`/`y0` are the committed position. -/
structure Piece where
  id : Int
  x : Int
  y : Int
  x0 : Int
  y0 : Int
  team : Int
  king : Bool
deriving DecidableEq, Repr

/-- `new Piece(id, x, y, team)` (constructor semantics). -/
def mkPiece (id x y team : Int) : Piece :=
  { id := id, x := x, y := y, x0 := x, y0 := y, team := team, king := false }

/-- A board is its ordered array of pieces. -/
structure Board where
  pieces : List Piece
deriving DecidableEq, Repr

/-- `cloneBoard`: deep copy of every piece (a pure value copy in the
embedding; each field is copied verbatim by the source). -/
def cloneBoard (board : Board) : Board :=
  ⟨board.pieces.map (fun p =>
    { mkPiece p.id p.x p.y p.team with x0 := p.x0, y0 := p.y0, king := p.king })⟩

/-- `validJumpOnBoard(piece, x, y, board)`.  The two midpoint `find`s compare
`p.x === (piece.x0 + x) / 2` with exact JS number division; since `p.x` is an
integer this holds iff `2*p.x = piece.x0 + x` (for odd sums the quotient is a
half-integer and never matches), which is how the comparison is written here. -/
def validJumpOnBoard (piece : Piece) (x y : Int) (board : Board) : Bool :=
  if x < 0 || x > 7 || y < 0 || y > 7 then false
  else if (piece.x0 - x).natAbs != (piece.y0 - y).natAbs then false
  else if piece.x0 == x && piece.y0 == y then false
  else if (piece.x0 - x).natAbs > 2 && !piece.king then false
  else if (board.pieces.find? (fun p =>
      p.x == x && p.y == y && p.id != piece.id)).isSome then false
  else if (board.pieces.find? (fun p =>
      2 * p.x == piece.x0 + x && 2 * p.y == piece.y0 + y &&
      p.team == piece.team)).isSome then false
  else if (piece.x0 - x).natAbs == 2 && !piece.king &&
      (board.pieces.find? (fun p =>
        2 * p.x == piece.x0 + x && 2 * p.y == piece.y0 + y &&
        p.team != piece.team)).isNone then false
  else true

/-- The eight one/two-square diagonal direction offsets, in source order. -/
def dirOffsets : List (Int × Int) :=
  [(1, -1), (2, -2), (-1, -1), (-2, -2), (1, 1), (2, 2), (-1, 1), (-2, 2)]

/-- The king loop offsets `i = -7..7, i ≠ 0`, in source order. -/
def kingOffsets : List Int :=
  [-7, -6, -5, -4, -3, -2, -1, 1, 2, 3, 4, 5, 6, 7]

/-- `findAvailableMovesOnBoard(piece, board)`: the eight short candidates, then
(for kings) both diagonals for every offset `i`, preserving push order. -/
def findAvailableMovesOnBoard (piece : Piece) (board : Board) : List (Int × Int) :=
  let x := piece.x0
  let y := piece.y0
  (dirOffsets.filterMap (fun d =>
    if validJumpOnBoard piece (x + d.1) (y + d.2) board then
      some (x + d.1, y + d.2)
    else none)) ++
  (if piece.king then
    kingOffsets.foldr (fun i rest =>
      (if validJumpOnBoard piece (x + i) (y + i) board then [(x + i, y + i)] else []) ++
      (if validJumpOnBoard piece (x + i) (y - i) board then [(x + i, y - i)] else []) ++
      rest) []
  else [])

/-- The squares scanned by `pieceKilledOnBoard`'s loop:
`(startx+1+k, starty+1+k)` for `k` while both stay below `endx`/`endy`. -/
def killScanSquares (startx starty : Int) (n : Nat) : List (Int × Int) :=
  (List.range n).map (fun k : Nat => (startx + 1 + (k : Int), starty + 1 + (k : Int)))

/-- `pieceKilledOnBoard(piece, x, y, board)`: for `|x0−x| > 1`, walk the
increasing diagonal of the bounding box from `(min+1, min+1)` and return the
first opposing piece found; otherwise `null`. -/
def pieceKilledOnBoard (piece : Piece) (x y : Int) (board : Board) : Option Piece :=
  if (piece.x0 - x).natAbs > 1 then
    let startx := min piece.x0 x
    let endx := max piece.x0 x
    let starty := min piece.y0 y
    let endy := max piece.y0 y
    let steps : Nat := (min (endx - startx) (endy - starty) - 1).toNat
    (killScanSquares startx starty steps).findSome? (fun sq =>
      board.pieces.find? (fun p =>
        p.x == sq.1 && p.y == sq.2 && p.team != piece.team))
  else none

/-- `applyMoveOnBoard(board, piece, x, y)`: clone, relocate the piece with
`piece.id`, remove the detected captured piece, commit `x0/y0`, promote on the
far rank.  `none` models the JS crash when no piece of the board has the given
id (`newPiece` would be `undefined`).  Updates locate the moved piece by `id`
(unique per board). -/
def applyMoveOnBoard (board : Board) (piece : Piece) (x y : Int) :
    Option (Board × Bool) :=
  let newBoard := cloneBoard board
  match newBoard.pieces.find? (fun p => p.id == piece.id) with
  | none => none
  | some found =>
    let moved := { found with x := x, y := y }
    let pieces1 := newBoard.pieces.map (fun p => if p.id == piece.id then moved else p)
    let killed := pieceKilledOnBoard moved x y ⟨pieces1⟩
    let pieces2 : List Piece := match killed with
      | some k => pieces1.filter (fun p => p.id != k.id)
      | none => pieces1
    let committed := { moved with x0 := x, y0 := y }
    let promoted1 := if committed.team == (1 : Int) && committed.y == (7 : Int) then
        { committed with king := true } else committed
    let promoted2 := if promoted1.team == (2 : Int) && promoted1.y == (0 : Int) then
        { promoted1 with king := true } else promoted1
    let pieces3 := pieces2.map (fun p => if p.id == piece.id then promoted2 else p)
    some (⟨pieces3⟩, killed.isSome)

/-- A `(piece, move)` pair as pushed by `getAllMovesForTeam`. -/
structure TMove where
  piece : Piece
  move : Int × Int
deriving DecidableEq, Repr

/-- The unfiltered union of per-piece moves built by `getAllMovesForTeam`
before the mandatory-capture filter. -/
def teamMovesUnfiltered (board : Board) (team : Int) : List TMove :=
  (board.pieces.filter (fun p => p.team == team)).foldr
    (fun piece rest =>
      (findAvailableMovesOnBoard piece board).map (fun m => ⟨piece, m⟩) ++ rest) []

/-- Capture test used by the mandatory-capture filter. -/
def isCaptureMove (board : Board) (m : TMove) : Bool :=
  (pieceKilledOnBoard m.piece m.move.1 m.move.2 board).isSome

/-- `getAllMovesForTeam(board, team)` with the mandatory-capture filter. -/
def getAllMovesForTeam (board : Board) (team : Int) : List TMove :=
  let moves := teamMovesUnfiltered board team
  let captures := moves.filter (isCaptureMove board)
  if captures.length > 0 then captures else moves

/-- `countChainCaptures(board, piece, x, y, depth)`: apply the move; if it
captured nothing return `depth`; otherwise look for jump-distance (`== 2`)
continuations of the moved piece on the new board and fold `Math.max` over the
recursive counts starting from `depth + 1`.  `none` propagates the JS crash of
`applyMoveOnBoard` on a missing piece id.  Termination: a capturing
application strictly shrinks the piece list. -/
def countChainCaptures (board : Board) (piece : Piece) (x y : Int) (depth : Nat) :
    Option Nat :=
  match h : applyMoveOnBoard board piece x y with
  | none => none
  | some result =>
    if hc : result.2 = true then
      match result.1.pieces.find? (fun p => p.id == piece.id) with
      | none => some (depth + 1)
      | some newPiece =>
        let captureMoves := (findAvailableMovesOnBoard newPiece result.1).filter
          (fun m => (newPiece.x0 - m.1).natAbs == 2)
        if captureMoves.length == 0 then some (depth + 1)
        else
          captureMoves.foldlM (fun acc m =>
            (countChainCaptures result.1 newPiece m.1 m.2 (depth + 1)).map
              (fun c => max acc c)) (depth + 1)
    else some depth
termination_by board.pieces.length
decreasing_by
  simp only [applyMoveOnBoard] at h
  split at h
  · exact absurd h (by simp)
  · rw [Option.some_inj] at h
    subst h
    simp only at hc ⊢
    obtain ⟨k, hk⟩ := Option.isSome_iff_exists.mp hc
    rw [hk]
    simp only [List.length_map]
    have hmem := hk
    simp only [pieceKilledOnBoard] at hmem
    split at hmem
    · rcases List.findSome?_eq_some_iff.mp hmem with ⟨l₁, a, l₂, hsplit, hfind, -⟩
      have hmem2 := List.mem_of_find?_eq_some hfind
      refine lt_of_lt_of_le
        (List.length_filter_lt_length_iff_exists.mpr ⟨k, hmem2, by simp⟩) ?_
      simp [cloneBoard]
    · exact absurd hmem (by simp)

/-- `isSquareSafe(board, x, y, team)`: the square is unsafe when some opposing
piece has a raw ±2 diagonal jump whose midpoint is `(x, y)` and whose landing
square is on-board and empty.  `(piece.x + jx) / 2` is exact (the sum is even). -/
def isSquareSafe (board : Board) (x y : Int) (team : Int) : Bool :=
  let opponent : Int := if team == 1 then 2 else 1
  (board.pieces.filter (fun p => p.team == opponent)).all (fun piece =>
    ([(piece.x + 2, piece.y + 2), (piece.x + 2, piece.y - 2),
      (piece.x - 2, piece.y + 2), (piece.x - 2, piece.y - 2)] :
        List (Int × Int)).all (fun j =>
      let midX := (piece.x + j.1) / 2
      let midY := (piece.y + j.2) / 2
      if midX == x && midY == y then
        if j.1 ≥ 0 && j.1 ≤ 7 && j.2 ≥ 0 && j.2 ≤ 7 then
          (board.pieces.any (fun p => p.x == j.1 && p.y == j.2))
        else true
      else true))

/-- The inner per-jump test of `isSquareSafe`, lifted out for reasoning. -/
def jumpCheck (board : Board) (x y : Int) (piece : Piece) (j : Int × Int) : Bool :=
  let midX := (piece.x + j.1) / 2
  let midY := (piece.y + j.2) / 2
  if midX == x && midY == y then
    if j.1 ≥ 0 && j.1 ≤ 7 && j.2 ≥ 0 && j.2 ≤ 7 then
      (board.pieces.any (fun p => p.x == j.1 && p.y == j.2))
    else true
  else true

/-- Per-piece contribution of `evaluateBoard`'s scoring loop: signed sum of
material, advancement (with near-kinging bonus), center proximity and safety
penalty. -/
def pieceScore (board : Board) (piece : Piece) : ℚ :=
  let sign : ℚ := if piece.team == 1 then 1 else -1
  let base : ℚ := if piece.king then 25 else 10
  let adv : ℚ :=
    if !piece.king then
      let advancement : ℚ := if piece.team == 1 then (piece.y : ℚ) else 7 - (piece.y : ℚ)
      advancement * (1/2) + (if advancement == 6 then 5 else 0)
    else 0
  let centerX : ℚ := |(7/2 : ℚ) - (piece.x : ℚ)|
  let centerY : ℚ := |(7/2 : ℚ) - (piece.y : ℚ)|
  let center : ℚ := (4 - centerX - centerY) * (3/10)
  let safety : ℚ :=
    if !(isSquareSafe board piece.x piece.y piece.team) then
      (if piece.king then -15 else -10)
    else 0
  sign * (base + adv + center + safety)

/-- `evaluateBoard(board, depth)`; `depth = none` models the one-argument call
(`depth === undefined`, so `depth != null` is false).  Scores are exact
rationals. -/
def evaluateBoard (board : Board) (depth : Option ℚ) : ℚ :=
  let team1Pieces := board.pieces.filter (fun p => p.team == 1)
  let team2Pieces := board.pieces.filter (fun p => p.team == 2)
  if team1Pieces.length == 0 then
    match depth with | some d => -(10000 - d) | none => -10000
  else if team2Pieces.length == 0 then
    match depth with | some d => 10000 - d | none => 10000
  else
    let team1Moves := getAllMovesForTeam board 1
    let team2Moves := getAllMovesForTeam board 2
    if team1Moves.length == 0 then
      match depth with | some d => -(10000 - d) | none => -10000
    else if team2Moves.length == 0 then
      match depth with | some d => 10000 - d | none => 10000
    else
      let material : ℚ := (board.pieces.map (pieceScore board)).sum
      let mobility : ℚ := ((team1Moves.length : ℚ) - (team2Moves.length : ℚ)) * (1/5)
      let team1BackRank := (team1Pieces.filter (fun p => p.y == 0)).length
      let team2BackRank := (team2Pieces.filter (fun p => p.y == 7)).length
      let back1 : ℚ := if team1BackRank < 2 then -3 else 0
      let back2 : ℚ := if team2BackRank < 2 then 3 else 0
      material + mobility + back1 + back2

/-- Board well-formedness from the spec's data model: coordinates within the
8×8 board and no two pieces sharing a square. -/
def boardWF (b : Board) : Prop :=
  (∀ p ∈ b.pieces, 0 ≤ p.x ∧ p.x ≤ 7 ∧ 0 ≤ p.y ∧ p.y ≤ 7) ∧
  (b.pieces.map (fun p => (p.x, p.y))).Nodup

/-- Result of `isGameOver`. -/
structure GameStatus where
  over : Bool
  winner : Option Int
deriving DecidableEq, Repr

/-- `isGameOver(board)`. -/
def isGameOver (board : Board) : GameStatus :=
  let team1Pieces := board.pieces.filter (fun p => p.team == 1)
  let team2Pieces := board.pieces.filter (fun p => p.team == 2)
  if team1Pieces.length == 0 then ⟨true, some 2⟩
  else if team2Pieces.length == 0 then ⟨true, some 1⟩
  else
    let team1Moves := getAllMovesForTeam board 1
    let team2Moves := getAllMovesForTeam board 2
    if team1Moves.length == 0 then ⟨true, some 2⟩
    else if team2Moves.length == 0 then ⟨true, some 1⟩
    else ⟨false, none⟩

/-- The starting board built by `setupGame`: ids 0–23; team 1 on rows 0–2
(columns `2i`, `2i+1`, `2i`), team 2 on rows 5–7 (columns `2i+1`, `2i`,
`2i+1`). -/
def setupGameBoard : Board :=
  ⟨((List.range 4).map (fun i => mkPiece i (2 * i) 0 1)) ++
   ((List.range 4).map (fun i => mkPiece (4 + i) (2 * i + 1) 1 1)) ++
   ((List.range 4).map (fun i => mkPiece (8 + i) (2 * i) 2 1)) ++
   ((List.range 4).map (fun i => mkPiece (12 + i) (2 * i + 1) 5 2)) ++
   ((List.range 4).map (fun i => mkPiece (16 + i) (2 * i) 6 2)) ++
   ((List.range 4).map (fun i => mkPiece (20 + i) (2 * i + 1) 7 2))⟩

/-! ### Explicit-heap model of `applyMoveOnBoard`

JS `Piece` and `Board` values are heap objects and the simulation helpers
mutate them through references.  To state the clone-purity claim (the input
board is never mutated) the function is re-modelled over explicit heaps:
a piece heap (cell = the fields of one `Piece` object) and a board heap
(cell = the `pieces` array of one `Board` object).  References are heap
indices; `new` appends a cell. -/

/-- Heap of `Piece` objects. -/
abbrev PieceHeap := List Piece

/-- Heap of `Board` objects (each holds its `pieces` array of piece refs). -/
abbrev BoardHeap := List (List Nat)

/-- The piece-cloning loop of `cloneBoard` over the heap: for each source ref,
read the object and allocate a fresh copy (`new Piece(p.id, p.x, p.y, p.team)`
followed by the `x0`, `y0`, `king` field copies).  `none` models the crash on
a dangling ref (never reachable from a well-formed board). -/
def cloneRefs (ph : PieceHeap) (refs : List Nat) : Option (PieceHeap × List Nat) :=
  match refs with
  | [] => some (ph, [])
  | r :: rest =>
    match ph[r]? with
    | none => none
    | some d =>
      let ph1 := ph ++
        [{ mkPiece d.id d.x d.y d.team with x0 := d.x0, y0 := d.y0, king := d.king }]
      match cloneRefs ph1 rest with
      | none => none
      | some (ph2, rs) => some (ph2, ph.length :: rs)

/-- Dereference a board's piece refs into the piece values they hold. -/
def readPieces (ph : PieceHeap) (refs : List Nat) : List Piece :=
  refs.filterMap (fun r => ph[r]?)

/-- Field mutation of the piece object at ref `r` (no-op on a dangling ref). -/
def heapUpdate (ph : PieceHeap) (r : Nat) (f : Piece → Piece) : PieceHeap :=
  match ph[r]? with
  | some d => ph.set r (f d)
  | none => ph

/-- `applyMoveOnBoard` over the explicit heaps: clone the board (fresh piece
objects and a fresh board object), find the clone's piece with the moving
piece's id, mutate its `x`/`y`, detect and filter out the captured piece
(reassigning the new board object's `pieces` array), commit `x0`/`y0` and
promote — every write targets freshly allocated cells.  Returns the final
heaps, the ref of the returned board object, and the `captured` flag. -/
def applyMoveOnBoardH (ph : PieceHeap) (bh : BoardHeap) (bref : Nat)
    (pieceId : Int) (x y : Int) : Option (PieceHeap × BoardHeap × Nat × Bool) :=
  match bh[bref]? with
  | none => none
  | some refs =>
    match cloneRefs ph refs with
    | none => none
    | some (ph1, newRefs) =>
      let bh1 := bh ++ [newRefs]
      let newBref := bh.length
      match newRefs.find? (fun r =>
          match ph1[r]? with | some d => d.id == pieceId | none => false) with
      | none => none
      | some r =>
        let ph2 := heapUpdate ph1 r (fun d => { d with x := x, y := y })
        match ph2[r]? with
        | none => none
        | some moved =>
          let killed := pieceKilledOnBoard moved x y ⟨readPieces ph2 newRefs⟩
          let bh2 : BoardHeap := match killed with
            | some k => bh1.set newBref (newRefs.filter (fun r' =>
                match ph2[r']? with | some d => d.id != k.id | none => true))
            | none => bh1
          let ph3 := heapUpdate ph2 r (fun d => { d with x0 := x, y0 := y })
          let ph4 := heapUpdate ph3 r (fun d =>
            if d.team == (1 : Int) && d.y == (7 : Int) then { d with king := true } else d)
          let ph5 := heapUpdate ph4 r (fun d =>
            if d.team == (2 : Int) && d.y == (0 : Int) then { d with king := true } else d)
          some (ph5, bh2, newBref, killed.isSome)

/-- Spec-side predicate (from the claim's words): `(qx, qy)` lies strictly
between `(x0, y0)` and `(x, y)` along the segment joining them (interval in
both axes, and on the connecting line). -/
def betweenOnMoveDiag (x0 y0 x y qx qy : Int) : Prop :=
  (min x0 x < qx ∧ qx < max x0 x) ∧ (min y0 y < qy ∧ qy < max y0 y) ∧
  (qx - x0) * (y - y0) = (qy - y0) * (x - x0)

instance (x0 y0 x y qx qy : Int) : Decidable (betweenOnMoveDiag x0 y0 x y qx qy) := by
  unfold betweenOnMoveDiag; infer_instance

/-- Team swap used by the mirror-symmetry property (spec §8): team 1 and
team 2 exchange roles, other values unchanged. -/
def mirrorTeam (t : Int) : Int := if t = 1 then 2 else if t = 2 then 1 else t

/-- Reflection of a piece across the board's horizontal midline with team
swap (spec §8 symmetry property): `y ↦ 7 - y`, `x` unchanged, king kept. -/
def mirrorPiece (p : Piece) : Piece :=
  { p with y := 7 - p.y, y0 := 7 - p.y0, team := mirrorTeam p.team }

/-- Mirrored board. -/
def mirrorBoard (b : Board) : Board := ⟨b.pieces.map mirrorPiece⟩

/-- Mirrored destination square. -/
def mirrorMove (m : Int × Int) : Int × Int := (m.1, 7 - m.2)

/-- Mirrored `(piece, move)` pair. -/
def mirrorTMove (m : TMove) : TMove := ⟨mirrorPiece m.piece, mirrorMove m.move⟩

/-- Vertical flip of a direction offset. -/
def negOffset (d : Int × Int) : Int × Int := (d.1, -d.2)

/-! ### AI policies (claim C9)

`Math.random()` is modelled by an oracle `o : ℕ → ℚ` together with an explicit
call counter: the `k`-th call returns `o k`.  A JS crash (property access on
`undefined`/`null`, out-of-range index) is `none` in the outer `Option`; the
inner `Option` is the JS `null` return value. -/

def AI_NOISE : ℚ := 15

/-- `aiNoise()` for the `k`-th random draw. -/
def aiNoiseQ (o : ℕ → ℚ) (k : ℕ) : ℚ := (o k - 1/2) * AI_NOISE

/-- `Math.floor(r * n)` used to index an array of length `n`. -/
def randIndex (r : ℚ) (n : ℕ) : ℕ := (r * n).floor.toNat

/-- A valid `Math.random` stream: every draw lies in `[0, 1)`. -/
def OracleOK (o : ℕ → ℚ) : Prop := ∀ i, 0 ≤ o i ∧ o i < 1

/-- An entry of the `scoredMoves`/`allMoves` arrays built by the heuristic
policies. -/
structure ScoredMove where
  piece : Piece
  move : Int × Int
  score : ℚ
deriving DecidableEq, Repr

/-- The common `for (let { piece, move } of moves) { ...; allMoves.push({...}) }`
loop: score every move in order, threading the random counter; a crash in the
per-move scorer aborts. -/
def scoreList (f : TMove → ℕ → Option (ℚ × ℕ)) :
    List TMove → ℕ → Option (List ScoredMove × ℕ)
  | [], k => some ([], k)
  | m :: rest, k =>
    match f m k with
    | none => none
    | some (s, k') =>
      match scoreList f rest k' with
      | none => none
      | some (l, k'') => some (⟨m.piece, m.move, s⟩ :: l, k'')

/-- The common tail of the heuristic policies: stable-sort descending by score
(`sort((a, b) => b.score - a.score)`), read `maxScore` from the head, filter by
the policy's threshold, pick a random survivor. -/
def chooseBest (scored : List ScoredMove) (thr : ℚ → ℚ) (o : ℕ → ℚ) (k : ℕ) :
    Option (TMove × ℕ) :=
  match scored.mergeSort (fun a b => decide (b.score ≤ a.score)) with
  | [] => none
  | top :: rest =>
    let maxScore := top.score
    let best := (top :: rest).filter (fun m => decide (thr maxScore ≤ m.score))
    match best[randIndex (o k) best.length]? with
    | none => none
    | some m => some (⟨m.piece, m.move⟩, k + 1)

/-- `randomAI(board, team)`. -/
def randomAI (b : Board) (t : Int) (o : ℕ → ℚ) (k : ℕ) :
    Option (Option TMove × ℕ) :=
  let moves := getAllMovesForTeam b t
  if moves.length = 0 then some (none, k)
  else
    match moves[randIndex (o k) moves.length]? with
    | none => none
    | some m => some (some m, k + 1)

/-- The per-move scorer of `greedyAI`'s capture branch. -/
def greedyScore (b : Board) (t : Int) (o : ℕ → ℚ) (m : TMove) (k : ℕ) :
    Option (ℚ × ℕ) :=
  match countChainCaptures b m.piece m.move.1 m.move.2 0 with
  | none => none
  | some chains =>
    let safe := isSquareSafe b m.move.1 m.move.2 t
    some ((chains : ℚ) * 100 + (if safe then 50 else 0) + aiNoiseQ o k, k + 1)

/-- `greedyAI(board, team)`. -/
def greedyAI (b : Board) (t : Int) (o : ℕ → ℚ) (k : ℕ) :
    Option (Option TMove × ℕ) :=
  let moves := getAllMovesForTeam b t
  if moves.length = 0 then some (none, k)
  else
    match moves[0]? with
    | none => none
    | some m0 =>
      let hasCaptures := (pieceKilledOnBoard m0.piece m0.move.1 m0.move.2 b).isSome
      if !hasCaptures then
        match moves[randIndex (o k) moves.length]? with
        | none => none
        | some m => some (some m, k + 1)
      else
        match scoreList (greedyScore b t o) moves k with
        | none => none
        | some (scored, k') =>
          match chooseBest scored (fun ms => ms) o k' with
          | none => none
          | some (m, k'') => some (some m, k'')

/-- The per-move scorer of `superGreedyAI`. -/
def superGreedyScore (b : Board) (t : Int) (o : ℕ → ℚ) (m : TMove) (k : ℕ) :
    Option (ℚ × ℕ) :=
  let isCapture := (pieceKilledOnBoard m.piece m.move.1 m.move.2 b).isSome
  match (if isCapture then countChainCaptures b m.piece m.move.1 m.move.2 0
         else some 0) with
  | none => none
  | some totalCaptures =>
    let safe := isSquareSafe b m.move.1 m.move.2 t
    let advancement : Int :=
      if !m.piece.king then (if t == 1 then m.move.2 else 7 - m.move.2) else 0
    let centerX : ℚ := 4 - |(7/2 : ℚ) - (m.move.1 : ℚ)|
    let centerY : ℚ := 4 - |(7/2 : ℚ) - (m.move.2 : ℚ)|
    match applyMoveOnBoard b m.piece m.move.1 m.move.2 with
    | none => none
    | some sim =>
      let exposed := ((sim.1.pieces.filter (fun p => p.team == t)).filter
        (fun p => !(isSquareSafe sim.1 p.x p.y t))).length
      some ((totalCaptures : ℚ) * 200 + (if safe then 100 else -60) +
        (advancement : ℚ) * 10 + (centerX + centerY) / 2 -
        (exposed : ℚ) * 120 + aiNoiseQ o k, k + 1)

/-- `superGreedyAI(board, team)`. -/
def superGreedyAI (b : Board) (t : Int) (o : ℕ → ℚ) (k : ℕ) :
    Option (Option TMove × ℕ) :=
  let moves := getAllMovesForTeam b t
  if moves.length = 0 then some (none, k)
  else
    match scoreList (superGreedyScore b t o) moves k with
    | none => none
    | some (scored, k') =>
      match chooseBest scored
          (fun ms => if ms > 0 then ms * (9/10) else ms - 10) o k' with
      | none => none
      | some (m, k'') => some (some m, k'')

/-- The per-move scorer of `defensiveAI`. -/
def defensiveScore (b : Board) (t : Int) (o : ℕ → ℚ) (m : TMove) (k : ℕ) :
    Option (ℚ × ℕ) :=
  let isCapture := (pieceKilledOnBoard m.piece m.move.1 m.move.2 b).isSome
  let currentlyThreatened := !(isSquareSafe b m.piece.x m.piece.y t)
  let destinationSafe := isSquareSafe b m.move.1 m.move.2 t
  match applyMoveOnBoard b m.piece m.move.1 m.move.2 with
  | none => none
  | some sim =>
    let exposed := ((sim.1.pieces.filter (fun p => p.team == t)).filter
      (fun p => !(isSquareSafe sim.1 p.x p.y t))).length
    let backRankBonus : Int := if t == 1 then 7 - m.move.2 else m.move.2
    some ((if currentlyThreatened && destinationSafe then 500 else 0) +
      (if destinationSafe then 200 else -300) - (exposed : ℚ) * 150 +
      (if isCapture && destinationSafe then 150 else 0) +
      (backRankBonus : ℚ) * 10 + aiNoiseQ o k, k + 1)

/-- `defensiveAI(board, team)`. -/
def defensiveAI (b : Board) (t : Int) (o : ℕ → ℚ) (k : ℕ) :
    Option (Option TMove × ℕ) :=
  let moves := getAllMovesForTeam b t
  if moves.length = 0 then some (none, k)
  else
    match scoreList (defensiveScore b t o) moves k with
    | none => none
    | some (scored, k') =>
      match chooseBest scored (fun ms => ms - 50) o k' with
      | none => none
      | some (m, k'') => some (some m, k'')

/-- The three strategies of `adaptiveAI`. -/
inductive Strategy where
  | aggressive
  | positional
  | defensive
deriving DecidableEq, Repr

/-- `exposurePenalty[strategy]`. -/
def exposurePenalty : Strategy → ℚ
  | .aggressive => 80
  | .positional => 100
  | .defensive => 130

/-- The per-move scorer of `adaptiveAI` for a fixed strategy. -/
def adaptiveScore (b : Board) (t : Int) (o : ℕ → ℚ) (strategy : Strategy)
    (m : TMove) (k : ℕ) : Option (ℚ × ℕ) :=
  let isCapture := (pieceKilledOnBoard m.piece m.move.1 m.move.2 b).isSome
  let safe := isSquareSafe b m.move.1 m.move.2 t
  match (if isCapture then countChainCaptures b m.piece m.move.1 m.move.2 0
         else some 0) with
  | none => none
  | some chainCaptures =>
    let advancement : Int := if t == 1 then m.move.2 else 7 - m.move.2
    let centerBonus : ℚ :=
      4 - |(7/2 : ℚ) - (m.move.1 : ℚ)| + 4 - |(7/2 : ℚ) - (m.move.2 : ℚ)|
    match applyMoveOnBoard b m.piece m.move.1 m.move.2 with
    | none => none
    | some sim =>
      let exposed := ((sim.1.pieces.filter (fun p => p.team == t)).filter
        (fun p => !(isSquareSafe sim.1 p.x p.y t))).length
      let base : ℚ :=
        match strategy with
        | .aggressive => (chainCaptures : ℚ) * 200 +
            (if isCapture then 150 else 0) + (advancement : ℚ) * 15 +
            (if safe then 80 else -60)
        | .defensive => (if safe then 300 else -200) +
            (if isCapture && safe then 150 else 0) -
            (advancement : ℚ) * 5 + (7 - (advancement : ℚ)) * 10
        | .positional => (chainCaptures : ℚ) * 100 +
            (if safe then 150 else -100) + centerBonus * 15 +
            (advancement : ℚ) * 10
      some (base - (exposed : ℚ) * exposurePenalty strategy + aiNoiseQ o k, k + 1)

/-- `adaptiveAI(board, team)`. -/
def adaptiveAI (b : Board) (t : Int) (o : ℕ → ℚ) (k : ℕ) :
    Option (Option TMove × ℕ) :=
  let myPieces := b.pieces.filter (fun p => p.team == t)
  let oppPieces := b.pieces.filter (fun p => p.team != t)
  let myMaterial : Int := (myPieces.map (fun p => if p.king then (25 : Int) else 10)).sum
  let oppMaterial : Int := (oppPieces.map (fun p => if p.king then (25 : Int) else 10)).sum
  let advantage := myMaterial - oppMaterial
  let strategy : Strategy :=
    if advantage ≥ 20 then .defensive
    else if advantage ≤ -20 then .aggressive
    else .positional
  let moves := getAllMovesForTeam b t
  if moves.length = 0 then some (none, k)
  else
    match scoreList (adaptiveScore b t o strategy) moves k with
    | none => none
    | some (scored, k') =>
      match chooseBest scored (fun ms => ms - 20) o k' with
      | none => none
      | some (m, k'') => some (some m, k'')

/-- The per-move scorer of `positionalAI`.  (`avgY` divides by the mover's own
team size after the move, which is nonzero in every reachable state; ℚ division
by zero would be `0` where JS produces `NaN`.) -/
def positionalScore (b : Board) (t opponent : Int) (o : ℕ → ℚ) (m : TMove)
    (k : ℕ) : Option (ℚ × ℕ) :=
  match applyMoveOnBoard b m.piece m.move.1 m.move.2 with
  | none => none
  | some sim =>
    let isCapture := (pieceKilledOnBoard m.piece m.move.1 m.move.2 b).isSome
    let myPieces := sim.1.pieces.filter (fun p => p.team == t)
    let cohesion : ℕ := (myPieces.map (fun p =>
      (myPieces.filter (fun q => p.id != q.id &&
        (p.x - q.x).natAbs ≤ 1 && (p.y - q.y).natAbs ≤ 1)).length)).sum
    let centerX : ℚ := 4 - |(7/2 : ℚ) - (m.move.1 : ℚ)|
    let centerY : ℚ := 4 - |(7/2 : ℚ) - (m.move.2 : ℚ)|
    let avgY : ℚ :=
      ((myPieces.map (fun p =>
        if t == 1 then (p.y : ℚ) else 7 - (p.y : ℚ))).sum) /
        (myPieces.length : ℚ)
    let myAdvancement : ℚ := if t == 1 then (m.move.2 : ℚ) else 7 - (m.move.2 : ℚ)
    let deviation : ℚ := |myAdvancement - avgY|
    let backRank : Int := if t == 1 then 0 else 7
    let backRankPieces := (myPieces.filter (fun p => p.y == backRank)).length
    let oppMoves := getAllMovesForTeam sim.1 opponent
    let safe := isSquareSafe sim.1 m.move.1 m.move.2 t
    let exposed := (myPieces.filter
      (fun p => !(isSquareSafe sim.1 p.x p.y t))).length
    some ((cohesion : ℚ) * 25 + (centerX + centerY) * 15 +
      avgY * 10 - deviation * 20 +
      (if m.piece.y == backRank && m.move.2 != backRank &&
          backRankPieces ≤ 2 then -80 else 0) -
      (oppMoves.length : ℚ) * 8 + (if safe then 60 else -120) -
      (exposed : ℚ) * 60 +
      (if isCapture && safe then 150
       else if isCapture && !safe then 20 else 0) +
      aiNoiseQ o k, k + 1)

/-- `positionalAI(board, team)`. -/
def positionalAI (b : Board) (t : Int) (o : ℕ → ℚ) (k : ℕ) :
    Option (Option TMove × ℕ) :=
  let opponent : Int := if t == 1 then 2 else 1
  let moves := getAllMovesForTeam b t
  if moves.length = 0 then some (none, k)
  else
    match scoreList (positionalScore b t opponent o) moves k with
    | none => none
    | some (scored, k') =>
      match chooseBest scored (fun ms => ms - 30) o k' with
      | none => none
      | some (m, k'') => some (some m, k'')

/-- JS numbers extended with the `±Infinity` sentinels of minimax and MCTS. -/
inductive XScore where
  | ninf
  | fin (q : ℚ)
  | pinf
deriving DecidableEq, Repr

/-- `a <= b` on extended scores. -/
def XScore.le : XScore → XScore → Bool
  | .ninf, _ => true
  | _, .pinf => true
  | .fin a, .fin b => decide (a ≤ b)
  | .pinf, .fin _ => false
  | .pinf, .ninf => false
  | .fin _, .ninf => false

/-- `a < b` on extended scores. -/
def XScore.lt (a b : XScore) : Bool := !(XScore.le b a)

/-- `Math.max` on extended scores. -/
def XScore.max (a b : XScore) : XScore := if XScore.lt a b then b else a

/-- `Math.min` on extended scores. -/
def XScore.min (a b : XScore) : XScore := if XScore.lt b a then b else a

/-- Adding a finite number to an extended score. -/
def XScore.addQ : XScore → ℚ → XScore
  | .ninf, _ => .ninf
  | .pinf, _ => .pinf
  | .fin a, q => .fin (a + q)

/-- The 0/1 capture flag used by minimax's move-ordering comparator. -/
def captureFlag (b : Board) (m : TMove) : Int :=
  if (pieceKilledOnBoard m.piece m.move.1 m.move.2 b).isSome then 1 else 0

mutual

/-- `minimax(board, depth, alpha, beta, maximizingPlayer, currentTeam, maxDepth)`. -/
def minimax (board : Board) (depth : Nat) (alpha beta : XScore)
    (maximizingPlayer : Bool) (currentTeam : Int) (maxDepth : Nat) :
    Option XScore :=
  let gameStatus := isGameOver board
  if gameStatus.over then
    let depthPenalty : ℚ := (maxDepth : ℚ) - (depth : ℚ)
    some (if gameStatus.winner == some 1 then XScore.fin (10000 - depthPenalty)
          else XScore.fin (-(10000 - depthPenalty)))
  else if depth = 0 then some (XScore.fin (evaluateBoard board none))
  else
    let moves := (getAllMovesForTeam board currentTeam).mergeSort
      (fun a b => decide (captureFlag board b ≤ captureFlag board a))
    if maximizingPlayer then
      minimaxFold board moves (depth - 1) alpha beta true currentTeam maxDepth
        XScore.ninf
    else
      minimaxFold board moves (depth - 1) alpha beta false currentTeam maxDepth
        XScore.pinf
termination_by (depth + 1, 0, 0)

/-- The alpha–beta move loop of `minimax`; `depth` is already the child depth,
`acc` is `maxEval`/`minEval`. -/
def minimaxFold (board : Board) (moves : List TMove) (depth : Nat)
    (alpha beta : XScore) (maximizingPlayer : Bool) (currentTeam : Int)
    (maxDepth : Nat) (acc : XScore) : Option XScore :=
  match moves with
  | [] => some acc
  | m :: rest =>
    match applyMoveOnBoard board m.piece m.move.1 m.move.2 with
    | none => none
    | some result =>
      match minimax result.1 depth alpha beta (!maximizingPlayer)
          (if currentTeam == 1 then 2 else 1) maxDepth with
      | none => none
      | some evalScore =>
        if maximizingPlayer then
          let acc2 := XScore.max acc evalScore
          let alpha2 := XScore.max alpha evalScore
          if XScore.le beta alpha2 then some acc2
          else minimaxFold board rest depth alpha2 beta maximizingPlayer
            currentTeam maxDepth acc2
        else
          let acc2 := XScore.min acc evalScore
          let beta2 := XScore.min beta evalScore
          if XScore.le beta2 alpha then some acc2
          else minimaxFold board rest depth alpha beta2 maximizingPlayer
            currentTeam maxDepth acc2
termination_by (depth + 1, 0, moves.length)

end

/-- The `for (let { piece, move } of moves)` loop of `minimaxAI`. -/
def minimaxAILoop (b : Board) (t : Int) (o : ℕ → ℚ) (depth : Nat) :
    List TMove → ℕ → Option TMove → XScore → Option (Option TMove × ℕ)
  | [], k, bestMove, _ => some (bestMove, k)
  | m :: rest, k, bestMove, bestScore =>
    match applyMoveOnBoard b m.piece m.move.1 m.move.2 with
    | none => none
    | some result =>
      match minimax result.1 (depth - 1) XScore.ninf XScore.pinf (t != 1)
          (if t == 1 then 2 else 1) depth with
      | none => none
      | some s =>
        let score := XScore.addQ s (aiNoiseQ o k)
        if (t == 1 && XScore.lt bestScore score) ||
           (t == 2 && XScore.lt score bestScore) then
          minimaxAILoop b t o depth rest (k + 1) (some m) score
        else
          minimaxAILoop b t o depth rest (k + 1) bestMove bestScore

/-- `minimaxAI(board, team, depth = 4)`. -/
def minimaxAI (b : Board) (t : Int) (o : ℕ → ℚ) (k : ℕ) (depth : Nat) :
    Option (Option TMove × ℕ) :=
  let moves := getAllMovesForTeam b t
  if moves.length = 0 then some (none, k)
  else minimaxAILoop b t o depth moves k none
    (if t == 1 then XScore.ninf else XScore.pinf)

/-- A node of the MCTS tree.  The mutable JS object graph is an arena (list)
of nodes; node 0 is the root and parent/children links are list indices.
`Math.sqrt`/`Math.log` enter through oracle parameters `sq`/`lg`. -/
structure MCTSNode where
  board : Board
  team : Int
  parent : Option ℕ
  move : Option (Int × Int)
  piece : Option Piece
  children : List ℕ
  visits : ℕ
  wins : ℚ
  untried : Option (List TMove)
deriving DecidableEq, Repr

/-- The MCTS node arena. -/
abbrev Arena := List MCTSNode

/-- `getUntriedMoves()`: lazily initialise and cache the untried move list. -/
def getUntriedMoves (a : Arena) (i : ℕ) : Option (Arena × List TMove) :=
  match a[i]? with
  | none => none
  | some nd =>
    match nd.untried with
    | some l => some (a, l)
    | none =>
      let l := getAllMovesForTeam nd.board nd.team
      some (a.set i { nd with untried := some l }, l)

/-- `isTerminal()`. -/
def isTerminalN (a : Arena) (i : ℕ) : Option Bool :=
  (a[i]?).map (fun nd => (isGameOver nd.board).over)

/-- `ucb1(explorationParam = 1.41)`; crashes (`none`) on the root, whose
`parent` is `null`. -/
def ucb1 (sq lg : ℚ → ℚ) (a : Arena) (i : ℕ) : Option XScore :=
  match a[i]? with
  | none => none
  | some nd =>
    if nd.visits = 0 then some XScore.pinf
    else
      match nd.parent with
      | none => none
      | some pi =>
        match a[pi]? with
        | none => none
        | some pnd =>
          some (XScore.fin (nd.wins / (nd.visits : ℚ) +
            (141/100) * sq (lg (pnd.visits : ℚ) / (nd.visits : ℚ))))

/-- The `for (let child of this.children)` loop of `selectChild()`. -/
def selectChildLoop (sq lg : ℚ → ℚ) (a : Arena) :
    List ℕ → Option ℕ → XScore → Option (Option ℕ)
  | [], best, _ => some best
  | c :: rest, best, bestUCB =>
    match ucb1 sq lg a c with
    | none => none
    | some u =>
      if XScore.lt bestUCB u then selectChildLoop sq lg a rest (some c) u
      else selectChildLoop sq lg a rest best bestUCB

/-- `selectChild()`. -/
def selectChild (sq lg : ℚ → ℚ) (a : Arena) (i : ℕ) : Option (Option ℕ) :=
  match a[i]? with
  | none => none
  | some nd => selectChildLoop sq lg a nd.children none XScore.ninf

/-- `expand()`: draw a random untried move, remove it (`splice`), apply it and
append the child node. -/
def expand (o : ℕ → ℚ) (a : Arena) (i : ℕ) (k : ℕ) :
    Option (Arena × Option ℕ × ℕ) :=
  match getUntriedMoves a i with
  | none => none
  | some (a1, untried) =>
    if untried.length = 0 then some (a1, none, k)
    else
      let idx := randIndex (o k) untried.length
      match untried[idx]? with
      | none => none
      | some tm =>
        match a1[i]? with
        | none => none
        | some nd =>
          let a2 := a1.set i { nd with untried := some (untried.eraseIdx idx) }
          match applyMoveOnBoard nd.board tm.piece tm.move.1 tm.move.2 with
          | none => none
          | some result =>
            let childIdx := a2.length
            let child : MCTSNode :=
              ⟨result.1, if nd.team == 1 then 2 else 1, some i,
                some tm.move, some tm.piece, [], 0, 0, none⟩
            let a3 := a2 ++ [child]
            match a3[i]? with
            | none => none
            | some nd2 =>
              some (a3.set i { nd2 with children := nd2.children ++ [childIdx] },
                some childIdx, k + 1)

/-- The selection descent
`while (!node.isTerminal() && node.isFullyExpanded() && node.children.length > 0)`.
Fuel bounds the walk; child indices strictly increase, so `a.length` steps
always suffice. -/
def mctsSelectLoop (sq lg : ℚ → ℚ) : ℕ → Arena → ℕ → Option (Arena × ℕ)
  | 0, a, i => some (a, i)
  | fuel + 1, a, i =>
    match isTerminalN a i with
    | none => none
    | some true => some (a, i)
    | some false =>
      match getUntriedMoves a i with
      | none => none
      | some (a1, l) =>
        if l.length ≠ 0 then some (a1, i)
        else
          match a1[i]? with
          | none => none
          | some nd =>
            if nd.children.length = 0 then some (a1, i)
            else
              match selectChild sq lg a1 i with
              | none => none
              | some none => none
              | some (some j) => mctsSelectLoop sq lg fuel a1 j

/-- The `for (let i = 0; i < maxMoves; i++)` rollout loop of `mctsSimulate`. -/
def mctsSimulateLoop (o : ℕ → ℚ) : ℕ → Board → Int → ℕ → Option (ℚ × ℕ)
  | 0, simBoard, _, k =>
    let score := evaluateBoard simBoard none
    some (if score > 0 then 1 else if score < 0 then 0 else 1/2, k)
  | fuel + 1, simBoard, team, k =>
    let status := isGameOver simBoard
    if status.over then some ((if status.winner == some 1 then (1 : ℚ) else 0), k)
    else
      let moves := getAllMovesForTeam simBoard team
      if moves.length = 0 then some ((if team == 1 then (0 : ℚ) else 1), k)
      else
        let captures := moves.filter (fun m =>
          (pieceKilledOnBoard m.piece m.move.1 m.move.2 simBoard).isSome)
        match (if captures.length > 0 then
            match captures[randIndex (o k) captures.length]? with
            | none => none
            | some tm => some (tm, k + 1)
          else
            let safeMoves := moves.filter (fun m =>
              isSquareSafe simBoard m.move.1 m.move.2 team)
            if safeMoves.length > 0 then
              if o k < 7/10 then
                match safeMoves[randIndex (o (k + 1)) safeMoves.length]? with
                | none => none
                | some tm => some (tm, k + 2)
              else
                match moves[randIndex (o (k + 1)) moves.length]? with
                | none => none
                | some tm => some (tm, k + 2)
            else
              match moves[randIndex (o k) moves.length]? with
              | none => none
              | some tm => some (tm, k + 1)) with
        | none => none
        | some (chosen, k') =>
          match applyMoveOnBoard simBoard chosen.piece chosen.move.1 chosen.move.2 with
          | none => none
          | some result =>
            mctsSimulateLoop o fuel result.1 (if team == 1 then 2 else 1) k'

/-- `mctsSimulate(board, currentTeam, maxMoves = 100)`. -/
def mctsSimulate (o : ℕ → ℚ) (board : Board) (currentTeam : Int) (k : ℕ) :
    Option (ℚ × ℕ) :=
  mctsSimulateLoop o 100 (cloneBoard board) currentTeam k

/-- `mctsBackpropagate(node, result, rootTeam)`; fuel bounds the parent walk
(parent indices strictly decrease, so `i + 1` steps suffice). -/
def mctsBackpropagate (rootTeam : Int) (result : ℚ) : ℕ → Arena → ℕ → Option Arena
  | 0, a, _ => some a
  | fuel + 1, a, i =>
    match a[i]? with
    | none => none
    | some nd =>
      match ((match nd.parent with
             | some pi => (a[pi]?).map (fun pnd => pnd.team)
             | none => some rootTeam) : Option Int) with
      | none => none
      | some nodeTeam =>
        let w := nd.wins + (if nodeTeam == 1 then result else 1 - result)
        let a1 := a.set i { nd with visits := nd.visits + 1, wins := w }
        match nd.parent with
        | none => some a1
        | some pi => mctsBackpropagate rootTeam result fuel a1 pi

/-- One iteration of the main MCTS loop: select, expand, simulate (or score a
terminal leaf), backpropagate; the `continue` branch returns the arena
unchanged. -/
def mctsIter (sq lg : ℚ → ℚ) (o : ℕ → ℚ) (rootTeam : Int) (a : Arena) (k : ℕ) :
    Option (Arena × ℕ) :=
  match mctsSelectLoop sq lg a.length a 0 with
  | none => none
  | some (a1, i) =>
    match isTerminalN a1 i with
    | none => none
    | some term =>
      match (if term then some (a1, some i, k) else
          match getUntriedMoves a1 i with
          | none => none
          | some (a2, l) =>
            if l.length = 0 then some (a2, some i, k)
            else expand o a2 i k) with
      | none => none
      | some (a4, nodeOpt, k1) =>
        match nodeOpt with
        | none => some (a4, k1)
        | some j =>
          match isTerminalN a4 j with
          | none => none
          | some term2 =>
            match a4[j]? with
            | none => none
            | some nd =>
              match (if term2 then
                  some ((if (isGameOver nd.board).winner == some 1 then (1 : ℚ)
                    else 0), k1)
                else mctsSimulate o nd.board nd.team k1) with
              | none => none
              | some (result, k2) =>
                match mctsBackpropagate rootTeam result (j + 1) a4 j with
                | none => none
                | some a5 => some (a5, k2)

/-- The `for (let i = 0; i < iterations; i++)` loop of `mctsAI`. -/
def mctsIterate (sq lg : ℚ → ℚ) (o : ℕ → ℚ) (rootTeam : Int) :
    ℕ → Arena → ℕ → Option (Arena × ℕ)
  | 0, a, k => some (a, k)
  | n + 1, a, k =>
    match mctsIter sq lg o rootTeam a k with
    | none => none
    | some (a1, k1) => mctsIterate sq lg o rootTeam n a1 k1

/-- The final most-visited-child scan of `mctsAI`. -/
def bestChildLoop (a : Arena) : List ℕ → Option ℕ → Int → Option (Option ℕ)
  | [], best, _ => some best
  | c :: rest, best, bestVisits =>
    match a[c]? with
    | none => none
    | some nd =>
      if (nd.visits : Int) > bestVisits then bestChildLoop a rest (some c) nd.visits
      else bestChildLoop a rest best bestVisits

/-- `mctsAI(board, team, iterations = 1000)`.  The returned JS object
`{ piece: originalPiece, move: bestChild.move }` is modelled with its two
possibly-undefined fields. -/
def mctsAI (sq lg : ℚ → ℚ) (o : ℕ → ℚ) (b : Board) (team : Int) (k : ℕ)
    (iterations : ℕ) :
    Option (Option (Option Piece × Option (Int × Int)) × ℕ) :=
  let root : MCTSNode := ⟨b, team, none, none, none, [], 0, 0, none⟩
  let a : Arena := [root]
  if (isGameOver b).over then some (none, k)
  else
    let moves := getAllMovesForTeam b team
    if moves.length = 0 then some (none, k)
    else if moves.length = 1 then
      match moves[0]? with
      | none => none
      | some m => some (some (some m.piece, some m.move), k)
    else
      match mctsIterate sq lg o team iterations a k with
      | none => none
      | some (a1, k1) =>
        match a1[0]? with
        | none => none
        | some rootNd =>
          match bestChildLoop a1 rootNd.children none (-1) with
          | none => none
          | some none => some (none, k1)
          | some (some c) =>
            match a1[c]? with
            | none => none
            | some nd =>
              match nd.piece with
              | none => none
              | some pc =>
                let originalPiece := b.pieces.find? (fun p => p.id == pc.id)
                some (some (originalPiece, nd.move), k1)

/-- The eight AI policy identifiers of the dispatcher. -/
inductive PlayerType where
  | random
  | greedy
  | superGreedy
  | defensive
  | adaptive
  | minimax
  | mcts
  | positional
deriving DecidableEq, Repr

/-- Injects a heuristic policy result into the dispatcher's uniform
`{ piece, move }` shape (both fields defined). -/
def liftPolicy (r : Option (Option TMove × ℕ)) :
    Option (Option (Option Piece × Option (Int × Int)) × ℕ) :=
  r.map (fun p => (p.1.map (fun m => (some m.piece, some m.move)), p.2))

/-- The trailing mandatory-capture enforcement block of `getAIMove`: if the
chosen policy's move is not a capture while the (already filtered) move list
starts with a capture, a random capturing move replaces it. -/
def enforceMandatoryCapture (o : ℕ → ℚ) (b : Board) (team : Int)
    (r : Option (Option (Option Piece × Option (Int × Int)) × ℕ)) :
    Option (Option (Option Piece × Option (Int × Int)) × ℕ) :=
  match r with
  | none => none
  | some (res?, k1) =>
    match res? with
    | none => some (none, k1)
    | some res =>
      match res.1 with
      | none => none
      | some p =>
        match res.2 with
        | none => none
        | some mv =>
          let isCapture := (pieceKilledOnBoard p mv.1 mv.2 b).isSome
          if !isCapture then
            let captures := getAllMovesForTeam b team
            if captures.length > 0 then
              match captures[0]? with
              | none => none
              | some c0 =>
                if (pieceKilledOnBoard c0.piece c0.move.1 c0.move.2 b).isSome then
                  match captures[randIndex (o k1) captures.length]? with
                  | none => none
                  | some cm => some (some (some cm.piece, some cm.move), k1 + 1)
                else some (some res, k1)
            else some (some res, k1)
          else some (some res, k1)

/-- `getAIMove(playerType, team)` on board `b` (the JS global `game.board`),
including the trailing mandatory-capture enforcement. -/
def getAIMove (pt : PlayerType) (sq lg : ℚ → ℚ) (o : ℕ → ℚ) (b : Board)
    (team : Int) (k : ℕ) :
    Option (Option (Option Piece × Option (Int × Int)) × ℕ) :=
  enforceMandatoryCapture o b team
    (match pt with
    | .random => liftPolicy (randomAI b team o k)
    | .greedy => liftPolicy (greedyAI b team o k)
    | .superGreedy => liftPolicy (superGreedyAI b team o k)
    | .defensive => liftPolicy (defensiveAI b team o k)
    | .adaptive => liftPolicy (adaptiveAI b team o k)
    | .minimax => liftPolicy (minimaxAI b team o k 4)
    | .mcts => mctsAI sq lg o b team k 1000
    | .positional => liftPolicy (positionalAI b team o k))

/-- Well-formedness of an MCTS arena over a root board `b`: the root exists
and carries `b`; children point strictly forward and in range; cached untried
moves use the node's own board's pieces; non-root nodes point strictly back to
their parent; the root's children carry a defined move and a piece of `b`. -/
def arenaWF (b : Board) (a : Arena) : Prop :=
  (∃ rootNd, a[0]? = some rootNd ∧ rootNd.board = b ∧ rootNd.parent = none) ∧
  (∀ i nd, a[i]? = some nd →
    (∀ c ∈ nd.children, i < c ∧ c < a.length) ∧
    (∀ l, nd.untried = some l → ∀ m ∈ l, m.piece ∈ nd.board.pieces) ∧
    (i ≠ 0 → ∃ pi, nd.parent = some pi ∧ pi < i)) ∧
  (∀ rootNd, a[0]? = some rootNd → ∀ c ∈ rootNd.children,
    ∀ nd, a[c]? = some nd →
      (∃ p, nd.piece = some p ∧ p ∈ b.pieces) ∧ (∃ mv, nd.move = some mv))

/-- The number of children recorded at the root. -/
def rootChildCount (a : Arena) : ℕ :=
  match a[0]? with
  | some nd => nd.children.length
  | none => 0

/-! ### Helper lemmas -/

/-- Cloning is the identity on board values (it copies every field). -/
theorem cloneBoard_eq (b : Board) : cloneBoard b = b := by
  simp only [cloneBoard, mkPiece]
  cases b with
  | mk pieces =>
    simp only [Board.mk.injEq]
    have : ∀ p : Piece,
        ({ id := p.id, x := p.x, y := p.y, x0 := p.x0, y0 := p.y0, team := p.team,
           king := p.king } : Piece) = p := fun p => rfl
    simp [this]

/-- Pieces returned by `pieceKilledOnBoard` are pieces of the board, of the
opposing team. -/
theorem pieceKilledOnBoard_mem {piece : Piece} {x y : Int} {board : Board} {k : Piece}
    (h : pieceKilledOnBoard piece x y board = some k) :
    k ∈ board.pieces ∧ (k.team == piece.team) = false := by
  simp only [pieceKilledOnBoard] at h
  split at h
  · rcases List.findSome?_eq_some_iff.mp h with ⟨l₁, a, l₂, -, hfind, -⟩
    refine ⟨List.mem_of_find?_eq_some hfind, ?_⟩
    have := List.find?_some hfind
    simp only [Bool.and_eq_true, bne_iff_ne, ne_eq] at this
    simp [this.2]
  · exact absurd h (by simp)

/-! ### Claim C1 — mandatory-capture filtering at team level -/

/-- Claim C1: if `getAllMovesForTeam(board, team)` returns any capturing move
(one with a non-null `pieceKilledOnBoard`), then every move it returns is a
capture; and if no capturing move exists among the per-piece union, the full
unfiltered union is returned. -/
theorem C1_mandatory_capture_filter (board : Board) (team : Int) :
    ((∃ m ∈ getAllMovesForTeam board team, isCaptureMove board m = true) →
      ∀ m ∈ getAllMovesForTeam board team, isCaptureMove board m = true) ∧
    ((∀ m ∈ teamMovesUnfiltered board team, isCaptureMove board m = false) →
      getAllMovesForTeam board team = teamMovesUnfiltered board team) := by
  constructor
  · rintro ⟨m, hm, hcap⟩ m' hm'
    simp only [getAllMovesForTeam] at hm hm' ⊢
    split at hm'
    · exact (List.mem_filter.mp hm').2
    · rename_i hlen
      split at hm
      · exact absurd (List.length_pos.mpr (List.ne_nil_of_mem hm)) (by omega)
      · exact absurd (List.length_pos.mpr
          (List.ne_nil_of_mem (List.mem_filter.mpr ⟨hm, hcap⟩))) (by omega)
  · intro hnone
    have hfil : (teamMovesUnfiltered board team).filter (isCaptureMove board) = [] := by
      rw [List.filter_eq_nil_iff]
      intro m hm
      simp [hnone m hm]
    simp [getAllMovesForTeam, hfil]

/-- Claim C1 witness: on a one-capture board the filtered list is all
captures; on the opening board (no captures) the unfiltered union is
returned. -/
theorem C1_mandatory_capture_filter_witness :
    (∀ m ∈ getAllMovesForTeam ⟨[mkPiece 0 2 2 1, mkPiece 1 3 3 2]⟩ 1,
      isCaptureMove ⟨[mkPiece 0 2 2 1, mkPiece 1 3 3 2]⟩ m = true) ∧
    getAllMovesForTeam setupGameBoard 1 = teamMovesUnfiltered setupGameBoard 1 := by
  constructor
  · exact (C1_mandatory_capture_filter ⟨[mkPiece 0 2 2 1, mkPiece 1 3 3 2]⟩ 1).1
      ⟨⟨mkPiece 0 2 2 1, (4, 4)⟩, by decide, by decide⟩
  · exact (C1_mandatory_capture_filter setupGameBoard 1).2 (by decide)

/-! ### Claim C7 — opening-position move count -/

/-- Claim C7: on the `setupGame` starting board (24 pieces, team 1 rows 0–2,
team 2 rows 5–7, no kings), `getAllMovesForTeam(board, 1)` returns exactly 7
moves, all non-capturing, all belonging to the four row-2 men of team 1. -/
theorem C7_opening_seven_moves :
    (getAllMovesForTeam setupGameBoard 1).length = 7 ∧
    (∀ m ∈ getAllMovesForTeam setupGameBoard 1,
      isCaptureMove setupGameBoard m = false ∧ m.piece.y = 2 ∧ m.piece.team = 1 ∧
      m.piece.king = false) := by
  decide

/-! ### Claim C3 — immediate king promotion in `applyMoveOnBoard` -/

/-- Claim C3: in the board returned by `applyMoveOnBoard`, the moved piece is
at `(x, y)` and its king flag is set exactly when it already was a king, or it
is a team-1 piece landing on row 7, or a team-2 piece landing on row 0; the
promotion is present in the returned board itself. -/
theorem C3_promotion (board : Board) (piece : Piece) (x y : Int) (b' : Board)
    (cap : Bool) (p0 : Piece)
    (hf : board.pieces.find? (fun p => p.id == piece.id) = some p0)
    (happ : applyMoveOnBoard board piece x y = some (b', cap)) :
    ∀ q ∈ b'.pieces, q.id = piece.id →
      q.x = x ∧ q.y = y ∧ q.team = p0.team ∧
      q.king = (p0.king || (p0.team == 1 && y == 7) || (p0.team == 2 && y == 0)) := by
  simp only [applyMoveOnBoard, cloneBoard_eq] at happ
  rw [hf] at happ
  simp only [Option.some_inj, Prod.ext_iff] at happ
  obtain ⟨hb, -⟩ := happ
  intro q hq hqid
  rw [← hb] at hq
  simp only at hq
  rcases List.mem_map.mp hq with ⟨p, hp, hpq⟩
  by_cases hpid : (p.id == piece.id) = true
  · rw [if_pos hpid] at hpq
    subst hpq
    by_cases c1 : (p0.team == (1 : Int) && y == (7 : Int)) = true <;>
      by_cases c2 : (p0.team == (2 : Int) && y == (0 : Int)) = true <;>
      simp [c1, c2]
  · rw [if_neg hpid] at hpq
    subst hpq
    exact absurd hqid (by simpa using hpid)

/-- Claim C3 witness: a team-1 man moved to row 7 in a concrete two-piece
position comes out of `applyMoveOnBoard` at its destination with the king
flag set. -/
theorem C3_promotion_witness :
    ((⟨[mkPiece 0 6 6 1, mkPiece 1 5 5 2]⟩ : Board).pieces.find?
        (fun p => p.id == (mkPiece 0 6 6 1).id) = some (mkPiece 0 6 6 1)) ∧
    (applyMoveOnBoard ⟨[mkPiece 0 6 6 1, mkPiece 1 5 5 2]⟩ (mkPiece 0 6 6 1) 7 7 =
      some (⟨[{ mkPiece 0 7 7 1 with king := true }, mkPiece 1 5 5 2]⟩, false)) ∧
    ({ mkPiece 0 7 7 1 with king := true } : Piece).x = 7 ∧
    ({ mkPiece 0 7 7 1 with king := true } : Piece).y = 7 ∧
    ({ mkPiece 0 7 7 1 with king := true } : Piece).team = (mkPiece 0 6 6 1).team ∧
    ({ mkPiece 0 7 7 1 with king := true } : Piece).king =
      ((mkPiece 0 6 6 1).king ||
        ((mkPiece 0 6 6 1).team == (1 : Int) && ((7 : Int) == (7 : Int))) ||
        ((mkPiece 0 6 6 1).team == (2 : Int) && ((7 : Int) == (0 : Int)))) :=
  ⟨by decide, by decide,
    C3_promotion ⟨[mkPiece 0 6 6 1, mkPiece 1 5 5 2]⟩ (mkPiece 0 6 6 1) 7 7
      ⟨[{ mkPiece 0 7 7 1 with king := true }, mkPiece 1 5 5 2]⟩ false
      (mkPiece 0 6 6 1) (by decide) (by decide)
      { mkPiece 0 7 7 1 with king := true } (by decide) (by decide)⟩

/-! ### Claim C10 — men may move and capture in all four diagonal directions -/

/-- Claim C10: `validJumpOnBoard` imposes no forward-direction restriction on
non-king pieces: for any sign pair `(sx, sy)` with `sx, sy ∈ {1, -1}`, a
1-square diagonal move to an empty on-board square is accepted, and a 2-square
jump over an adjacent opposing piece onto an empty on-board square is
accepted, in that direction. -/
theorem C10_men_move_backwards (piece : Piece) (board : Board) (sx sy : Int)
    (hking : piece.king = false) (hsx : sx = 1 ∨ sx = -1) (hsy : sy = 1 ∨ sy = -1) :
    ((0 ≤ piece.x0 + sx ∧ piece.x0 + sx ≤ 7 ∧ 0 ≤ piece.y0 + sy ∧ piece.y0 + sy ≤ 7) →
      (∀ q ∈ board.pieces, ¬(q.x = piece.x0 + sx ∧ q.y = piece.y0 + sy)) →
      validJumpOnBoard piece (piece.x0 + sx) (piece.y0 + sy) board = true) ∧
    ((0 ≤ piece.x0 + 2 * sx ∧ piece.x0 + 2 * sx ≤ 7 ∧
        0 ≤ piece.y0 + 2 * sy ∧ piece.y0 + 2 * sy ≤ 7) →
      (∀ q ∈ board.pieces, ¬(q.x = piece.x0 + 2 * sx ∧ q.y = piece.y0 + 2 * sy)) →
      (∃ q ∈ board.pieces,
        q.x = piece.x0 + sx ∧ q.y = piece.y0 + sy ∧ q.team ≠ piece.team) →
      (∀ q ∈ board.pieces,
        q.x = piece.x0 + sx ∧ q.y = piece.y0 + sy → q.team ≠ piece.team) →
      validJumpOnBoard piece (piece.x0 + 2 * sx) (piece.y0 + 2 * sy) board = true) := by
  constructor
  · rintro ⟨hb1, hb2, hb3, hb4⟩ hempty
    simp only [validJumpOnBoard]
    rw [if_neg (by simp only [Bool.or_eq_true, decide_eq_true_eq]; omega)]
    rw [if_neg (by
      simp only [bne_iff_ne, ne_eq, not_not]
      rcases hsx with h | h <;> rcases hsy with h' | h' <;> subst h <;> subst h' <;>
        norm_num)]
    rw [if_neg (by
      simp only [Bool.and_eq_true, beq_iff_eq, not_and]
      intro h; exfalso; rcases hsx with h' | h' <;> omega)]
    rw [if_neg (by
      simp only [Bool.and_eq_true, bne_iff_ne, ne_eq, Bool.not_eq_true', hking]
      rcases hsx with h | h <;> subst h <;> norm_num)]
    rw [if_neg (by
      simp only [List.find?_isSome, not_exists, not_and]
      intro q hq hpred
      simp only [Bool.and_eq_true, beq_iff_eq, bne_iff_ne, ne_eq] at hpred
      exact absurd ⟨hpred.1.1, hpred.1.2⟩ (hempty q hq))]
    rw [if_neg (by
      simp only [List.find?_isSome, not_exists, not_and]
      intro q hq hpred
      simp only [Bool.and_eq_true, beq_iff_eq] at hpred
      obtain ⟨⟨hx, hy⟩, -⟩ := hpred
      rcases hsx with h | h <;> omega)]
    rw [if_neg (by
      simp only [Bool.and_eq_true, beq_iff_eq]
      rintro ⟨⟨h2, -⟩, -⟩
      rcases hsx with h | h <;> omega)]
  · rintro ⟨hb1, hb2, hb3, hb4⟩ hempty ⟨q0, hq0, hq0x, hq0y, hq0t⟩ hnofriend
    simp only [validJumpOnBoard]
    rw [if_neg (by simp only [Bool.or_eq_true, decide_eq_true_eq]; omega)]
    rw [if_neg (by
      simp only [bne_iff_ne, ne_eq, not_not]
      rcases hsx with h | h <;> rcases hsy with h' | h' <;> subst h <;> subst h' <;>
        norm_num)]
    rw [if_neg (by
      simp only [Bool.and_eq_true, beq_iff_eq, not_and]
      intro h; exfalso; rcases hsx with h' | h' <;> omega)]
    rw [if_neg (by
      simp only [Bool.and_eq_true, bne_iff_ne, ne_eq, Bool.not_eq_true', hking]
      rcases hsx with h | h <;> subst h <;> norm_num)]
    rw [if_neg (by
      simp only [List.find?_isSome, not_exists, not_and]
      intro q hq hpred
      simp only [Bool.and_eq_true, beq_iff_eq, bne_iff_ne, ne_eq] at hpred
      exact absurd ⟨hpred.1.1, hpred.1.2⟩ (hempty q hq))]
    rw [if_neg (by
      simp only [List.find?_isSome, not_exists, not_and]
      intro q hq hpred
      simp only [Bool.and_eq_true, beq_iff_eq] at hpred
      obtain ⟨⟨hx, hy⟩, ht⟩ := hpred
      have hqx : q.x = piece.x0 + sx := by rcases hsx with h | h <;> omega
      have hqy : q.y = piece.y0 + sy := by rcases hsy with h | h <;> omega
      exact absurd ht (hnofriend q hq ⟨hqx, hqy⟩))]
    rw [if_neg (by
      simp only [Bool.and_eq_true, Option.isNone_iff_eq_none]
      rintro ⟨-, hk⟩
      have hnone := List.find?_eq_none.mp hk q0 hq0
      simp only [Bool.and_eq_true, beq_iff_eq, bne_iff_ne, ne_eq] at hnone
      exact hnone ⟨⟨by omega, by omega⟩, hq0t⟩)]

/-- Claim C10 witness: a lone team-1 man at `(3, 3)` may step backwards to
`(2, 2)`, and jump backwards over an enemy at `(2, 2)` onto `(1, 1)`. -/
theorem C10_men_move_backwards_witness :
    validJumpOnBoard (mkPiece 0 3 3 1) 2 2 ⟨[mkPiece 0 3 3 1]⟩ = true ∧
    validJumpOnBoard (mkPiece 0 3 3 1) 1 1 ⟨[mkPiece 0 3 3 1, mkPiece 1 2 2 2]⟩ = true := by
  constructor
  · have h := (C10_men_move_backwards (mkPiece 0 3 3 1) ⟨[mkPiece 0 3 3 1]⟩
      (-1) (-1) (by decide) (Or.inr rfl) (Or.inr rfl)).1 (by decide) (by decide)
    simpa using h
  · have h := (C10_men_move_backwards (mkPiece 0 3 3 1)
      ⟨[mkPiece 0 3 3 1, mkPiece 1 2 2 2]⟩ (-1) (-1) (by decide)
      (Or.inr rfl) (Or.inr rfl)).2 (by decide) (by decide)
      ⟨mkPiece 1 2 2 2, by decide, by decide, by decide, by decide⟩ (by decide)
    simpa using h

/-! ### Claim C8 — capture detection scans the bounding-box diagonal -/

/-- Membership in the scanned-square list. -/
theorem killScanSquares_mem_iff (sx sy : Int) (n : Nat) (qx qy : Int) :
    (qx, qy) ∈ killScanSquares sx sy n ↔
      ∃ k : Nat, k < n ∧ qx = sx + 1 + (k : Int) ∧ qy = sy + 1 + (k : Int) := by
  unfold killScanSquares
  rw [List.mem_map]
  constructor
  · rintro ⟨k, hk, heq⟩
    rw [List.mem_range] at hk
    rw [Prod.mk.injEq] at heq
    exact ⟨k, hk, heq.1.symm, heq.2.symm⟩
  · rintro ⟨k, hk, h1, h2⟩
    exact ⟨k, List.mem_range.mpr hk, by rw [Prod.mk.injEq]; exact ⟨h1.symm, h2.symm⟩⟩

/-- The scanned squares have (weakly) increasing x-coordinates. -/
theorem killScanSquares_pairwise (sx sy : Int) (n : Nat) :
    (killScanSquares sx sy n).Pairwise (fun p q => p.1 ≤ q.1) := by
  unfold killScanSquares
  rw [List.pairwise_map]
  exact (List.pairwise_lt_range n).imp (by intro a b h; simp; omega)

/-- Claim C8 counterexample: a king at `(0, 3)` moving to `(3, 0)` (diagonal
distance 3 in both axes) with an opposing piece at `(1, 2)` strictly between
source and destination on the move's diagonal; `pieceKilledOnBoard` returns
`null` because it scans the reflected diagonal `(1, 1), (2, 2)` instead. -/
theorem C8_counterexample :
    pieceKilledOnBoard { mkPiece 0 0 3 1 with king := true } 3 0
      ⟨[{ mkPiece 0 0 3 1 with king := true }, mkPiece 1 1 2 2]⟩ = none ∧
    (mkPiece 1 1 2 2).team ≠ ({ mkPiece 0 0 3 1 with king := true } : Piece).team ∧
    betweenOnMoveDiag 0 3 3 0 1 2 := by
  decide

/-- Claim C8 (amended): for destinations at distance `|Δx| ≤ 1` the function
returns `null`; for diagonal destinations of distance `> 1` whose `Δx` and
`Δy` have the same sign, it returns `null` exactly when no opposing piece
stands strictly between source and destination on the move's diagonal, and
any returned piece is an opposing board piece strictly between on that
diagonal, on the first (lowest-coordinate) occupied scanned square.  (For
anti-diagonal moves of distance `≥ 3` the scanned squares are the reflected
diagonal of the bounding box; see the counterexample.) -/
theorem C8_pieceKilled_characterization (piece : Piece) (x y : Int) (board : Board) :
    ((x - piece.x0).natAbs ≤ 1 → pieceKilledOnBoard piece x y board = none) ∧
    ((x - piece.x0).natAbs = (y - piece.y0).natAbs → 1 < (x - piece.x0).natAbs →
      0 < (x - piece.x0) * (y - piece.y0) →
      ((pieceKilledOnBoard piece x y board = none ↔
        ∀ q ∈ board.pieces,
          ¬(q.team ≠ piece.team ∧ betweenOnMoveDiag piece.x0 piece.y0 x y q.x q.y)) ∧
      (∀ q, pieceKilledOnBoard piece x y board = some q →
        q ∈ board.pieces ∧ q.team ≠ piece.team ∧
        betweenOnMoveDiag piece.x0 piece.y0 x y q.x q.y ∧
        (∀ q' ∈ board.pieces, q'.team ≠ piece.team →
          betweenOnMoveDiag piece.x0 piece.y0 x y q'.x q'.y → q.x ≤ q'.x)))) := by
  constructor
  · intro hle
    simp only [pieceKilledOnBoard]
    rw [if_neg (by omega)]
  · intro hd hgt hsg
    have hcase : (piece.x0 < x ∧ piece.y0 < y) ∨ (x < piece.x0 ∧ y < piece.y0) := by
      rcases lt_trichotomy (x - piece.x0) 0 with h | h | h <;>
        rcases lt_trichotomy (y - piece.y0) 0 with h' | h' | h' <;> try (exfalso; nlinarith)
      · right; omega
      · left; omega
    have hxy : x - piece.x0 = y - piece.y0 := by
      rcases hcase with ⟨hx, hy⟩ | ⟨hx, hy⟩ <;> omega
    have hscan : ∀ qx qy : Int,
        ((qx, qy) ∈ killScanSquares (min piece.x0 x) (min piece.y0 y)
          ((min (max piece.x0 x - min piece.x0 x) (max piece.y0 y - min piece.y0 y))
            - 1).toNat) ↔
        betweenOnMoveDiag piece.x0 piece.y0 x y qx qy := by
      intro qx qy
      rw [killScanSquares_mem_iff]
      unfold betweenOnMoveDiag
      rcases hcase with ⟨hx, hy⟩ | ⟨hx, hy⟩
      · rw [min_eq_left (le_of_lt hx), min_eq_left (le_of_lt hy),
          max_eq_right (le_of_lt hx), max_eq_right (le_of_lt hy)]
        constructor
        · rintro ⟨k, hk, h1, h2⟩
          have e : qx - piece.x0 = qy - piece.y0 := by omega
          refine ⟨⟨by omega, by omega⟩, ⟨by omega, by omega⟩, by rw [e, ← hxy]⟩
        · rintro ⟨⟨h1, h2⟩, ⟨h3, h4⟩, h5⟩
          rw [← hxy] at h5
          have hq : qx - piece.x0 = qy - piece.y0 :=
            mul_right_cancel₀ (show x - piece.x0 ≠ 0 by omega) h5
          refine ⟨(qx - piece.x0 - 1).toNat, by omega, by omega, by omega⟩
      · rw [min_eq_right (le_of_lt hx), min_eq_right (le_of_lt hy),
          max_eq_left (le_of_lt hx), max_eq_left (le_of_lt hy)]
        constructor
        · rintro ⟨k, hk, h1, h2⟩
          have e : qx - piece.x0 = qy - piece.y0 := by omega
          refine ⟨⟨by omega, by omega⟩, ⟨by omega, by omega⟩, by rw [e, ← hxy]⟩
        · rintro ⟨⟨h1, h2⟩, ⟨h3, h4⟩, h5⟩
          rw [← hxy] at h5
          have hq : qx - piece.x0 = qy - piece.y0 :=
            mul_right_cancel₀ (show x - piece.x0 ≠ 0 by omega) h5
          refine ⟨(qx - x - 1).toNat, by omega, by omega, by omega⟩
    have hunfold : pieceKilledOnBoard piece x y board =
        (killScanSquares (min piece.x0 x) (min piece.y0 y)
          ((min (max piece.x0 x - min piece.x0 x) (max piece.y0 y - min piece.y0 y))
            - 1).toNat).findSome? (fun sq =>
          board.pieces.find? (fun p =>
            p.x == sq.1 && p.y == sq.2 && p.team != piece.team)) := by
      simp only [pieceKilledOnBoard]
      rw [if_pos (by omega)]
    constructor
    · rw [hunfold, List.findSome?_eq_none_iff]
      constructor
      · intro hall q hq hcontra
        obtain ⟨hteam, hbet⟩ := hcontra
        have hfnone := hall (q.x, q.y) ((hscan q.x q.y).mpr hbet)
        rw [List.find?_eq_none] at hfnone
        apply hfnone q hq
        simp [hteam]
      · intro hnone sq hsq
        rw [List.find?_eq_none]
        intro q hq hpred
        simp only [Bool.and_eq_true, beq_iff_eq, bne_iff_ne, ne_eq] at hpred
        obtain ⟨⟨hqx, hqy⟩, hqt⟩ := hpred
        have hbet : betweenOnMoveDiag piece.x0 piece.y0 x y q.x q.y := by
          apply (hscan q.x q.y).mp
          rw [hqx, hqy]
          cases sq
          exact hsq
        exact hnone q hq ⟨hqt, hbet⟩
    · intro q hq
      rw [hunfold] at hq
      rcases List.findSome?_eq_some_iff.mp hq with ⟨l₁, a, l₂, hsplit, hfind, hprefix⟩
      have hqmem := List.mem_of_find?_eq_some hfind
      have hqpred := List.find?_some hfind
      simp only [Bool.and_eq_true, beq_iff_eq, bne_iff_ne, ne_eq] at hqpred
      obtain ⟨⟨hqx, hqy⟩, hqt⟩ := hqpred
      have hamem : a ∈ killScanSquares (min piece.x0 x) (min piece.y0 y)
          ((min (max piece.x0 x - min piece.x0 x) (max piece.y0 y - min piece.y0 y))
            - 1).toNat := by
        rw [hsplit]; simp
      have hbet : betweenOnMoveDiag piece.x0 piece.y0 x y q.x q.y := by
        apply (hscan q.x q.y).mp
        rw [hqx, hqy]
        cases a
        exact hamem
      refine ⟨hqmem, hqt, hbet, ?_⟩
      intro q1 hq1 hq1t hq1bet
      have hq1mem := (hscan q1.x q1.y).mpr hq1bet
      rw [hsplit] at hq1mem
      rcases List.mem_append.mp hq1mem with hin1 | hin2
      · exfalso
        have hfnone := hprefix (q1.x, q1.y) hin1
        rw [List.find?_eq_none] at hfnone
        apply hfnone q1 hq1
        simp [hq1t]
      · have hpair := killScanSquares_pairwise (min piece.x0 x) (min piece.y0 y)
          ((min (max piece.x0 x - min piece.x0 x) (max piece.y0 y - min piece.y0 y))
            - 1).toNat
        rw [hsplit, List.pairwise_append] at hpair
        have hpcons := hpair.2.1
        rw [List.pairwise_cons] at hpcons
        rcases List.mem_cons.mp hin2 with heq | hmem2
        · have hxeq : q1.x = a.1 := by rw [← heq]
          omega
        · have hle := hpcons.1 (q1.x, q1.y) hmem2
          simp only at hle
          omega

/-- Claim C8 witness: a distance-1 move detects no capture, and a same-sign
jump over an adjacent enemy does detect one. -/
theorem C8_pieceKilled_characterization_witness :
    pieceKilledOnBoard (mkPiece 0 2 2 1) 1 2 ⟨[mkPiece 0 2 2 1]⟩ = none ∧
    pieceKilledOnBoard (mkPiece 0 2 2 1) 4 4
      ⟨[mkPiece 0 2 2 1, mkPiece 1 3 3 2]⟩ ≠ none := by
  constructor
  · exact (C8_pieceKilled_characterization (mkPiece 0 2 2 1) 1 2
      ⟨[mkPiece 0 2 2 1]⟩).1 (by decide)
  · intro hnone
    have h := ((C8_pieceKilled_characterization (mkPiece 0 2 2 1) 4 4
      ⟨[mkPiece 0 2 2 1, mkPiece 1 3 3 2]⟩).2 (by decide) (by decide) (by decide)).1.mp
      hnone
    exact (h (mkPiece 1 3 3 2) (by decide)) (by decide)

/-! ### Claim C6 — chain-capture counting -/

/-- Behaviour of the `Math.max` fold over the recursive chain counts: the
result dominates the accumulator and every listed count, and is attained by
the accumulator or one of the counts. -/
theorem foldlM_max_spec {α : Type} (g : α → Option Nat) :
    ∀ (ms : List α) (acc n : Nat),
      ms.foldlM (fun a m => (g m).map (fun c => max a c)) acc = some n →
      acc ≤ n ∧ (∀ m ∈ ms, ∃ c, g m = some c ∧ c ≤ n) ∧
        (n = acc ∨ ∃ m ∈ ms, g m = some n) := by
  intro ms
  induction ms with
  | nil =>
    intro acc n h
    rw [List.foldlM_nil, show (pure acc : Option Nat) = some acc from rfl,
      Option.some_inj] at h
    subst h
    exact ⟨le_refl _, by simp, Or.inl rfl⟩
  | cons m ms ih =>
    intro acc n h
    rw [List.foldlM_cons] at h
    rcases hg : g m with _ | c
    · rw [hg] at h
      simp at h
    · rw [hg] at h
      simp only [Option.map_some', Option.some_bind] at h
      obtain ⟨hle, hall, hach⟩ := ih (max acc c) n h
      refine ⟨le_trans (le_max_left _ _) hle, ?_, ?_⟩
      · intro m' hm'
        rcases List.mem_cons.mp hm' with heq | hmem
        · exact ⟨c, heq ▸ hg, le_trans (le_max_right _ _) hle⟩
        · exact hall m' hmem
      · rcases hach with heq | ⟨m', hm', hg'⟩
        · rcases max_choice acc c with hmax | hmax
          · exact Or.inl (by omega)
          · exact Or.inr ⟨m, List.mem_cons_self .., by rw [hg, heq, hmax]⟩
        · exact Or.inr ⟨m', List.mem_cons_of_mem _ hm', hg'⟩

/-- The `Math.max` fold succeeds when every recursive count does. -/
theorem foldlM_max_isSome {α : Type} (g : α → Option Nat) (ms : List α) (acc : Nat)
    (h : ∀ m ∈ ms, (g m).isSome) :
    (ms.foldlM (fun a m => (g m).map (fun c => max a c)) acc).isSome := by
  induction ms generalizing acc with
  | nil => simp
  | cons m ms ih =>
    rw [List.foldlM_cons]
    rcases hg : g m with _ | c
    · exact absurd (h m (List.mem_cons_self ..)) (by simp [hg])
    · simp only [Option.map_some', Option.some_bind]
      exact ih _ (fun m1 hm1 => h m1 (List.mem_cons_of_mem _ hm1))

/-- `applyMoveOnBoard` succeeds exactly when a piece with the moving piece's
id is on the board. -/
theorem applyMoveOnBoard_isSome (board : Board) (piece : Piece) (x y : Int)
    (hex : ∃ p ∈ board.pieces, p.id = piece.id) :
    ∃ r, applyMoveOnBoard board piece x y = some r := by
  simp only [applyMoveOnBoard, cloneBoard_eq]
  rcases hf : board.pieces.find? (fun p => p.id == piece.id) with _ | found
  · rw [List.find?_eq_none] at hf
    obtain ⟨p, hp, hid⟩ := hex
    exact absurd (by simp [hid]) (hf p hp)
  · rw [hf]
    exact ⟨_, rfl⟩

/-- A capturing application strictly shrinks the piece list. -/
theorem applyMove_capture_length {board : Board} {piece : Piece} {x y : Int} {b1 : Board}
    (h : applyMoveOnBoard board piece x y = some (b1, true)) :
    b1.pieces.length < board.pieces.length := by
  simp only [applyMoveOnBoard] at h
  split at h
  · exact absurd h (by simp)
  · rw [Option.some_inj, Prod.ext_iff] at h
    obtain ⟨hb, hcap⟩ := h
    simp only at hb hcap
    obtain ⟨k, hk⟩ := Option.isSome_iff_exists.mp hcap
    rw [← hb]
    rw [hk]
    simp only [List.length_map]
    have hmem := (pieceKilledOnBoard_mem hk).1
    refine lt_of_lt_of_le
      (List.length_filter_lt_length_iff_exists.mpr ⟨k, hmem, by simp⟩) ?_
    simp [cloneBoard]

/-- `countChainCaptures` is total whenever the moving piece's id is on the
board (the JS recursion always terminates and never crashes there). -/
theorem countChainCaptures_total :
    ∀ (board : Board) (piece : Piece) (x y : Int) (depth : Nat),
      (∃ p ∈ board.pieces, p.id = piece.id) →
      ∃ n, countChainCaptures board piece x y depth = some n := by
  suffices H : ∀ (N : Nat) (board : Board) (piece : Piece) (x y : Int) (depth : Nat),
      board.pieces.length ≤ N → (∃ p ∈ board.pieces, p.id = piece.id) →
      ∃ n, countChainCaptures board piece x y depth = some n by
    intro board piece x y depth hex
    exact H board.pieces.length board piece x y depth le_rfl hex
  intro N
  induction N with
  | zero =>
    intro board piece x y depth hlen hex
    obtain ⟨p, hp, -⟩ := hex
    rw [Nat.le_zero, List.length_eq_zero] at hlen
    rw [hlen] at hp
    exact absurd hp (List.not_mem_nil p)
  | succ N ih =>
    intro board piece x y depth hlen hex
    obtain ⟨⟨b1, captured⟩, happ⟩ := applyMoveOnBoard_isSome board piece x y hex
    cases captured with
    | false =>
      rw [countChainCaptures, happ]
      exact ⟨depth, by simp⟩
    | true =>
      rw [countChainCaptures, happ]
      rcases hnp : b1.pieces.find? (fun p => p.id == piece.id) with _ | np
      · exact ⟨depth + 1, by simp [hnp]⟩
      · by_cases hc : (((findAvailableMovesOnBoard np b1).filter
            (fun m => (np.x0 - m.1).natAbs == 2)).length == 0) = true
        · exact ⟨depth + 1, by simp [hnp, hc]⟩
        · have hlt : b1.pieces.length < board.pieces.length := applyMove_capture_length happ
          have hsome := foldlM_max_isSome
            (fun m : Int × Int => countChainCaptures b1 np m.1 m.2 (depth + 1))
            ((findAvailableMovesOnBoard np b1).filter
              (fun m => (np.x0 - m.1).natAbs == 2)) (depth + 1)
            (fun m hm => by
              obtain ⟨c, hc2⟩ := ih b1 np m.1 m.2 (depth + 1) (by omega)
                ⟨np, List.mem_of_find?_eq_some hnp, rfl⟩
              simp [hc2])
          obtain ⟨n, hn⟩ := Option.isSome_iff_exists.mp hsome
          exact ⟨n, by simpa [hnp, hc] using hn⟩

/-- Every chain count is at least the starting depth. -/
theorem countChainCaptures_ge (board : Board) :
    ∀ (piece : Piece) (x y : Int) (depth n : Nat),
      countChainCaptures board piece x y depth = some n → depth ≤ n := by
  intro piece x y depth n h
  rcases happ : applyMoveOnBoard board piece x y with _ | ⟨b1, captured⟩
  · rw [countChainCaptures, happ] at h
    exact absurd h (by simp)
  · cases captured with
    | false =>
      rw [countChainCaptures, happ] at h
      simp at h
      omega
    | true =>
      rw [countChainCaptures, happ] at h
      rcases hnp : b1.pieces.find? (fun p => p.id == piece.id) with _ | np
      · simp [hnp] at h
        omega
      · by_cases hc : (((findAvailableMovesOnBoard np b1).filter
            (fun m => (np.x0 - m.1).natAbs == 2)).length == 0) = true
        · simp [hnp, hc] at h
          omega
        · have h2 : ((findAvailableMovesOnBoard np b1).filter
              (fun m => (np.x0 - m.1).natAbs == 2)).foldlM
              (fun acc m => (countChainCaptures b1 np m.1 m.2 (depth + 1)).map
                (fun c => max acc c)) (depth + 1) = some n := by
            rw [← h]
            simp [hnp, hc]
          have := (foldlM_max_spec _ _ _ _ h2).1
          omega

/-- Claim C6: `countChainCaptures` is total on applicable moves and satisfies
the spec's recursion: `depth` when the applied move captures nothing;
`depth + 1` when it captures and the moved piece has no distance-2
continuation on the resulting board (or has disappeared from it); otherwise
the maximum of the recursive counts over all distance-2 continuations. -/
theorem C6_countChainCaptures_spec (board : Board) (piece : Piece) (x y : Int)
    (depth : Nat) (b' : Board) (captured : Bool)
    (happ : applyMoveOnBoard board piece x y = some (b', captured)) :
    (captured = false → countChainCaptures board piece x y depth = some depth) ∧
    (captured = true → ∀ np, b'.pieces.find? (fun p => p.id == piece.id) = some np →
      (((findAvailableMovesOnBoard np b').filter
          (fun m => (np.x0 - m.1).natAbs == 2)) = [] →
        countChainCaptures board piece x y depth = some (depth + 1)) ∧
      (((findAvailableMovesOnBoard np b').filter
          (fun m => (np.x0 - m.1).natAbs == 2)) ≠ [] →
        ∃ n, countChainCaptures board piece x y depth = some n ∧
          (∀ m ∈ (findAvailableMovesOnBoard np b').filter
              (fun m => (np.x0 - m.1).natAbs == 2),
            ∃ c, countChainCaptures b' np m.1 m.2 (depth + 1) = some c ∧
              depth + 1 ≤ c ∧ c ≤ n) ∧
          (∃ m ∈ (findAvailableMovesOnBoard np b').filter
              (fun m => (np.x0 - m.1).natAbs == 2),
            countChainCaptures b' np m.1 m.2 (depth + 1) = some n))) ∧
    (captured = true → b'.pieces.find? (fun p => p.id == piece.id) = none →
      countChainCaptures board piece x y depth = some (depth + 1)) := by
  refine ⟨?_, ?_, ?_⟩
  · intro hcap
    rw [countChainCaptures, happ]
    simp [hcap]
  · intro hcap np hnp
    subst hcap
    constructor
    · intro hconts
      rw [countChainCaptures, happ]
      simp [hnp, hconts]
    · intro hconts
      have hunf : countChainCaptures board piece x y depth =
          ((findAvailableMovesOnBoard np b').filter
            (fun m => (np.x0 - m.1).natAbs == 2)).foldlM
            (fun acc m => (countChainCaptures b' np m.1 m.2 (depth + 1)).map
              (fun c => max acc c)) (depth + 1) := by
        have hcfalse : (((findAvailableMovesOnBoard np b').filter
            (fun m => (np.x0 - m.1).natAbs == 2)).length == 0) = false := by
          simp only [beq_eq_false_iff_ne, ne_eq, List.length_eq_zero]
          exact fun h => hconts (by simpa using h)
        rw [countChainCaptures, happ]
        simp [hnp, hcfalse]
      rcases hres : countChainCaptures board piece x y depth with _ | n
      · exfalso
        rw [hunf] at hres
        have hsome := foldlM_max_isSome
          (fun m : Int × Int => countChainCaptures b' np m.1 m.2 (depth + 1))
          ((findAvailableMovesOnBoard np b').filter
            (fun m => (np.x0 - m.1).natAbs == 2)) (depth + 1)
          (fun m hm => by
            obtain ⟨c, hc⟩ := countChainCaptures_total b' np m.1 m.2 (depth + 1)
              ⟨np, List.mem_of_find?_eq_some hnp, rfl⟩
            simp [hc])
        rw [hres] at hsome
        simp at hsome
      · obtain ⟨hge, hall, hach⟩ := foldlM_max_spec _ _ _ _ (hunf ▸ hres)
        refine ⟨n, rfl, ?_, ?_⟩
        · intro m hm
          obtain ⟨c, hc, hcle⟩ := hall m hm
          exact ⟨c, hc, countChainCaptures_ge b' np m.1 m.2 (depth + 1) c hc, hcle⟩
        · rcases hach with heq | hex
          · obtain ⟨m, hm⟩ := List.exists_mem_of_ne_nil _ hconts
            obtain ⟨c, hc, hcle⟩ := hall m hm
            have hcge := countChainCaptures_ge b' np m.1 m.2 (depth + 1) c hc
            have : c = n := by omega
            exact ⟨m, hm, this ▸ hc⟩
          · exact hex
  · intro hcap hnone
    subst hcap
    rw [countChainCaptures, happ]
    simp [hnone]

/-- Claim C6 witness: a non-capturing move keeps `depth = 0`; a single capture
with no continuation yields `depth + 1 = 1`. -/
theorem C6_countChainCaptures_spec_witness :
    countChainCaptures ⟨[mkPiece 0 0 0 1, mkPiece 1 1 1 2]⟩ (mkPiece 0 0 0 1) 1 0 0 =
      some 0 ∧
    countChainCaptures ⟨[mkPiece 0 0 0 1, mkPiece 1 1 1 2]⟩ (mkPiece 0 0 0 1) 2 2 0 =
      some 1 := by
  constructor
  · exact (C6_countChainCaptures_spec ⟨[mkPiece 0 0 0 1, mkPiece 1 1 1 2]⟩
      (mkPiece 0 0 0 1) 1 0 0
      ⟨[⟨0, 1, 0, 1, 0, 1, false⟩, ⟨1, 1, 1, 1, 1, 2, false⟩]⟩ false (by decide)).1 rfl
  · exact ((C6_countChainCaptures_spec ⟨[mkPiece 0 0 0 1, mkPiece 1 1 1 2]⟩
      (mkPiece 0 0 0 1) 2 2 0
      ⟨[⟨0, 2, 2, 2, 2, 1, false⟩]⟩ true (by decide)).2.1 rfl
      ⟨0, 2, 2, 2, 2, 1, false⟩ (by decide)).1 (by decide)

/-! ### Claim C2 — `applyMoveOnBoard` never mutates its input board -/

/-- The cloning loop only appends fresh cells: every existing cell is
preserved, all returned refs are fresh (at or beyond the old heap end),
and the heap only grows. -/
theorem cloneRefs_fresh :
    ∀ (refs : List Nat) (ph ph2 : PieceHeap) (rs : List Nat),
      cloneRefs ph refs = some (ph2, rs) →
      (∀ i, i < ph.length → ph2[i]? = ph[i]?) ∧
      (∀ r ∈ rs, ph.length ≤ r) ∧ ph.length ≤ ph2.length := by
  intro refs
  induction refs with
  | nil =>
    intro ph ph2 rs h
    simp only [cloneRefs, Option.some_inj, Prod.ext_iff] at h
    obtain ⟨h1, h2⟩ := h
    subst h1
    rw [← h2]
    exact ⟨fun i _ => rfl, by simp, le_refl _⟩
  | cons r rest ih =>
    intro ph ph2 rs h
    simp only [cloneRefs] at h
    split at h
    · exact absurd h (by simp)
    · rename_i d hd
      split at h
      · exact absurd h (by simp)
      · rename_i pr ph3 rs3 hrec
        rw [Option.some_inj, Prod.ext_iff] at h
        obtain ⟨hph, hrs⟩ := h
        simp only at hph hrs
        obtain ⟨ih1, ih2, ih3⟩ := ih _ ph3 rs3 hrec
        subst hph
        rw [← hrs]
        refine ⟨?_, ?_, ?_⟩
        · intro i hi
          rw [ih1 i (by simp; omega), List.getElem?_append_left hi]
        · intro r1 hr1
          rcases List.mem_cons.mp hr1 with heq | hmem
          · omega
          · have := ih2 r1 hmem
            simp at this
            omega
        · simp at ih3
          omega

/-- A field update at ref `r` preserves every other cell. -/
theorem heapUpdate_frame (ph : PieceHeap) (r : Nat) (f : Piece → Piece)
    (i : Nat) (hne : i ≠ r) : (heapUpdate ph r f)[i]? = ph[i]? := by
  unfold heapUpdate
  rcases hd : ph[r]? with _ | d
  · rfl
  · exact List.getElem?_set_ne (by omega)

/-- Heap updates do not change the heap length. -/
theorem heapUpdate_length (ph : PieceHeap) (r : Nat) (f : Piece → Piece) :
    (heapUpdate ph r f).length = ph.length := by
  unfold heapUpdate
  rcases hd : ph[r]? with _ | d
  · rfl
  · exact List.length_set ..

/-- Claim C2: the heap-level `applyMoveOnBoard` leaves the input board
completely unchanged — every piece object of the original heap keeps all its
fields (`id`, `x`, `y`, `x0`, `y0`, `team`, `king`), and every board object of
the original board heap keeps its `pieces` array; only the freshly allocated
board object (at the returned ref, which is fresh) and the freshly cloned
pieces reflect the relocation, the capture removal and the promotion. -/
theorem C2_applyMove_no_mutation (ph : PieceHeap) (bh : BoardHeap) (bref : Nat)
    (pieceId x y : Int) (ph2 : PieceHeap) (bh2 : BoardHeap) (nb : Nat) (cap : Bool)
    (h : applyMoveOnBoardH ph bh bref pieceId x y = some (ph2, bh2, nb, cap)) :
    (∀ i, i < ph.length → ph2[i]? = ph[i]?) ∧
    (∀ j, j < bh.length → bh2[j]? = bh[j]?) ∧
    nb = bh.length := by
  simp only [applyMoveOnBoardH] at h
  split at h
  · exact absurd h (by simp)
  · rename_i refs hb
    split at h
    · exact absurd h (by simp)
    · rename_i pr ph1 newRefs hcl
      obtain ⟨hfr1, hfr2, hfr3⟩ := cloneRefs_fresh refs ph ph1 newRefs hcl
      split at h
      · exact absurd h (by simp)
      · rename_i r hfind
        have hrfresh : ph.length ≤ r := hfr2 r (List.mem_of_find?_eq_some hfind)
        split at h
        · exact absurd h (by simp)
        · rename_i moved hmv
          rw [Option.some_inj] at h
          obtain ⟨hph, hbh, hnb, -⟩ :
              _ = ph2 ∧ _ = bh2 ∧ bh.length = nb ∧ _ = cap := by
            rw [Prod.ext_iff, Prod.ext_iff, Prod.ext_iff] at h
            exact ⟨h.1, h.2.1, h.2.2.1, h.2.2.2⟩
          refine ⟨?_, ?_, hnb.symm⟩
          · intro i hi
            rw [← hph]
            have hir : i ≠ r := by omega
            rw [heapUpdate_frame _ _ _ i hir, heapUpdate_frame _ _ _ i hir,
              heapUpdate_frame _ _ _ i hir, heapUpdate_frame _ _ _ i hir]
            exact hfr1 i hi
          · intro j hj
            rw [← hbh]
            have hjb : j ≠ bh.length := by omega
            split
            · rw [List.getElem?_set_ne (by omega), List.getElem?_append_left hj]
            · rw [List.getElem?_append_left hj]

/-- Claim C2 witness: a concrete capturing move over the heap leaves both
original piece cells and the original board object untouched, and returns a
fresh board object. -/
theorem C2_applyMove_no_mutation_witness :
    ([⟨0, 2, 2, 2, 2, 1, false⟩, ⟨1, 3, 3, 3, 3, 2, false⟩, ⟨0, 4, 4, 4, 4, 1, false⟩,
        ⟨1, 3, 3, 3, 3, 2, false⟩] : PieceHeap)[0]? =
      ([⟨0, 2, 2, 2, 2, 1, false⟩, ⟨1, 3, 3, 3, 3, 2, false⟩] : PieceHeap)[0]? ∧
    ([⟨0, 2, 2, 2, 2, 1, false⟩, ⟨1, 3, 3, 3, 3, 2, false⟩, ⟨0, 4, 4, 4, 4, 1, false⟩,
        ⟨1, 3, 3, 3, 3, 2, false⟩] : PieceHeap)[1]? =
      ([⟨0, 2, 2, 2, 2, 1, false⟩, ⟨1, 3, 3, 3, 3, 2, false⟩] : PieceHeap)[1]? ∧
    ([[0, 1], [2]] : BoardHeap)[0]? = ([[0, 1]] : BoardHeap)[0]? ∧
    (1 : Nat) = ([[0, 1]] : BoardHeap).length := by
  have h := C2_applyMove_no_mutation
    [⟨0, 2, 2, 2, 2, 1, false⟩, ⟨1, 3, 3, 3, 3, 2, false⟩] [[0, 1]] 0 0 4 4
    [⟨0, 2, 2, 2, 2, 1, false⟩, ⟨1, 3, 3, 3, 3, 2, false⟩, ⟨0, 4, 4, 4, 4, 1, false⟩,
      ⟨1, 3, 3, 3, 3, 2, false⟩] [[0, 1], [2]] 1 true (by decide)
  exact ⟨h.1 0 (by decide), h.1 1 (by decide), h.2.1 0 (by decide), h.2.2⟩

/-! ### Claim C4 — terminal detection agreement and evaluator bounds -/

/-- Summing a pointwise-bounded function over a list. -/
theorem sum_abs_bound (f : Piece → ℚ) (C : ℚ) :
    ∀ l : List Piece, (∀ p ∈ l, |f p| ≤ C) → |(l.map f).sum| ≤ C * l.length := by
  intro l
  induction l with
  | nil => intro _; simp
  | cons p l ih =>
    intro h
    simp only [List.map_cons, List.sum_cons, List.length_cons]
    have step : |f p + (l.map f).sum| ≤ C + C * l.length :=
      le_trans (abs_add _ _)
        (add_le_add (h p (by simp)) (ih fun q hq => h q (by simp [hq])))
    calc |f p + (l.map f).sum| ≤ C + C * l.length := step
      _ = C * ((l.length : ℚ) + 1) := by ring
      _ = C * ((l.length + 1 : Nat) : ℚ) := by push_cast; ring

/-- Per-piece score bound on an 8×8 board. -/
theorem pieceScore_abs_le (board : Board) (p : Piece)
    (hx0 : 0 ≤ p.x) (hx7 : p.x ≤ 7) (hy0 : 0 ≤ p.y) (hy7 : p.y ≤ 7) :
    |pieceScore board p| ≤ 27 := by
  have hqx0 : (0 : ℚ) ≤ (p.x : ℚ) := by exact_mod_cast hx0
  have hqx7 : (p.x : ℚ) ≤ 7 := by exact_mod_cast hx7
  have hqy0 : (0 : ℚ) ≤ (p.y : ℚ) := by exact_mod_cast hy0
  have hqy7 : (p.y : ℚ) ≤ 7 := by exact_mod_cast hy7
  have hcx1 : (0 : ℚ) ≤ |(7/2 : ℚ) - (p.x : ℚ)| := abs_nonneg _
  have hcx2 : |(7/2 : ℚ) - (p.x : ℚ)| ≤ 7/2 := abs_le.mpr ⟨by linarith, by linarith⟩
  have hcy1 : (0 : ℚ) ≤ |(7/2 : ℚ) - (p.y : ℚ)| := abs_nonneg _
  have hcy2 : |(7/2 : ℚ) - (p.y : ℚ)| ≤ 7/2 := abs_le.mpr ⟨by linarith, by linarith⟩
  unfold pieceScore
  have key : ∀ X : ℚ, -27 ≤ X → X ≤ 27 →
      |(if p.team == 1 then (1 : ℚ) else -1) * X| ≤ 27 := by
    intro X h1 h2
    split
    · rw [one_mul]; exact abs_le.mpr ⟨h1, h2⟩
    · rw [neg_one_mul, abs_neg]; exact abs_le.mpr ⟨h1, h2⟩
  cases hk : p.king with
  | true =>
    apply key <;>
      simp only [hk, Bool.not_true, Bool.false_eq_true, if_true, if_false] <;>
      split_ifs <;> linarith
  | false =>
    apply key <;>
      simp only [hk, Bool.not_false, Bool.false_eq_true, if_true, if_false] <;>
      split_ifs <;> linarith

/-- A piece offers at most 36 candidate destinations (8 short + 28 king). -/
theorem findAvailableMovesOnBoard_length_le (p : Piece) (b : Board) :
    (findAvailableMovesOnBoard p b).length ≤ 36 := by
  unfold findAvailableMovesOnBoard
  rw [List.length_append]
  have h1 : (dirOffsets.filterMap (fun d =>
      if validJumpOnBoard p (p.x0 + d.1) (p.y0 + d.2) b then
        some (p.x0 + d.1, p.y0 + d.2)
      else none)).length ≤ 8 :=
    le_trans (List.length_filterMap_le _ _) (by rfl)
  have h2 : ∀ (l : List Int),
      (l.foldr (fun i rest =>
        (if validJumpOnBoard p (p.x0 + i) (p.y0 + i) b then
          [(p.x0 + i, p.y0 + i)] else []) ++
        (if validJumpOnBoard p (p.x0 + i) (p.y0 - i) b then
          [(p.x0 + i, p.y0 - i)] else []) ++ rest) []).length ≤ 2 * l.length := by
    intro l
    induction l with
    | nil => simp
    | cons i l ih =>
      simp only [List.foldr_cons, List.length_append]
      have e1 : (if validJumpOnBoard p (p.x0 + i) (p.y0 + i) b then
          [(p.x0 + i, p.y0 + i)] else []).length ≤ 1 := by split <;> simp
      have e2 : (if validJumpOnBoard p (p.x0 + i) (p.y0 - i) b then
          [(p.x0 + i, p.y0 - i)] else []).length ≤ 1 := by split <;> simp
      simp only [List.length_cons]
      omega
  split
  · have hthis := h2 kingOffsets
    have h14 : kingOffsets.length = 14 := by rfl
    omega
  · simp only [List.length_nil]
    omega

/-- The per-team move union is at most 36 moves per piece. -/
theorem teamMovesUnfiltered_length_le (b : Board) (t : Int) :
    (teamMovesUnfiltered b t).length ≤ 36 * b.pieces.length := by
  unfold teamMovesUnfiltered
  have gen : ∀ l : List Piece, (∀ p ∈ l, p ∈ b.pieces) →
      (l.foldr (fun piece rest =>
        (findAvailableMovesOnBoard piece b).map (fun m => ⟨piece, m⟩) ++ rest)
        ([] : List TMove)).length ≤ 36 * l.length := by
    intro l
    induction l with
    | nil => simp
    | cons p l ih =>
      intro h
      simp only [List.foldr_cons, List.length_append, List.length_map, List.length_cons]
      have h1 := findAvailableMovesOnBoard_length_le p b
      have h2 := ih (fun q hq => h q (by simp [hq]))
      omega
  calc ((b.pieces.filter (fun p => p.team == t)).foldr _ []).length
      ≤ 36 * (b.pieces.filter (fun p => p.team == t)).length :=
        gen _ (fun p hp => List.mem_of_mem_filter hp)
    _ ≤ 36 * b.pieces.length := by
        have := List.length_filter_le (fun p => p.team == t) b.pieces
        omega

/-- Team move lists are at most 36 moves per piece. -/
theorem getAllMovesForTeam_length_le (b : Board) (t : Int) :
    (getAllMovesForTeam b t).length ≤ 36 * b.pieces.length := by
  simp only [getAllMovesForTeam]
  split
  · exact le_trans (List.length_filter_le _ _) (teamMovesUnfiltered_length_le b t)
  · exact teamMovesUnfiltered_length_le b t

/-- A well-formed board has at most 64 pieces (distinct on-board squares). -/
theorem boardWF_length_le (b : Board) (hWF : boardWF b) : b.pieces.length ≤ 64 := by
  obtain ⟨hrange, hnodup⟩ := hWF
  have hsub : (b.pieces.map (fun p => (p.x, p.y))).toFinset ⊆
      Finset.Icc (0 : Int) 7 ×ˢ Finset.Icc (0 : Int) 7 := by
    intro c hc
    rw [List.mem_toFinset, List.mem_map] at hc
    obtain ⟨p, hp, hpc⟩ := hc
    obtain ⟨h1, h2, h3, h4⟩ := hrange p hp
    rw [Finset.mem_product, ← hpc]
    exact ⟨Finset.mem_Icc.mpr ⟨h1, h2⟩, Finset.mem_Icc.mpr ⟨h3, h4⟩⟩
  have hcard : (Finset.Icc (0 : Int) 7 ×ˢ Finset.Icc (0 : Int) 7).card = 64 := by
    rw [Finset.card_product, Int.card_Icc]
    rfl
  have := Finset.card_le_card hsub
  rw [hcard, List.toFinset_card_of_nodup hnodup, List.length_map] at this
  exact this

/-- Claim C4: `isGameOver` reports game over exactly when a team has no pieces
or no moves; on terminal boards the depth-free `evaluateBoard` returns
`+10000` for winner 1 and `-10000` for winner 2 (detection order agrees); on
non-terminal well-formed boards it stays strictly between `-10000` and
`+10000`. -/
theorem C4_gameover_eval_agreement (board : Board) (hWF : boardWF board) :
    ((isGameOver board).over = true ↔
      ((board.pieces.filter (fun p => p.team == 1)).length = 0 ∨
       (board.pieces.filter (fun p => p.team == 2)).length = 0 ∨
       (getAllMovesForTeam board 1).length = 0 ∨
       (getAllMovesForTeam board 2).length = 0)) ∧
    ((isGameOver board).winner = some 1 → evaluateBoard board none = 10000) ∧
    ((isGameOver board).winner = some 2 → evaluateBoard board none = -10000) ∧
    ((isGameOver board).over = false →
      -10000 < evaluateBoard board none ∧ evaluateBoard board none < 10000) := by
  by_cases h1 : ((board.pieces.filter (fun p => p.team == (1 : Int))).length == 0) = true
  · refine ⟨⟨fun _ => Or.inl (by simpa using h1),
      fun _ => by rw [isGameOver, if_pos h1]⟩, ?_, ?_, ?_⟩
    · intro hw
      rw [isGameOver] at hw
      rw [if_pos h1] at hw
      exact absurd hw (by simp)
    · intro hw
      rw [evaluateBoard, if_pos h1]
    · intro hov
      rw [isGameOver, if_pos h1] at hov
      exact absurd hov (by simp)
  · by_cases h2 : ((board.pieces.filter (fun p => p.team == (2 : Int))).length == 0) = true
    · refine ⟨⟨fun _ => Or.inr (Or.inl (by simpa using h2)),
        fun _ => by rw [isGameOver, if_neg h1, if_pos h2]⟩, ?_, ?_, ?_⟩
      · intro hw
        rw [evaluateBoard, if_neg h1, if_pos h2]
      · intro hw
        rw [isGameOver, if_neg h1, if_pos h2] at hw
        exact absurd hw (by simp)
      · intro hov
        rw [isGameOver, if_neg h1, if_pos h2] at hov
        exact absurd hov (by simp)
    · by_cases h3 : ((getAllMovesForTeam board 1).length == 0) = true
      · refine ⟨⟨fun _ => Or.inr (Or.inr (Or.inl (by simpa using h3))),
          fun _ => by rw [isGameOver, if_neg h1, if_neg h2, if_pos h3]⟩, ?_, ?_, ?_⟩
        · intro hw
          rw [isGameOver, if_neg h1, if_neg h2, if_pos h3] at hw
          exact absurd hw (by simp)
        · intro hw
          rw [evaluateBoard, if_neg h1, if_neg h2, if_pos h3]
        · intro hov
          rw [isGameOver, if_neg h1, if_neg h2, if_pos h3] at hov
          exact absurd hov (by simp)
      · by_cases h4 : ((getAllMovesForTeam board 2).length == 0) = true
        · refine ⟨⟨fun _ => Or.inr (Or.inr (Or.inr (by simpa using h4))),
            fun _ => by rw [isGameOver, if_neg h1, if_neg h2, if_neg h3, if_pos h4]⟩,
            ?_, ?_, ?_⟩
          · intro hw
            rw [evaluateBoard, if_neg h1, if_neg h2, if_neg h3, if_pos h4]
          · intro hw
            rw [isGameOver, if_neg h1, if_neg h2, if_neg h3, if_pos h4] at hw
            exact absurd hw (by simp)
          · intro hov
            rw [isGameOver, if_neg h1, if_neg h2, if_neg h3, if_pos h4] at hov
            exact absurd hov (by simp)
        · refine ⟨⟨fun hov => by
              rw [isGameOver, if_neg h1, if_neg h2, if_neg h3, if_neg h4] at hov
              exact absurd hov (by simp),
            fun hd => by
              rcases hd with h | h | h | h
              · exact absurd h (by simpa using h1)
              · exact absurd h (by simpa using h2)
              · exact absurd h (by simpa using h3)
              · exact absurd h (by simpa using h4)⟩, ?_, ?_, ?_⟩
          · intro hw
            rw [isGameOver, if_neg h1, if_neg h2, if_neg h3, if_neg h4] at hw
            exact absurd hw (by simp)
          · intro hw
            rw [isGameOver, if_neg h1, if_neg h2, if_neg h3, if_neg h4] at hw
            exact absurd hw (by simp)
          · intro hov
            rw [evaluateBoard, if_neg h1, if_neg h2, if_neg h3, if_neg h4]
            have hmat : |(board.pieces.map (pieceScore board)).sum| ≤
                27 * (board.pieces.length : ℚ) :=
              sum_abs_bound (pieceScore board) 27 board.pieces (fun p hp => by
                obtain ⟨a, b, c, d⟩ := hWF.1 p hp
                exact pieceScore_abs_le board p a b c d)
            have hlen := boardWF_length_le board hWF
            have hlenq : (board.pieces.length : ℚ) ≤ 64 := by exact_mod_cast hlen
            have hmat2 : |(board.pieces.map (pieceScore board)).sum| ≤ 1728 := by
              calc |(board.pieces.map (pieceScore board)).sum|
                  ≤ 27 * (board.pieces.length : ℚ) := hmat
                _ ≤ 27 * 64 := by linarith
                _ = 1728 := by norm_num
            have hm1 : (getAllMovesForTeam board 1).length ≤ 36 * 64 := by
              have := getAllMovesForTeam_length_le board 1
              omega
            have hm2 : (getAllMovesForTeam board 2).length ≤ 36 * 64 := by
              have := getAllMovesForTeam_length_le board 2
              omega
            have hm1q : ((getAllMovesForTeam board 1).length : ℚ) ≤ 2304 := by
              exact_mod_cast hm1
            have hm2q : ((getAllMovesForTeam board 2).length : ℚ) ≤ 2304 := by
              exact_mod_cast hm2
            have hm1q0 : (0 : ℚ) ≤ ((getAllMovesForTeam board 1).length : ℚ) := by
              positivity
            have hm2q0 : (0 : ℚ) ≤ ((getAllMovesForTeam board 2).length : ℚ) := by
              positivity
            have habs := abs_le.mp hmat2
            dsimp only
            constructor <;> split_ifs <;> linarith

/-- Claim C4 witness: the opening board is well formed, not game over, and
its static score lies strictly between the terminal values. -/
theorem C4_gameover_eval_agreement_witness :
    (isGameOver setupGameBoard).over = false ∧
    (-10000 < evaluateBoard setupGameBoard none ∧
      evaluateBoard setupGameBoard none < 10000) := by
  have h := C4_gameover_eval_agreement setupGameBoard (by constructor <;> decide)
  exact ⟨by decide, h.2.2.2 (by decide)⟩

/-! ### Claim C5 — mirror antisymmetry of the evaluator -/

/-- Two booleans agreeing as propositions are equal. -/
theorem bool_eq_of_iff {a b : Bool} (h : a = true ↔ b = true) : a = b := by
  cases a <;> cases b <;> simp_all

/-- The team swap is injective. -/
theorem mirrorTeam_eq_iff (a c : Int) : mirrorTeam a = mirrorTeam c ↔ a = c := by
  unfold mirrorTeam
  split_ifs <;> omega

/-- A mirrored piece is team 1 exactly when the original is team 2. -/
theorem mirrorTeam_eq_one_iff (a : Int) : mirrorTeam a = 1 ↔ a = 2 := by
  unfold mirrorTeam
  split_ifs <;> omega

/-- A mirrored piece is team 2 exactly when the original is team 1. -/
theorem mirrorTeam_eq_two_iff (a : Int) : mirrorTeam a = 2 ↔ a = 1 := by
  unfold mirrorTeam
  split_ifs <;> omega

/-- `find?.isSome` through a `map`, given a pointwise predicate
correspondence. -/
theorem find?_isSome_map (f : Piece → Piece) (l : List Piece) (pr pr2 : Piece → Bool)
    (h : ∀ q ∈ l, pr (f q) = pr2 q) :
    ((l.map f).find? pr).isSome = (l.find? pr2).isSome := by
  apply bool_eq_of_iff
  simp only [List.find?_isSome, List.mem_map]
  constructor
  · rintro ⟨q1, ⟨q, hq, rfl⟩, hpred⟩
    exact ⟨q, hq, (h q hq) ▸ hpred⟩
  · rintro ⟨q, hq, hpred⟩
    exact ⟨f q, ⟨q, hq, rfl⟩, (h q hq).symm ▸ hpred⟩

/-- Projection facts for `mirrorPiece`. -/
theorem mirrorPiece_x0 (p : Piece) : (mirrorPiece p).x0 = p.x0 := rfl

/-- Projection facts for `mirrorPiece`. -/
theorem mirrorPiece_y0 (p : Piece) : (mirrorPiece p).y0 = 7 - p.y0 := rfl

/-- Projection facts for `mirrorPiece`. -/
theorem mirrorPiece_x (p : Piece) : (mirrorPiece p).x = p.x := rfl

/-- Projection facts for `mirrorPiece`. -/
theorem mirrorPiece_y (p : Piece) : (mirrorPiece p).y = 7 - p.y := rfl

/-- Projection facts for `mirrorPiece`. -/
theorem mirrorPiece_id (p : Piece) : (mirrorPiece p).id = p.id := rfl

/-- Projection facts for `mirrorPiece`. -/
theorem mirrorPiece_team (p : Piece) : (mirrorPiece p).team = mirrorTeam p.team := rfl

/-- Projection facts for `mirrorPiece`. -/
theorem mirrorPiece_king (p : Piece) : (mirrorPiece p).king = p.king := rfl

/-- `isNone` agreement follows from `isSome` agreement. -/
theorem isNone_eq_of_isSome_eq {o1 o2 : Option Piece} (h : o1.isSome = o2.isSome) :
    o1.isNone = o2.isNone := by
  cases o1 <;> cases o2 <;> simp_all

/-- The validity predicate is invariant under mirroring board, piece and
destination. -/
theorem validJump_mirror (p : Piece) (x y : Int) (b : Board) :
    validJumpOnBoard (mirrorPiece p) x (7 - y) (mirrorBoard b) =
      validJumpOnBoard p x y b := by
  unfold validJumpOnBoard
  rw [mirrorPiece_x0, mirrorPiece_y0, mirrorPiece_king, mirrorPiece_id, mirrorPiece_team]
  have e1 : ((x < 0 || x > 7 || 7 - y < 0 || 7 - y > 7) : Bool) =
      ((x < 0 || x > 7 || y < 0 || y > 7) : Bool) := by
    apply bool_eq_of_iff
    simp only [Bool.or_eq_true, decide_eq_true_eq]
    omega
  have e2 : ((p.x0 - x).natAbs != (7 - p.y0 - (7 - y)).natAbs) =
      ((p.x0 - x).natAbs != (p.y0 - y).natAbs) := by
    apply bool_eq_of_iff
    simp only [bne_iff_ne, ne_eq]
    omega
  have e3 : ((p.x0 == x && 7 - p.y0 == 7 - y)) = ((p.x0 == x && p.y0 == y)) := by
    apply bool_eq_of_iff
    simp only [Bool.and_eq_true, beq_iff_eq]
    omega
  have e5 : (((mirrorBoard b).pieces.find? (fun q =>
        q.x == x && q.y == 7 - y && q.id != p.id)).isSome) =
      ((b.pieces.find? (fun q => q.x == x && q.y == y && q.id != p.id)).isSome) := by
    apply find?_isSome_map
    intro q hq
    apply bool_eq_of_iff
    simp only [Bool.and_eq_true, beq_iff_eq, bne_iff_ne, ne_eq,
      mirrorPiece_x, mirrorPiece_y, mirrorPiece_id]
    constructor
    · rintro ⟨⟨hx, hy⟩, hid⟩; exact ⟨⟨hx, by omega⟩, hid⟩
    · rintro ⟨⟨hx, hy⟩, hid⟩; exact ⟨⟨hx, by omega⟩, hid⟩
  have e6 : (((mirrorBoard b).pieces.find? (fun q =>
        2 * q.x == p.x0 + x && 2 * q.y == 7 - p.y0 + (7 - y) &&
        q.team == mirrorTeam p.team)).isSome) =
      ((b.pieces.find? (fun q =>
        2 * q.x == p.x0 + x && 2 * q.y == p.y0 + y && q.team == p.team)).isSome) := by
    apply find?_isSome_map
    intro q hq
    apply bool_eq_of_iff
    simp only [Bool.and_eq_true, beq_iff_eq, mirrorPiece_x, mirrorPiece_y,
      mirrorPiece_team]
    constructor
    · rintro ⟨⟨hx, hy⟩, ht⟩
      exact ⟨⟨hx, by omega⟩, (mirrorTeam_eq_iff _ _).mp ht⟩
    · rintro ⟨⟨hx, hy⟩, ht⟩
      exact ⟨⟨hx, by omega⟩, (mirrorTeam_eq_iff _ _).mpr ht⟩
  have e7 : (((mirrorBoard b).pieces.find? (fun q =>
        2 * q.x == p.x0 + x && 2 * q.y == 7 - p.y0 + (7 - y) &&
        q.team != mirrorTeam p.team)).isNone) =
      ((b.pieces.find? (fun q =>
        2 * q.x == p.x0 + x && 2 * q.y == p.y0 + y && q.team != p.team)).isNone) := by
    apply isNone_eq_of_isSome_eq
    apply find?_isSome_map
    intro q hq
    apply bool_eq_of_iff
    simp only [Bool.and_eq_true, beq_iff_eq, bne_iff_ne, ne_eq, mirrorPiece_x,
      mirrorPiece_y, mirrorPiece_team]
    constructor
    · rintro ⟨⟨hx, hy⟩, ht⟩
      exact ⟨⟨hx, by omega⟩, fun hc => ht ((mirrorTeam_eq_iff _ _).mpr hc)⟩
    · rintro ⟨⟨hx, hy⟩, ht⟩
      exact ⟨⟨hx, by omega⟩, fun hc => ht ((mirrorTeam_eq_iff _ _).mp hc)⟩
  rw [e1, e2, e3, e5, e6, e7]

/-- Pointwise-equal functions give equal `filterMap`s. -/
theorem filterMap_congr_mem {α β : Type} {f g : α → Option β} :
    ∀ {l : List α}, (∀ a ∈ l, f a = g a) → l.filterMap f = l.filterMap g := by
  intro l
  induction l with
  | nil => intro _; rfl
  | cons a l ih =>
    intro h
    rw [List.filterMap_cons, List.filterMap_cons, h a (by simp),
      ih fun a ha => h a (by simp [ha])]

/-- Pointwise permutations lift through `flatMap`. -/
theorem flatMap_perm_congr {α β : Type} {f g : α → List β} :
    ∀ {l : List α}, (∀ a ∈ l, (f a).Perm (g a)) → (l.flatMap f).Perm (l.flatMap g) := by
  intro l
  induction l with
  | nil => intro _; simp
  | cons a l ih =>
    intro h
    rw [List.flatMap_cons, List.flatMap_cons]
    exact (h a (by simp)).append (ih fun a ha => h a (by simp [ha]))

/-- For a non-king piece, the mirrored move list is a permutation of the
mirrored original move list (the eight direction candidates swap their
vertical pairs). -/
theorem findMoves_mirror (p : Piece) (b : Board) (hk : p.king = false) :
    (findAvailableMovesOnBoard (mirrorPiece p) (mirrorBoard b)).Perm
      ((findAvailableMovesOnBoard p b).map mirrorMove) := by
  unfold findAvailableMovesOnBoard
  rw [mirrorPiece_king, hk]
  simp only [Bool.false_eq_true, if_false, List.append_nil]
  rw [mirrorPiece_x0, mirrorPiece_y0]
  have hpt : ∀ d ∈ dirOffsets,
      (if validJumpOnBoard (mirrorPiece p) (p.x0 + d.1) (7 - p.y0 + d.2) (mirrorBoard b)
        then some (p.x0 + d.1, 7 - p.y0 + d.2) else none) =
      ((fun d : Int × Int =>
        if validJumpOnBoard p (p.x0 + d.1) (p.y0 + d.2) b
          then some (p.x0 + d.1, p.y0 + d.2) else none) (negOffset d)).map mirrorMove := by
    intro d _
    have e : 7 - p.y0 + d.2 = 7 - (p.y0 + (negOffset d).2) := by
      simp only [negOffset]; ring
    rw [e, validJump_mirror p (p.x0 + d.1) (p.y0 + (negOffset d).2) b]
    have ex : p.x0 + d.1 = p.x0 + (negOffset d).1 := by simp [negOffset]
    rw [ex]
    split
    · rename_i hvj
      simp [hvj, mirrorMove]
    · rename_i hvj
      simp [hvj]
  rw [filterMap_congr_mem hpt]
  rw [show (fun d : Int × Int =>
      ((fun d : Int × Int =>
        if validJumpOnBoard p (p.x0 + d.1) (p.y0 + d.2) b
          then some (p.x0 + d.1, p.y0 + d.2) else none) (negOffset d)).map mirrorMove) =
      ((fun d : Int × Int =>
        ((if validJumpOnBoard p (p.x0 + d.1) (p.y0 + d.2) b
          then some (p.x0 + d.1, p.y0 + d.2) else none) : Option (Int × Int)).map
            mirrorMove) ∘ negOffset) from rfl]
  rw [← List.filterMap_map negOffset _ dirOffsets]
  have hperm : (dirOffsets.map negOffset).Perm dirOffsets := by decide
  refine (List.Perm.filterMap _ hperm).trans ?_
  rw [← List.map_filterMap]

/-- The move-union fold is a `flatMap`. -/
theorem teamMovesUnfiltered_eq_flatMap (b : Board) (t : Int) :
    teamMovesUnfiltered b t = (b.pieces.filter (fun p => p.team == t)).flatMap
      (fun p => (findAvailableMovesOnBoard p b).map (fun m => ⟨p, m⟩)) := by
  unfold teamMovesUnfiltered
  generalize b.pieces.filter (fun p => p.team == t) = l
  induction l with
  | nil => rfl
  | cons p l ih => rw [List.foldr_cons, List.flatMap_cons, ih]

/-- Moves in the team union come from a team piece's own move list. -/
theorem mem_teamMovesUnfiltered {b : Board} {t : Int} {m : TMove}
    (h : m ∈ teamMovesUnfiltered b t) :
    m.piece ∈ b.pieces ∧ (m.piece.team == t) = true ∧
      m.move ∈ findAvailableMovesOnBoard m.piece b := by
  rw [teamMovesUnfiltered_eq_flatMap] at h
  rw [List.mem_flatMap] at h
  obtain ⟨p, hp, hm⟩ := h
  rw [List.mem_map] at hm
  obtain ⟨mv, hmv, hback⟩ := hm
  have hp2 := List.mem_filter.mp hp
  rw [← hback]
  exact ⟨hp2.1, hp2.2, hmv⟩

/-- Every generated move passes the validity predicate. -/
theorem mem_findMoves_valid {p : Piece} {b : Board} {m : Int × Int}
    (h : m ∈ findAvailableMovesOnBoard p b) :
    validJumpOnBoard p m.1 m.2 b = true := by
  unfold findAvailableMovesOnBoard at h
  rw [List.mem_append] at h
  rcases h with h | h
  · rw [List.mem_filterMap] at h
    obtain ⟨d, -, hd⟩ := h
    split at hd
    · rename_i hvj
      rw [Option.some_inj] at hd
      rw [← hd]
      exact hvj
    · exact absurd hd (by simp)
  · split at h
    · rename_i hking
      revert h
      generalize kingOffsets = offs
      induction offs with
      | nil => intro h; exact absurd h (List.not_mem_nil m)
      | cons i offs ih =>
        intro h
        rw [List.foldr_cons, List.append_assoc, List.mem_append, List.mem_append] at h
        rcases h with h | h | h
        · split at h
          · rename_i hvj
            rcases List.mem_singleton.mp h with rfl
            exact hvj
          · exact absurd h (List.not_mem_nil m)
        · split at h
          · rename_i hvj
            rcases List.mem_singleton.mp h with rfl
            exact hvj
          · exact absurd h (List.not_mem_nil m)
        · exact ih h
    · exact absurd h (List.not_mem_nil m)

/-- A valid move is diagonal, and short unless the piece is a king. -/
theorem validJump_diag_short {p : Piece} {x y : Int} {b : Board}
    (h : validJumpOnBoard p x y b = true) :
    (p.x0 - x).natAbs = (p.y0 - y).natAbs ∧
      ((p.x0 - x).natAbs ≤ 2 ∨ p.king = true) := by
  unfold validJumpOnBoard at h
  split_ifs at h with h1 h2 h3 h4 h5 h6 h7
  refine ⟨by simpa using h2, ?_⟩
  by_cases hk : p.king = true
  · exact Or.inr hk
  · left
    simp only [Bool.and_eq_true, decide_eq_true_eq, Bool.not_eq_true', not_and] at h4
    have hkf : p.king = false := by simpa using hk
    by_contra hgt
    exact h4 (by omega) hkf

/-- Capture detection is mirror-invariant for diagonal moves of distance at
most 2 (scan reduces to the move's midpoint square). -/
theorem pieceKilled_isSome_mirror_short (p : Piece) (mx my : Int) (b : Board)
    (hd : (p.x0 - mx).natAbs = (p.y0 - my).natAbs)
    (hle : (p.x0 - mx).natAbs ≤ 2) :
    (pieceKilledOnBoard (mirrorPiece p) mx (7 - my) (mirrorBoard b)).isSome =
      (pieceKilledOnBoard p mx my b).isSome := by
  unfold pieceKilledOnBoard
  rw [mirrorPiece_x0, mirrorPiece_y0, mirrorPiece_team]
  by_cases hgt : (p.x0 - mx).natAbs > 1
  · rw [if_pos hgt, if_pos hgt]
    dsimp only
    have hd2 : (p.x0 - mx).natAbs = 2 := by omega
    have hsteps : (min (max p.x0 mx - min p.x0 mx) (max p.y0 my - min p.y0 my) - 1).toNat
        = 1 := by omega
    have hstepsM : (min (max p.x0 mx - min p.x0 mx)
        (max (7 - p.y0) (7 - my) - min (7 - p.y0) (7 - my)) - 1).toNat = 1 := by omega
    rw [hsteps, hstepsM]
    have hscan1 : ∀ (sx sy : Int), killScanSquares sx sy 1 = [(sx + 1, sy + 1)] := by
      intro sx sy
      simp [killScanSquares, List.range_succ]
    rw [hscan1, hscan1]
    rw [List.findSome?_cons, List.findSome?_cons]
    dsimp only
    rcases hfound : b.pieces.find? (fun q =>
        q.x == min p.x0 mx + 1 && q.y == min p.y0 my + 1 && q.team != p.team)
      with _ | q
    · have hfa := List.find?_eq_none.mp hfound
      have hnone : (mirrorBoard b).pieces.find? (fun q =>
          q.x == min p.x0 mx + 1 && q.y == min (7 - p.y0) (7 - my) + 1 &&
          q.team != mirrorTeam p.team) = none := by
        rw [List.find?_eq_none]
        intro q' hq'
        simp only [mirrorBoard, List.mem_map] at hq'
        obtain ⟨q, hq, rfl⟩ := hq'
        intro hcontra
        apply hfa q hq
        simp only [Bool.and_eq_true, beq_iff_eq, bne_iff_ne, ne_eq,
          mirrorPiece_x, mirrorPiece_y, mirrorPiece_team] at hcontra ⊢
        obtain ⟨⟨hx, hy⟩, ht⟩ := hcontra
        exact ⟨⟨hx, by omega⟩, fun hc => ht (by rw [hc])⟩
      rw [hfound, hnone]
      simp
    · have hq := List.find?_some hfound
      have hqmem := List.mem_of_find?_eq_some hfound
      simp only [Bool.and_eq_true, beq_iff_eq, bne_iff_ne, ne_eq] at hq
      have hsomeM : ((mirrorBoard b).pieces.find? (fun q' =>
          q'.x == min p.x0 mx + 1 && q'.y == min (7 - p.y0) (7 - my) + 1 &&
          q'.team != mirrorTeam p.team)).isSome = true := by
        rw [List.find?_isSome]
        refine ⟨mirrorPiece q, ?_, ?_⟩
        · simp only [mirrorBoard]
          exact List.mem_map_of_mem mirrorPiece hqmem
        · simp only [Bool.and_eq_true, beq_iff_eq, bne_iff_ne, ne_eq,
            mirrorPiece_x, mirrorPiece_y, mirrorPiece_team]
          exact ⟨⟨hq.1.1, by omega⟩, fun hc => hq.2 ((mirrorTeam_eq_iff _ _).mp hc)⟩
      rcases hM : (mirrorBoard b).pieces.find? (fun q' =>
          q'.x == min p.x0 mx + 1 && q'.y == min (7 - p.y0) (7 - my) + 1 &&
          q'.team != mirrorTeam p.team) with _ | qM
      · rw [hM] at hsomeM
        exact absurd hsomeM (by simp)
      · rw [hfound, hM]
        simp
  · rw [if_neg hgt, if_neg hgt]

/-- Filtering the mirrored board for the mirrored team is the mirror image of
filtering the original board for the original team. -/
theorem filter_team_mirror (b : Board) (t : Int) :
    (mirrorBoard b).pieces.filter (fun p => p.team == mirrorTeam t) =
      (b.pieces.filter (fun p => p.team == t)).map mirrorPiece := by
  simp only [mirrorBoard]
  rw [List.filter_map]
  congr 1
  apply List.filter_congr
  intro p _
  simp only [Function.comp_apply, mirrorPiece_team]
  exact bool_eq_of_iff (by
    rw [beq_iff_eq, beq_iff_eq]
    exact mirrorTeam_eq_iff _ _)

/-- The unfiltered team move union commutes with mirroring (up to order), on
boards without kings. -/
theorem teamMoves_mirror (b : Board) (t : Int)
    (hk : ∀ p ∈ b.pieces, p.king = false) :
    (teamMovesUnfiltered (mirrorBoard b) (mirrorTeam t)).Perm
      ((teamMovesUnfiltered b t).map mirrorTMove) := by
  rw [teamMovesUnfiltered_eq_flatMap, teamMovesUnfiltered_eq_flatMap,
    filter_team_mirror, List.flatMap_map, List.map_flatMap]
  apply flatMap_perm_congr
  intro p hp
  have hpk : p.king = false := hk p (List.mem_filter.mp hp).1
  have h1 := (findMoves_mirror p b hpk).map (fun m => (⟨mirrorPiece p, m⟩ : TMove))
  refine h1.trans ?_
  rw [List.map_map, List.map_map]
  apply List.Perm.refl

/-- On kingless boards, the capture test of the mirrored move on the mirrored
board agrees with the capture test of the original move. -/
theorem isCapture_mirror (b : Board) (t : Int) (m : TMove)
    (hk : ∀ p ∈ b.pieces, p.king = false)
    (hm : m ∈ teamMovesUnfiltered b t) :
    isCaptureMove (mirrorBoard b) (mirrorTMove m) = isCaptureMove b m := by
  obtain ⟨hpm, -, hmv⟩ := mem_teamMovesUnfiltered hm
  have hvj := mem_findMoves_valid hmv
  obtain ⟨hd, hshort⟩ := validJump_diag_short hvj
  have hle : (m.piece.x0 - m.move.1).natAbs ≤ 2 := by
    rcases hshort with h | h
    · exact h
    · exact absurd h (by rw [hk m.piece hpm]; simp)
  unfold isCaptureMove mirrorTMove mirrorMove
  exact pieceKilled_isSome_mirror_short m.piece m.move.1 m.move.2 b hd hle

/-- On kingless boards, the filtered team move list commutes with mirroring up
to order. -/
theorem getAllMoves_mirror (b : Board) (t : Int)
    (hk : ∀ p ∈ b.pieces, p.king = false) :
    (getAllMovesForTeam (mirrorBoard b) (mirrorTeam t)).Perm
      ((getAllMovesForTeam b t).map mirrorTMove) := by
  have hperm := teamMoves_mirror b t hk
  have hfilt : ((teamMovesUnfiltered b t).map mirrorTMove).filter
      (isCaptureMove (mirrorBoard b)) =
      ((teamMovesUnfiltered b t).filter (isCaptureMove b)).map mirrorTMove := by
    rw [List.filter_map]
    congr 1
    apply List.filter_congr
    intro m hm
    simp only [Function.comp_apply]
    exact isCapture_mirror b t m hk hm
  have hcperm : ((teamMovesUnfiltered (mirrorBoard b) (mirrorTeam t)).filter
      (isCaptureMove (mirrorBoard b))).Perm
      (((teamMovesUnfiltered b t).filter (isCaptureMove b)).map mirrorTMove) := by
    refine (hperm.filter (isCaptureMove (mirrorBoard b))).trans ?_
    rw [hfilt]
  unfold getAllMovesForTeam
  by_cases hc : ((teamMovesUnfiltered b t).filter (isCaptureMove b)).length > 0
  · have hc2 : ((teamMovesUnfiltered (mirrorBoard b) (mirrorTeam t)).filter
        (isCaptureMove (mirrorBoard b))).length > 0 := by
      rw [hcperm.length_eq, List.length_map]
      exact hc
    rw [if_pos hc, if_pos hc2]
    exact hcperm
  · have hc2 : ¬((teamMovesUnfiltered (mirrorBoard b) (mirrorTeam t)).filter
        (isCaptureMove (mirrorBoard b))).length > 0 := by
      rw [hcperm.length_eq, List.length_map]
      exact hc
    rw [if_neg hc, if_neg hc2]
    exact hperm

/-- `isSquareSafe` written with the lifted per-jump test. -/
theorem isSquareSafe_rw (board : Board) (x y team : Int) :
    isSquareSafe board x y team =
      (board.pieces.filter (fun p =>
          p.team == (if team == 1 then (2 : Int) else 1))).all
        (fun piece =>
          ([(piece.x + 2, piece.y + 2), (piece.x + 2, piece.y - 2),
            (piece.x - 2, piece.y + 2), (piece.x - 2, piece.y - 2)] :
              List (Int × Int)).all (jumpCheck board x y piece)) := rfl

/-- The per-jump safety test commutes with the vertical mirror when the jump
sums are even (they always are for the four ±2 jumps). -/
theorem jumpCheck_mirror (b : Board) (x y : Int) (p : Piece) (jx jy jy' : Int)
    (hj : jy' = 7 - jy)
    (hex : ∃ r, p.x + jx = 2 * r) (hey : ∃ r, p.y + jy = 2 * r) :
    jumpCheck (mirrorBoard b) x (7 - y) (mirrorPiece p) (jx, jy') =
      jumpCheck b x y p (jx, jy) := by
  subst hj
  obtain ⟨rx, hrx⟩ := hex
  obtain ⟨ry, hry⟩ := hey
  unfold jumpCheck
  dsimp only
  rw [mirrorPiece_x, mirrorPiece_y]
  have hmx : (p.x + jx) / 2 = rx := by omega
  have hmy' : (7 - p.y + (7 - jy)) / 2 = 7 - ry := by omega
  have hmy : (p.y + jy) / 2 = ry := by omega
  rw [hmx, hmy', hmy]
  have hcond : ((rx == x) && ((7 - ry : Int) == 7 - y)) = ((rx == x) && (ry == y)) := by
    apply bool_eq_of_iff
    simp only [Bool.and_eq_true, beq_iff_eq]
    omega
  rw [hcond]
  have hbnd : (jx ≥ 0 && jx ≤ 7 && (7 - jy : Int) ≥ 0 && (7 - jy : Int) ≤ 7) =
      (jx ≥ 0 && jx ≤ 7 && jy ≥ 0 && jy ≤ 7) := by
    apply bool_eq_of_iff
    simp only [Bool.and_eq_true, decide_eq_true_eq]
    omega
  rw [hbnd]
  have hany : (mirrorBoard b).pieces.any (fun q => q.x == jx && q.y == 7 - jy) =
      b.pieces.any (fun q => q.x == jx && q.y == jy) := by
    apply bool_eq_of_iff
    simp only [mirrorBoard, List.any_eq_true, List.mem_map]
    constructor
    · rintro ⟨q', ⟨q, hq, rfl⟩, hcd⟩
      refine ⟨q, hq, ?_⟩
      simp only [mirrorPiece_x, mirrorPiece_y, Bool.and_eq_true, beq_iff_eq] at hcd ⊢
      omega
    · rintro ⟨q, hq, hcd⟩
      refine ⟨mirrorPiece q, ⟨q, hq, rfl⟩, ?_⟩
      simp only [mirrorPiece_x, mirrorPiece_y, Bool.and_eq_true, beq_iff_eq] at hcd ⊢
      omega
  rw [hany]

/-- Square safety commutes with the vertical mirror for the two real teams. -/
theorem isSquareSafe_mirror (b : Board) (x y t : Int) (ht : t = 1 ∨ t = 2) :
    isSquareSafe (mirrorBoard b) x (7 - y) (mirrorTeam t) = isSquareSafe b x y t := by
  rw [isSquareSafe_rw, isSquareSafe_rw]
  have hopp : (if mirrorTeam t == 1 then (2 : Int) else 1) =
      mirrorTeam (if t == 1 then (2 : Int) else 1) := by
    rcases ht with rfl | rfl <;> rfl
  rw [hopp, filter_team_mirror, List.all_map]
  congr 1
  funext p
  simp only [Function.comp_apply, mirrorPiece_x, mirrorPiece_y]
  have e1 := jumpCheck_mirror b x y p (p.x + 2) (p.y - 2) (7 - p.y + 2)
    (by ring) ⟨p.x + 1, by ring⟩ ⟨p.y - 1, by ring⟩
  have e2 := jumpCheck_mirror b x y p (p.x + 2) (p.y + 2) (7 - p.y - 2)
    (by ring) ⟨p.x + 1, by ring⟩ ⟨p.y + 1, by ring⟩
  have e3 := jumpCheck_mirror b x y p (p.x - 2) (p.y - 2) (7 - p.y + 2)
    (by ring) ⟨p.x - 1, by ring⟩ ⟨p.y - 1, by ring⟩
  have e4 := jumpCheck_mirror b x y p (p.x - 2) (p.y + 2) (7 - p.y - 2)
    (by ring) ⟨p.x - 1, by ring⟩ ⟨p.y + 1, by ring⟩
  simp only [List.all_cons, List.all_nil, Bool.and_true]
  rw [e1, e2, e3, e4]
  generalize jumpCheck b x y p (p.x + 2, p.y + 2) = a1
  generalize jumpCheck b x y p (p.x + 2, p.y - 2) = a2
  generalize jumpCheck b x y p (p.x - 2, p.y + 2) = a3
  generalize jumpCheck b x y p (p.x - 2, p.y - 2) = a4
  cases a1 <;> cases a2 <;> cases a3 <;> cases a4 <;> rfl

/-- A piece's evaluator contribution is negated by the vertical mirror with
team swap. -/
theorem pieceScore_mirror (b : Board) (p : Piece) (ht : p.team = 1 ∨ p.team = 2) :
    pieceScore (mirrorBoard b) (mirrorPiece p) = -(pieceScore b p) := by
  unfold pieceScore
  dsimp only
  rw [mirrorPiece_x, mirrorPiece_y, mirrorPiece_team, mirrorPiece_king,
    isSquareSafe_mirror b p.x p.y p.team ht]
  rcases ht with h1 | h1 <;> rw [h1]
  · have hmt : mirrorTeam 1 = 2 := by decide
    rw [hmt]
    have s1 : (if ((2 : Int) == 1) then (1 : ℚ) else -1) = -1 := rfl
    have s2 : (if ((1 : Int) == 1) then (1 : ℚ) else -1) = 1 := rfl
    have r1 : (if ((2 : Int) == 1) then ((7 - p.y : Int) : ℚ)
        else 7 - ((7 - p.y : Int) : ℚ)) = 7 - ((7 - p.y : Int) : ℚ) := rfl
    have r2 : (if ((1 : Int) == 1) then ((p.y : Int) : ℚ)
        else 7 - ((p.y : Int) : ℚ)) = ((p.y : Int) : ℚ) := rfl
    have hadv : (7 : ℚ) - ((7 - p.y : Int) : ℚ) = (p.y : ℚ) := by push_cast; ring
    have hcy : |(7/2 : ℚ) - ((7 - p.y : Int) : ℚ)| = |(7/2 : ℚ) - (p.y : ℚ)| := by
      have h : (7/2 : ℚ) - ((7 - p.y : Int) : ℚ) = -((7/2 : ℚ) - (p.y : ℚ)) := by
        push_cast; ring
      rw [h, abs_neg]
    rw [s1, s2, r1, r2, hadv, hcy]
    ring
  · have hmt : mirrorTeam 2 = 1 := by decide
    rw [hmt]
    have s1 : (if ((1 : Int) == 1) then (1 : ℚ) else -1) = 1 := rfl
    have s2 : (if ((2 : Int) == 1) then (1 : ℚ) else -1) = -1 := rfl
    have r1 : (if ((1 : Int) == 1) then ((7 - p.y : Int) : ℚ)
        else 7 - ((7 - p.y : Int) : ℚ)) = ((7 - p.y : Int) : ℚ) := rfl
    have r2 : (if ((2 : Int) == 1) then ((p.y : Int) : ℚ)
        else 7 - ((p.y : Int) : ℚ)) = 7 - ((p.y : Int) : ℚ) := rfl
    have hadv2 : ((7 - p.y : Int) : ℚ) = 7 - (p.y : ℚ) := by push_cast; ring
    have hcy2 : |(7/2 : ℚ) - (7 - (p.y : ℚ))| = |(7/2 : ℚ) - (p.y : ℚ)| := by
      have h : (7/2 : ℚ) - (7 - (p.y : ℚ)) = -((7/2 : ℚ) - (p.y : ℚ)) := by ring
      rw [h, abs_neg]
    rw [s1, s2, r1, r2, hadv2, hcy2]
    ring

/-- Summing the negations negates the sum. -/
theorem sum_map_neg_q {α : Type} (l : List α) (f : α → ℚ) :
    (l.map (fun x => -(f x))).sum = -((l.map f).sum) := by
  induction l with
  | nil => simp
  | cons a l ih => simp only [List.map_cons, List.sum_cons, ih]; ring

/-- The material sum is negated by the mirror, for boards whose pieces all
belong to team 1 or 2. -/
theorem material_mirror (b : Board)
    (ht : ∀ p ∈ b.pieces, p.team = 1 ∨ p.team = 2) :
    ((mirrorBoard b).pieces.map (pieceScore (mirrorBoard b))).sum =
      -((b.pieces.map (pieceScore b)).sum) := by
  have hmp : (mirrorBoard b).pieces = b.pieces.map mirrorPiece := rfl
  rw [hmp, List.map_map]
  have hcong : ∀ p ∈ b.pieces, (pieceScore (mirrorBoard b) ∘ mirrorPiece) p =
      (fun q => -(pieceScore b q)) p := by
    intro p hp
    exact pieceScore_mirror b p (ht p hp)
  rw [List.map_congr_left hcong]
  exact sum_map_neg_q b.pieces (pieceScore b)

/-- Team 1's back-rank count of the mirrored board is team 2's back-rank count
of the original. -/
theorem backrank1_mirror (b : Board) :
    (((mirrorBoard b).pieces.filter (fun p => p.team == (1 : Int))).filter
        (fun p => p.y == (0 : Int))).length =
      ((b.pieces.filter (fun p => p.team == (2 : Int))).filter
        (fun p => p.y == (7 : Int))).length := by
  rw [show (1 : Int) = mirrorTeam 2 from by decide, filter_team_mirror,
    List.filter_map, List.length_map]
  congr 1
  apply List.filter_congr
  intro p _
  simp only [Function.comp_apply, mirrorPiece_y]
  exact bool_eq_of_iff (by rw [beq_iff_eq, beq_iff_eq]; omega)

/-- Team 2's back-rank count of the mirrored board is team 1's back-rank count
of the original. -/
theorem backrank2_mirror (b : Board) :
    (((mirrorBoard b).pieces.filter (fun p => p.team == (2 : Int))).filter
        (fun p => p.y == (7 : Int))).length =
      ((b.pieces.filter (fun p => p.team == (1 : Int))).filter
        (fun p => p.y == (0 : Int))).length := by
  rw [show (2 : Int) = mirrorTeam 1 from by decide, filter_team_mirror,
    List.filter_map, List.length_map]
  congr 1
  apply List.filter_congr
  intro p _
  simp only [Function.comp_apply, mirrorPiece_y]
  exact bool_eq_of_iff (by rw [beq_iff_eq, beq_iff_eq]; omega)

/-- Claim C5 (amended): on boards without kings whose pieces all belong to
teams 1 and 2, and on which the two teams are not simultaneously pieceless nor
simultaneously moveless, reflecting every piece across the horizontal midline
(`y ↦ 7 - y`, `x` unchanged) and swapping the teams negates the noise-free
static evaluation: `evaluateBoard (mirrorBoard b) = -(evaluateBoard b)`.
(On boards with kings the symmetry fails, see the counterexample.) -/
theorem C5_eval_mirror_negation (b : Board)
    (hteam : ∀ p ∈ b.pieces, p.team = 1 ∨ p.team = 2)
    (hking : ∀ p ∈ b.pieces, p.king = false)
    (hpieces : ¬((b.pieces.filter (fun p => p.team == (1 : Int))).length = 0 ∧
                 (b.pieces.filter (fun p => p.team == (2 : Int))).length = 0))
    (hmoves : ¬((getAllMovesForTeam b 1).length = 0 ∧
                (getAllMovesForTeam b 2).length = 0)) :
    evaluateBoard (mirrorBoard b) none = -(evaluateBoard b none) := by
  have hn1 : ((mirrorBoard b).pieces.filter (fun p => p.team == (1 : Int))).length =
      (b.pieces.filter (fun p => p.team == (2 : Int))).length := by
    rw [show (1 : Int) = mirrorTeam 2 from by decide, filter_team_mirror,
      List.length_map]
  have hn2 : ((mirrorBoard b).pieces.filter (fun p => p.team == (2 : Int))).length =
      (b.pieces.filter (fun p => p.team == (1 : Int))).length := by
    rw [show (2 : Int) = mirrorTeam 1 from by decide, filter_team_mirror,
      List.length_map]
  have hm1 : (getAllMovesForTeam (mirrorBoard b) 1).length =
      (getAllMovesForTeam b 2).length := by
    rw [show (1 : Int) = mirrorTeam 2 from by decide,
      (getAllMoves_mirror b 2 hking).length_eq, List.length_map]
  have hm2 : (getAllMovesForTeam (mirrorBoard b) 2).length =
      (getAllMovesForTeam b 1).length := by
    rw [show (2 : Int) = mirrorTeam 1 from by decide,
      (getAllMoves_mirror b 1 hking).length_eq, List.length_map]
  have hmat := material_mirror b hteam
  have hbr1 := backrank1_mirror b
  have hbr2 := backrank2_mirror b
  unfold evaluateBoard
  dsimp only
  simp only [beq_iff_eq]
  rw [hn1, hn2, hm1, hm2, hbr1, hbr2, hmat]
  by_cases hA : (b.pieces.filter (fun p => p.team == (1 : Int))).length = 0
  · have hB : (b.pieces.filter (fun p => p.team == (2 : Int))).length ≠ 0 :=
      fun hB => hpieces ⟨hA, hB⟩
    rw [if_neg hB, if_pos hA, if_pos hA]
    norm_num
  · by_cases hB : (b.pieces.filter (fun p => p.team == (2 : Int))).length = 0
    · rw [if_pos hB, if_neg hA, if_pos hB]
    · rw [if_neg hB, if_neg hA, if_neg hA, if_neg hB]
      by_cases hC : (getAllMovesForTeam b 1).length = 0
      · have hD : (getAllMovesForTeam b 2).length ≠ 0 :=
          fun hD => hmoves ⟨hC, hD⟩
        rw [if_neg hD, if_pos hC, if_pos hC]
        norm_num
      · by_cases hD : (getAllMovesForTeam b 2).length = 0
        · rw [if_pos hD, if_neg hC, if_pos hD]
        · rw [if_neg hD, if_neg hC, if_neg hC, if_neg hD]
          split_ifs <;> push_cast <;> ring

/-- Claim C5 counterexample: the unrestricted mirror symmetry fails.  On a
board with a team-1 king at `(0, 0)` and a team-2 man at `(1, 1)` the king has
seven generated moves but its mirror image has only two (the capture scan of
`pieceKilledOnBoard` walks the wrong diagonal for long anti-diagonal king
moves), so the evaluations are `86/5` and `-81/5` instead of negatives of each
other. -/
theorem C5_counterexample :
    ¬(∀ b : Board, evaluateBoard (mirrorBoard b) none = -(evaluateBoard b none)) := by
  intro h
  have h1 : evaluateBoard
      (⟨[{ mkPiece 0 0 0 1 with king := true }, mkPiece 1 1 1 2]⟩ : Board) none
      = 86/5 := by
    simp +decide only [evaluateBoard, pieceScore, isSquareSafe, getAllMovesForTeam,
      teamMovesUnfiltered, findAvailableMovesOnBoard, validJumpOnBoard,
      isCaptureMove, pieceKilledOnBoard, killScanSquares, kingOffsets, dirOffsets,
      mkPiece, List.filter, List.foldr, List.filterMap, List.find?, List.findSome?,
      List.all, List.any, List.range, List.map, List.length, List.append,
      Int.reduceAdd, Int.reduceSub, Int.reduceNeg, Int.reduceMul]
    norm_num [abs_of_pos, abs_of_nonneg]
  have h2 : evaluateBoard (mirrorBoard
      (⟨[{ mkPiece 0 0 0 1 with king := true }, mkPiece 1 1 1 2]⟩ : Board)) none
      = -(81/5) := by
    simp +decide only [mirrorBoard, mirrorPiece, mirrorTeam, List.map,
      evaluateBoard, pieceScore, isSquareSafe, getAllMovesForTeam,
      teamMovesUnfiltered, findAvailableMovesOnBoard, validJumpOnBoard,
      isCaptureMove, pieceKilledOnBoard, killScanSquares, kingOffsets, dirOffsets,
      mkPiece, List.filter, List.foldr, List.filterMap, List.find?, List.findSome?,
      List.all, List.any, List.range, List.length, List.append,
      Int.reduceAdd, Int.reduceSub, Int.reduceNeg, Int.reduceMul]
    norm_num [abs_of_pos, abs_of_nonneg]
  have h3 := h ⟨[{ mkPiece 0 0 0 1 with king := true }, mkPiece 1 1 1 2]⟩
  rw [h1, h2] at h3
  norm_num at h3

/-- Claim C5 witness: a concrete kingless four-man board satisfying all side
conditions, on which the amended mirror negation holds. -/
theorem C5_eval_mirror_negation_witness :
    evaluateBoard (mirrorBoard (⟨[mkPiece 0 2 2 1, mkPiece 1 3 3 2,
        mkPiece 2 6 6 2, mkPiece 3 1 5 1]⟩ : Board)) none =
      -(evaluateBoard (⟨[mkPiece 0 2 2 1, mkPiece 1 3 3 2,
        mkPiece 2 6 6 2, mkPiece 3 1 5 1]⟩ : Board) none) :=
  C5_eval_mirror_negation
    ⟨[mkPiece 0 2 2 1, mkPiece 1 3 3 2, mkPiece 2 6 6 2, mkPiece 3 1 5 1]⟩
    (by decide) (by decide) (by decide) (by decide)

/-- A valid random draw indexes any nonempty array in bounds. -/
theorem randIndex_lt {r : ℚ} {n : ℕ} (h0 : 0 ≤ r) (h1 : r < 1) (hn : 0 < n) :
    randIndex r n < n := by
  unfold randIndex
  have hlt : r * (n : ℚ) < (n : ℚ) := by
    calc r * (n : ℚ) < 1 * (n : ℚ) := by
          apply mul_lt_mul_of_pos_right h1
          exact_mod_cast hn
    _ = (n : ℚ) := one_mul _
  have hfl : ⌊r * (n : ℚ)⌋ < (n : Int) := by
    apply Int.floor_lt.mpr
    exact_mod_cast hlt
  have heq : (r * (n : ℚ)).floor = ⌊r * (n : ℚ)⌋ := rfl
  omega

/-- An in-bounds optional index is `some`. -/
theorem getElem?_lt_isSome {α : Type} (l : List α) (i : ℕ) (h : i < l.length) :
    ∃ x, l[i]? = some x := by
  rw [List.getElem?_eq_getElem h]
  exact ⟨_, rfl⟩

/-- Every move produced by `getAllMovesForTeam` belongs to a piece of the
board. -/
theorem mem_getAllMoves_piece {b : Board} {t : Int} {m : TMove}
    (h : m ∈ getAllMovesForTeam b t) : m.piece ∈ b.pieces := by
  unfold getAllMovesForTeam at h
  dsimp only at h
  split at h
  · exact (mem_teamMovesUnfiltered (List.mem_filter.mp h).1).1
  · exact (mem_teamMovesUnfiltered h).1

/-- The per-move scoring loop succeeds when every scorer call succeeds, and
scores every move. -/
theorem scoreList_total (f : TMove → ℕ → Option (ℚ × ℕ)) :
    ∀ (moves : List TMove) (k : ℕ),
      (∀ m ∈ moves, ∀ k', ∃ s k'', f m k' = some (s, k'')) →
      ∃ l k', scoreList f moves k = some (l, k') ∧ l.length = moves.length := by
  intro moves
  induction moves with
  | nil => intro k _; exact ⟨[], k, rfl, rfl⟩
  | cons m rest ih =>
    intro k hf
    obtain ⟨s, k1, hs⟩ := hf m (List.mem_cons_self m rest) k
    obtain ⟨l, k2, hl, hlen⟩ := ih k1 (fun m' hm' => hf m' (List.mem_cons_of_mem _ hm'))
    refine ⟨⟨m.piece, m.move, s⟩ :: l, k2, ?_, by simp [hlen]⟩
    rw [scoreList, hs]
    dsimp only
    rw [hl]

/-- The sort–threshold–pick tail succeeds on a nonempty scored list whenever
the threshold never exceeds the maximum. -/
theorem chooseBest_isSome (scored : List ScoredMove) (thr : ℚ → ℚ) (o : ℕ → ℚ)
    (k : ℕ) (hne : scored ≠ []) (hthr : ∀ ms : ℚ, thr ms ≤ ms)
    (hok : OracleOK o) :
    ∃ m k', chooseBest scored thr o k = some (m, k') := by
  unfold chooseBest
  rcases hs : scored.mergeSort (fun a b => decide (b.score ≤ a.score)) with _ | ⟨top, rest⟩
  · exfalso
    have : (scored.mergeSort (fun a b => decide (b.score ≤ a.score))).length =
        scored.length := List.length_mergeSort scored
    rw [hs] at this
    exact hne (List.length_eq_zero.mp this.symm)
  · dsimp only
    have htop : (decide (thr top.score ≤ top.score)) = true := by
      simp [hthr top.score]
    have hmem : top ∈ (top :: rest).filter (fun m => decide (thr top.score ≤ m.score)) := by
      rw [List.mem_filter]
      exact ⟨List.mem_cons_self _ _, htop⟩
    have hlen : 0 < ((top :: rest).filter
        (fun m => decide (thr top.score ≤ m.score))).length :=
      List.length_pos.mpr (fun he => by rw [he] at hmem; exact List.not_mem_nil _ hmem)
    obtain ⟨x, hx⟩ := getElem?_lt_isSome _ _
      (randIndex_lt (hok k).1 (hok k).2 hlen)
    rw [hx]
    exact ⟨_, _, rfl⟩

/-- `randomAI` returns null exactly on empty move lists. -/
theorem randomAI_spec (b : Board) (t : Int) (o : ℕ → ℚ) (k : ℕ)
    (hok : OracleOK o) :
    (getAllMovesForTeam b t = [] → randomAI b t o k = some (none, k)) ∧
    (getAllMovesForTeam b t ≠ [] →
      ∃ m k', randomAI b t o k = some (some m, k')) := by
  constructor
  · intro h
    unfold randomAI
    rw [h]
    rfl
  · intro h
    have hlen : 0 < (getAllMovesForTeam b t).length := List.length_pos.mpr h
    unfold randomAI
    dsimp only
    rw [if_neg (by omega)]
    obtain ⟨m, hm⟩ := getElem?_lt_isSome _ _ (randIndex_lt (hok k).1 (hok k).2 hlen)
    rw [hm]
    exact ⟨m, k + 1, rfl⟩

/-- `greedyAI` returns null exactly on empty move lists. -/
theorem greedyAI_spec (b : Board) (t : Int) (o : ℕ → ℚ) (k : ℕ)
    (hok : OracleOK o) :
    (getAllMovesForTeam b t = [] → greedyAI b t o k = some (none, k)) ∧
    (getAllMovesForTeam b t ≠ [] →
      ∃ m k', greedyAI b t o k = some (some m, k')) := by
  constructor
  · intro h
    unfold greedyAI
    rw [h]
    rfl
  · intro h
    have hlen : 0 < (getAllMovesForTeam b t).length := List.length_pos.mpr h
    unfold greedyAI
    dsimp only
    rw [if_neg (by omega)]
    obtain ⟨m0, hm0⟩ := getElem?_lt_isSome (getAllMovesForTeam b t) 0 hlen
    rw [hm0]
    dsimp only
    cases hcap : (pieceKilledOnBoard m0.piece m0.move.1 m0.move.2 b).isSome with
    | false =>
      obtain ⟨m, hm⟩ := getElem?_lt_isSome _ _ (randIndex_lt (hok k).1 (hok k).2 hlen)
      simp only [Bool.not_false, if_true]
      rw [hm]
      exact ⟨m, k + 1, rfl⟩
    | true =>
      simp only [Bool.not_true, Bool.false_eq_true, if_false]
      obtain ⟨scored, k1, hsl, hslen⟩ := scoreList_total (greedyScore b t o)
        (getAllMovesForTeam b t) k
        (by
          intro m hm k'
          obtain ⟨n, hn⟩ := countChainCaptures_total b m.piece m.move.1 m.move.2 0
            ⟨m.piece, mem_getAllMoves_piece hm, rfl⟩
          have heq : greedyScore b t o m k' = some ((n : ℚ) * 100 +
              (if isSquareSafe b m.move.1 m.move.2 t then 50 else 0) +
              aiNoiseQ o k', k' + 1) := by
            unfold greedyScore
            rw [hn]
          exact ⟨_, _, heq⟩)
      rw [hsl]
      dsimp only
      obtain ⟨m, k2, hcb⟩ := chooseBest_isSome scored (fun ms => ms) o k1
        (by
          intro he
          rw [he] at hslen
          exact h (List.length_eq_zero.mp hslen.symm))
        (fun ms => le_refl ms) hok
      rw [hcb]
      exact ⟨m, k2, rfl⟩

/-- `superGreedyAI` returns null exactly on empty move lists. -/
theorem superGreedyAI_spec (b : Board) (t : Int) (o : ℕ → ℚ) (k : ℕ)
    (hok : OracleOK o) :
    (getAllMovesForTeam b t = [] → superGreedyAI b t o k = some (none, k)) ∧
    (getAllMovesForTeam b t ≠ [] →
      ∃ m k', superGreedyAI b t o k = some (some m, k')) := by
  constructor
  · intro h
    unfold superGreedyAI
    rw [h]
    rfl
  · intro h
    have hlen : 0 < (getAllMovesForTeam b t).length := List.length_pos.mpr h
    unfold superGreedyAI
    dsimp only
    rw [if_neg (by omega)]
    obtain ⟨scored, k1, hsl, hslen⟩ := scoreList_total (superGreedyScore b t o)
      (getAllMovesForTeam b t) k
      (by
        intro m hm k'
        have hpc : m.piece ∈ b.pieces := mem_getAllMoves_piece hm
        obtain ⟨res, hres⟩ := applyMoveOnBoard_isSome b m.piece m.move.1 m.move.2
          ⟨m.piece, hpc, rfl⟩
        unfold superGreedyScore
        dsimp only
        cases hic : (pieceKilledOnBoard m.piece m.move.1 m.move.2 b).isSome with
        | true =>
          obtain ⟨n, hn⟩ := countChainCaptures_total b m.piece m.move.1 m.move.2 0
            ⟨m.piece, hpc, rfl⟩
          simp only [hic, if_true, hn, hres]
          exact ⟨_, _, rfl⟩
        | false =>
          simp only [hic, Bool.false_eq_true, if_false, hres]
          exact ⟨_, _, rfl⟩)
    rw [hsl]
    dsimp only
    obtain ⟨m, k2, hcb⟩ := chooseBest_isSome scored
      (fun ms => if ms > 0 then ms * (9/10) else ms - 10) o k1
      (by
        intro he
        rw [he] at hslen
        exact h (List.length_eq_zero.mp hslen.symm))
      (by
        intro ms
        dsimp only
        split_ifs with hms
        · nlinarith
        · linarith) hok
    rw [hcb]
    exact ⟨m, k2, rfl⟩

/-- `defensiveAI` returns null exactly on empty move lists. -/
theorem defensiveAI_spec (b : Board) (t : Int) (o : ℕ → ℚ) (k : ℕ)
    (hok : OracleOK o) :
    (getAllMovesForTeam b t = [] → defensiveAI b t o k = some (none, k)) ∧
    (getAllMovesForTeam b t ≠ [] →
      ∃ m k', defensiveAI b t o k = some (some m, k')) := by
  constructor
  · intro h
    unfold defensiveAI
    rw [h]
    rfl
  · intro h
    have hlen : 0 < (getAllMovesForTeam b t).length := List.length_pos.mpr h
    unfold defensiveAI
    dsimp only
    rw [if_neg (by omega)]
    obtain ⟨scored, k1, hsl, hslen⟩ := scoreList_total (defensiveScore b t o)
      (getAllMovesForTeam b t) k
      (by
        intro m hm k'
        have hpc : m.piece ∈ b.pieces := mem_getAllMoves_piece hm
        obtain ⟨res, hres⟩ := applyMoveOnBoard_isSome b m.piece m.move.1 m.move.2
          ⟨m.piece, hpc, rfl⟩
        unfold defensiveScore
        dsimp only
        simp only [hres]
        exact ⟨_, _, rfl⟩)
    rw [hsl]
    dsimp only
    obtain ⟨m, k2, hcb⟩ := chooseBest_isSome scored (fun ms => ms - 50) o k1
      (by
        intro he
        rw [he] at hslen
        exact h (List.length_eq_zero.mp hslen.symm))
      (fun ms => by dsimp only; linarith) hok
    rw [hcb]
    exact ⟨m, k2, rfl⟩

/-- `adaptiveAI` returns null exactly on empty move lists. -/
theorem adaptiveAI_spec (b : Board) (t : Int) (o : ℕ → ℚ) (k : ℕ)
    (hok : OracleOK o) :
    (getAllMovesForTeam b t = [] → adaptiveAI b t o k = some (none, k)) ∧
    (getAllMovesForTeam b t ≠ [] →
      ∃ m k', adaptiveAI b t o k = some (some m, k')) := by
  constructor
  · intro h
    unfold adaptiveAI
    rw [h]
    rfl
  · intro h
    have hlen : 0 < (getAllMovesForTeam b t).length := List.length_pos.mpr h
    unfold adaptiveAI
    dsimp only
    rw [if_neg (by omega)]
    obtain ⟨scored, k1, hsl, hslen⟩ := scoreList_total
      (adaptiveScore b t o _) (getAllMovesForTeam b t) k
      (by
        intro m hm k'
        have hpc : m.piece ∈ b.pieces := mem_getAllMoves_piece hm
        obtain ⟨res, hres⟩ := applyMoveOnBoard_isSome b m.piece m.move.1 m.move.2
          ⟨m.piece, hpc, rfl⟩
        unfold adaptiveScore
        dsimp only
        cases hic : (pieceKilledOnBoard m.piece m.move.1 m.move.2 b).isSome with
        | true =>
          obtain ⟨n, hn⟩ := countChainCaptures_total b m.piece m.move.1 m.move.2 0
            ⟨m.piece, hpc, rfl⟩
          simp only [hic, if_true, hn, hres]
          exact ⟨_, _, rfl⟩
        | false =>
          simp only [hic, Bool.false_eq_true, if_false, hres]
          exact ⟨_, _, rfl⟩)
    rw [hsl]
    dsimp only
    obtain ⟨m, k2, hcb⟩ := chooseBest_isSome scored (fun ms => ms - 20) o k1
      (by
        intro he
        rw [he] at hslen
        exact h (List.length_eq_zero.mp hslen.symm))
      (fun ms => by dsimp only; linarith) hok
    rw [hcb]
    exact ⟨m, k2, rfl⟩

/-- `positionalAI` returns null exactly on empty move lists. -/
theorem positionalAI_spec (b : Board) (t : Int) (o : ℕ → ℚ) (k : ℕ)
    (hok : OracleOK o) :
    (getAllMovesForTeam b t = [] → positionalAI b t o k = some (none, k)) ∧
    (getAllMovesForTeam b t ≠ [] →
      ∃ m k', positionalAI b t o k = some (some m, k')) := by
  constructor
  · intro h
    unfold positionalAI
    rw [h]
    rfl
  · intro h
    have hlen : 0 < (getAllMovesForTeam b t).length := List.length_pos.mpr h
    unfold positionalAI
    dsimp only
    rw [if_neg (by omega)]
    obtain ⟨scored, k1, hsl, hslen⟩ := scoreList_total
      (positionalScore b t (if t == 1 then 2 else 1) o) (getAllMovesForTeam b t) k
      (by
        intro m hm k'
        have hpc : m.piece ∈ b.pieces := mem_getAllMoves_piece hm
        obtain ⟨res, hres⟩ := applyMoveOnBoard_isSome b m.piece m.move.1 m.move.2
          ⟨m.piece, hpc, rfl⟩
        unfold positionalScore
        simp only [hres]
        exact ⟨_, _, rfl⟩)
    rw [hsl]
    dsimp only
    obtain ⟨m, k2, hcb⟩ := chooseBest_isSome scored (fun ms => ms - 30) o k1
      (by
        intro he
        rw [he] at hslen
        exact h (List.length_eq_zero.mp hslen.symm))
      (fun ms => by dsimp only; linarith) hok
    rw [hcb]
    exact ⟨m, k2, rfl⟩

/-- A non-terminal board gives both teams at least one move. -/
theorem isGameOver_false_moves {b : Board} (h : (isGameOver b).over = false) :
    getAllMovesForTeam b 1 ≠ [] ∧ getAllMovesForTeam b 2 ≠ [] := by
  unfold isGameOver at h
  dsimp only at h
  split_ifs at h with h1 h2 h3 h4
  exact ⟨fun he => h3 (by rw [he]; rfl), fun he => h4 (by rw [he]; rfl)⟩

/-- `Math.max(-∞, x)` for finite `x`. -/
theorem XScore_max_ninf_fin (q : ℚ) :
    XScore.max XScore.ninf (XScore.fin q) = XScore.fin q := rfl

/-- Maximising two finite scores stays finite. -/
theorem XScore_max_fin_fin (a q : ℚ) :
    ∃ r, XScore.max (XScore.fin a) (XScore.fin q) = XScore.fin r := by
  unfold XScore.max
  split_ifs
  · exact ⟨q, rfl⟩
  · exact ⟨a, rfl⟩

/-- `Math.min(∞, x)` for finite `x`. -/
theorem XScore_min_pinf_fin (q : ℚ) :
    XScore.min XScore.pinf (XScore.fin q) = XScore.fin q := rfl

/-- Minimising two finite scores stays finite. -/
theorem XScore_min_fin_fin (a q : ℚ) :
    ∃ r, XScore.min (XScore.fin a) (XScore.fin q) = XScore.fin r := by
  unfold XScore.min
  split_ifs
  · exact ⟨q, rfl⟩
  · exact ⟨a, rfl⟩

/-- The alpha–beta loop returns a finite score when the accumulator is on the
right side of its mode and there is a move or a finite accumulator. -/
theorem minimaxFold_fin (board : Board) (cd maxD : Nat)
    (hmm : ∀ (b' : Board) (alpha' beta' : XScore) (maxP' : Bool) (team' : Int)
      (maxD' : Nat), team' = 1 ∨ team' = 2 →
      ∃ q, minimax b' cd alpha' beta' maxP' team' maxD' = some (XScore.fin q)) :
    ∀ (moves : List TMove) (alpha beta acc : XScore) (maxP : Bool)
      (curTeam : Int),
      (∀ m ∈ moves, m.piece ∈ board.pieces) →
      (if maxP then acc ≠ XScore.pinf else acc ≠ XScore.ninf) →
      ((∃ q, acc = XScore.fin q) ∨ moves ≠ []) →
      ∃ q, minimaxFold board moves cd alpha beta maxP curTeam maxD acc =
        some (XScore.fin q) := by
  intro moves
  induction moves with
  | nil =>
    intro alpha beta acc maxP curTeam _ _ hinit
    rcases hinit with ⟨q, rfl⟩ | hne
    · exact ⟨q, by rw [minimaxFold]⟩
    · exact absurd rfl hne
  | cons m rest ih =>
    intro alpha beta acc maxP curTeam hp hacc _
    obtain ⟨res, hres⟩ := applyMoveOnBoard_isSome board m.piece m.move.1 m.move.2
      ⟨m.piece, hp m (List.mem_cons_self m rest), rfl⟩
    obtain ⟨q, hq⟩ := hmm res.1 alpha beta (!maxP)
      (if curTeam == 1 then 2 else 1) maxD
      (by split_ifs with hc; exacts [Or.inr rfl, Or.inl rfl])
    rw [minimaxFold, hres]
    dsimp only
    rw [hq]
    dsimp only
    cases hmp : maxP with
    | true =>
      rw [hmp] at hacc
      simp only [if_true]
      have hfin : ∃ q2, XScore.max acc (XScore.fin q) = XScore.fin q2 := by
        rcases acc with _ | aq | _
        · exact ⟨q, rfl⟩
        · exact XScore_max_fin_fin aq q
        · simp at hacc
      obtain ⟨q2, hq2⟩ := hfin
      rw [hq2]
      cases hbr : XScore.le beta (XScore.max alpha (XScore.fin q)) with
      | true =>
        rw [if_pos rfl]
        exact ⟨q2, rfl⟩
      | false =>
        rw [if_neg (by simp)]
        exact ih _ _ (XScore.fin q2) true curTeam
          (fun m' hm' => hp m' (List.mem_cons_of_mem _ hm'))
          (by simp) (Or.inl ⟨q2, rfl⟩)
    | false =>
      rw [hmp] at hacc
      simp only [Bool.false_eq_true, if_false]
      have hfin : ∃ q2, XScore.min acc (XScore.fin q) = XScore.fin q2 := by
        rcases acc with _ | aq | _
        · simp at hacc
        · exact XScore_min_fin_fin aq q
        · exact ⟨q, rfl⟩
      obtain ⟨q2, hq2⟩ := hfin
      rw [hq2]
      cases hbr : XScore.le (XScore.min beta (XScore.fin q)) alpha with
      | true =>
        rw [if_pos rfl]
        exact ⟨q2, rfl⟩
      | false =>
        rw [if_neg (by simp)]
        exact ih _ _ (XScore.fin q2) false curTeam
          (fun m' hm' => hp m' (List.mem_cons_of_mem _ hm'))
          (by simp) (Or.inl ⟨q2, rfl⟩)

/-- For the two real teams `minimax` always returns a finite score (no crash,
never `±Infinity`). -/
theorem minimax_fin :
    ∀ (d : Nat) (board : Board) (alpha beta : XScore) (maxP : Bool)
      (curTeam : Int) (maxD : Nat), curTeam = 1 ∨ curTeam = 2 →
      ∃ q, minimax board d alpha beta maxP curTeam maxD = some (XScore.fin q) := by
  intro d
  induction d using Nat.strong_induction_on with
  | _ d ih =>
    intro board alpha beta maxP curTeam maxD hteam
    rw [minimax]
    dsimp only
    by_cases hover : (isGameOver board).over = true
    · rw [if_pos hover]
      cases hw : (isGameOver board).winner == some 1 with
      | true => exact ⟨_, by rw [if_pos rfl]⟩
      | false => exact ⟨_, by rw [if_neg (by simp)]⟩
    · rw [if_neg hover]
      by_cases hd : d = 0
      · rw [if_pos hd]
        exact ⟨_, rfl⟩
      · rw [if_neg hd]
        have hmoves := isGameOver_false_moves (by
          rcases ho : (isGameOver board).over with _ | _
          · rfl
          · exact absurd ho hover)
        have hne : getAllMovesForTeam board curTeam ≠ [] := by
          rcases hteam with rfl | rfl
          · exact hmoves.1
          · exact hmoves.2
        have hmemp : ∀ m' ∈ (getAllMovesForTeam board curTeam).mergeSort
            (fun a b => decide (captureFlag board b ≤ captureFlag board a)),
            m'.piece ∈ board.pieces := by
          intro m' hm'
          exact mem_getAllMoves_piece (List.mem_mergeSort.mp hm')
        have hsne : (getAllMovesForTeam board curTeam).mergeSort
            (fun a b => decide (captureFlag board b ≤ captureFlag board a)) ≠ [] := by
          intro he
          have : ((getAllMovesForTeam board curTeam).mergeSort
              (fun a b => decide (captureFlag board b ≤ captureFlag board a))).length =
              (getAllMovesForTeam board curTeam).length :=
            List.length_mergeSort (getAllMovesForTeam board curTeam)
          rw [he] at this
          exact hne (List.length_eq_zero.mp this.symm)
        have hfold := minimaxFold_fin board (d - 1) maxD
          (fun b' a' b'' mp' t' md' ht' => ih (d - 1) (by omega) b' a' b'' mp' t' md' ht')
        cases hmp : maxP with
        | true =>
          simp only [if_true]
          exact hfold _ alpha beta XScore.ninf true curTeam hmemp (by simp)
            (Or.inr hsne)
        | false =>
          simp only [Bool.false_eq_true, if_false]
          exact hfold _ alpha beta XScore.pinf false curTeam hmemp (by simp)
            (Or.inr hsne)

/-- The best-move loop of `minimaxAI` ends with a non-null move once a best
move exists or there is at least one move against the initial sentinel. -/
theorem minimaxAILoop_some (b : Board) (t : Int) (o : ℕ → ℚ) (depth : Nat)
    (ht : t = 1 ∨ t = 2) :
    ∀ (moves : List TMove) (k : ℕ) (bestMove : Option TMove) (bestScore : XScore),
      (∀ m ∈ moves, m.piece ∈ b.pieces) →
      (bestMove.isSome = true ∨ (moves ≠ [] ∧
        bestScore = (if t == 1 then XScore.ninf else XScore.pinf))) →
      ∃ r k', minimaxAILoop b t o depth moves k bestMove bestScore =
        some (some r, k') := by
  intro moves
  induction moves with
  | nil =>
    intro k bestMove bestScore _ hbm
    rcases hbm with hbm | ⟨hne, _⟩
    · obtain ⟨r, hr⟩ := Option.isSome_iff_exists.mp hbm
      exact ⟨r, k, by rw [minimaxAILoop, hr]⟩
    · exact absurd rfl hne
  | cons m rest ih =>
    intro k bestMove bestScore hp hbm
    obtain ⟨res, hres⟩ := applyMoveOnBoard_isSome b m.piece m.move.1 m.move.2
      ⟨m.piece, hp m (List.mem_cons_self m rest), rfl⟩
    obtain ⟨q, hq⟩ := minimax_fin (depth - 1) res.1 XScore.ninf XScore.pinf
      (t != 1) (if t == 1 then 2 else 1) depth
      (by split_ifs with hc; exacts [Or.inr rfl, Or.inl rfl])
    rw [minimaxAILoop, hres]
    dsimp only
    rw [hq]
    dsimp only
    have hp' : ∀ m' ∈ rest, m'.piece ∈ b.pieces :=
      fun m' hm' => hp m' (List.mem_cons_of_mem _ hm')
    cases hc : ((t == 1 && XScore.lt bestScore
        (XScore.addQ (XScore.fin q) (aiNoiseQ o k))) ||
        (t == 2 && XScore.lt (XScore.addQ (XScore.fin q) (aiNoiseQ o k)) bestScore)) with
    | true =>
      rw [if_pos rfl]
      exact ih (k + 1) (some m) _ hp' (Or.inl rfl)
    | false =>
      rw [if_neg (by simp)]
      rcases hbm with hbm | ⟨-, hbs⟩
      · exact ih (k + 1) bestMove bestScore hp' (Or.inl hbm)
      · exfalso
        rcases ht with rfl | rfl
        · rw [hbs] at hc
          simp only [show ((1 : Int) == 1) = true from rfl, Bool.true_and,
            show ((1 : Int) == 2) = false from rfl, Bool.false_and,
            Bool.or_false] at hc
          exact absurd hc (by
            show ¬(XScore.lt (if true = true then XScore.ninf else XScore.pinf)
              (XScore.addQ (XScore.fin q) (aiNoiseQ o k)) = false)
            rw [if_pos rfl]
            simp [XScore.lt, XScore.le, XScore.addQ])
        · rw [hbs] at hc
          simp only [show ((2 : Int) == 1) = false from rfl, Bool.false_and,
            show ((2 : Int) == 2) = true from rfl, Bool.true_and,
            Bool.false_or] at hc
          exact absurd hc (by
            show ¬(XScore.lt (XScore.addQ (XScore.fin q) (aiNoiseQ o k))
              (if (2 : Int) == 1 then XScore.ninf else XScore.pinf) = false)
            rw [if_neg (by simp)]
            simp [XScore.lt, XScore.le, XScore.addQ])

/-- `minimaxAI` returns null exactly on empty move lists, for the two real
teams. -/
theorem minimaxAI_spec (b : Board) (t : Int) (o : ℕ → ℚ) (k : ℕ) (depth : Nat)
    (ht : t = 1 ∨ t = 2) :
    (getAllMovesForTeam b t = [] → minimaxAI b t o k depth = some (none, k)) ∧
    (getAllMovesForTeam b t ≠ [] →
      ∃ m k', minimaxAI b t o k depth = some (some m, k')) := by
  constructor
  · intro h
    unfold minimaxAI
    rw [h]
    rfl
  · intro h
    have hlen : 0 < (getAllMovesForTeam b t).length := List.length_pos.mpr h
    unfold minimaxAI
    dsimp only
    rw [if_neg (by omega)]
    exact minimaxAILoop_some b t o depth ht (getAllMovesForTeam b t) k none _
      (fun m hm => mem_getAllMoves_piece hm) (Or.inr ⟨h, rfl⟩)

/-- A `some` optional index is in bounds. -/
theorem getElem?_some_lt {α : Type} {l : List α} {i : ℕ} {x : α}
    (h : l[i]? = some x) : i < l.length := by
  by_contra hge
  rw [List.getElem?_eq_none (by omega)] at h
  cases h

/-- Replacing a node without touching its board, links or identity fields
preserves arena well-formedness, provided the new cached untried moves still
use the node's board. -/
theorem arenaWF_set (b : Board) (a : Arena) (i : ℕ) (nd nd' : MCTSNode)
    (hWF : arenaWF b a) (hget : a[i]? = some nd)
    (hb : nd'.board = nd.board) (hc : nd'.children = nd.children)
    (hpar : nd'.parent = nd.parent) (hpc : nd'.piece = nd.piece)
    (hmv : nd'.move = nd.move)
    (hunt : ∀ l, nd'.untried = some l → ∀ m ∈ l, m.piece ∈ nd'.board.pieces) :
    arenaWF b (a.set i nd') := by
  obtain ⟨⟨rootNd, hroot, hrootb, hrootp⟩, hnode, hrc⟩ := hWF
  have hi : i < a.length := getElem?_some_lt hget
  refine ⟨?_, ?_, ?_⟩
  · by_cases h0 : i = 0
    · subst h0
      refine ⟨nd', by rw [List.getElem?_set_self hi], ?_, ?_⟩
      · rw [hget] at hroot
        cases hroot
        rw [hb, hrootb]
      · rw [hget] at hroot
        cases hroot
        rw [hpar, hrootp]
    · exact ⟨rootNd, by rw [List.getElem?_set_ne h0]; exact hroot,
        hrootb, hrootp⟩
  · intro j ndj hj
    by_cases hij : i = j
    · subst hij
      rw [List.getElem?_set_self hi, Option.some_inj] at hj
      subst hj
      obtain ⟨hc1, _, hc3⟩ := hnode i nd hget
      refine ⟨?_, hunt, ?_⟩
      · rw [hc]
        intro c hcm
        simp only [List.length_set]
        have := hc1 c hcm
        omega
      · rw [hpar]
        exact hc3
    · rw [List.getElem?_set_ne hij] at hj
      obtain ⟨hc1, hc2, hc3⟩ := hnode j ndj hj
      refine ⟨?_, hc2, hc3⟩
      intro c hcm
      simp only [List.length_set]
      have := hc1 c hcm
      omega
  · intro rootNd' hroot' c hcm ndc hc'
    by_cases h0 : i = 0
    · subst h0
      rw [List.getElem?_set_self hi, Option.some_inj] at hroot'
      subst hroot'
      rw [hc] at hcm
      rw [hget] at hroot
      cases hroot
      by_cases hic : 0 = c
      · obtain ⟨hc1, -, -⟩ := hnode 0 nd hget
        have := hc1 c hcm
        omega
      · rw [List.getElem?_set_ne hic] at hc'
        exact hrc nd hget c hcm ndc hc'
    · rw [List.getElem?_set_ne h0] at hroot'
      by_cases hic : i = c
      · subst hic
        rw [List.getElem?_set_self hi, Option.some_inj] at hc'
        subst hc'
        obtain ⟨hp2, hm2⟩ := hrc rootNd' hroot' i hcm nd hget
        rw [hpc, hmv]
        exact ⟨hp2, hm2⟩
      · rw [List.getElem?_set_ne hic] at hc'
        exact hrc rootNd' hroot' c hcm ndc hc'

/-- The singleton root arena is well formed. -/
theorem arenaWF_init (b : Board) (team : Int) :
    arenaWF b [⟨b, team, none, none, none, [], 0, 0, none⟩] := by
  refine ⟨⟨_, rfl, rfl, rfl⟩, ?_, ?_⟩
  · intro i nd h
    have hi : i < 1 := by simpa using getElem?_some_lt h
    have hi0 : i = 0 := by omega
    subst hi0
    simp only [List.getElem?_cons_zero, Option.some_inj] at h
    subst h
    refine ⟨?_, ?_, ?_⟩
    · intro c hc
      simp at hc
    · intro l hl
      simp at hl
    · intro h0
      exact absurd rfl h0
  · intro rootNd hroot c hcm
    simp only [List.getElem?_cons_zero, Option.some_inj] at hroot
    subst hroot
    simp at hcm

/-- Setting a node without changing its children keeps the root child count. -/
theorem rootChildCount_set (a : Arena) (i : ℕ) (nd nd' : MCTSNode)
    (hget : a[i]? = some nd) (hc : nd'.children = nd.children) :
    rootChildCount (a.set i nd') = rootChildCount a := by
  unfold rootChildCount
  by_cases h0 : i = 0
  · subst h0
    rw [List.getElem?_set_self (getElem?_some_lt hget), hget]
    dsimp only
    rw [hc]
  · rw [List.getElem?_set_ne h0]

/-- `getUntriedMoves` succeeds on a valid index, preserves well-formedness,
and afterwards the node caches the returned list. -/
theorem getUntriedMoves_spec (b : Board) (a : Arena) (i : ℕ)
    (hWF : arenaWF b a) (hi : i < a.length) :
    ∃ a' l, getUntriedMoves a i = some (a', l) ∧ arenaWF b a' ∧
      a'.length = a.length ∧ rootChildCount a' = rootChildCount a ∧
      ∃ nd', a'[i]? = some nd' ∧ nd'.untried = some l := by
  obtain ⟨nd, hnd⟩ := getElem?_lt_isSome a i hi
  unfold getUntriedMoves
  rw [hnd]
  dsimp only
  rcases hu : nd.untried with _ | l
  · refine ⟨_, _, rfl, ?_, by simp, ?_, ?_⟩
    · apply arenaWF_set b a i nd
        { nd with untried := some (getAllMovesForTeam nd.board nd.team) }
        hWF hnd rfl rfl rfl rfl rfl
      intro l' hl' m hm
      have hll : l' = getAllMovesForTeam nd.board nd.team := by
        simpa using hl'.symm
      subst hll
      exact mem_getAllMoves_piece hm
    · exact rootChildCount_set a i nd _ hnd rfl
    · exact ⟨_, List.getElem?_set_self hi, rfl⟩
  · exact ⟨a, l, rfl, hWF, rfl, rfl, nd, hnd, hu⟩

/-- `ucb1` is defined on every valid non-root node and exceeds `-∞`. -/
theorem ucb1_some (sq lg : ℚ → ℚ) (b : Board) (a : Arena) (c : ℕ)
    (hWF : arenaWF b a) (hc0 : c ≠ 0) (hc : c < a.length) :
    ∃ u, ucb1 sq lg a c = some u ∧ XScore.lt XScore.ninf u = true := by
  obtain ⟨nd, hnd⟩ := getElem?_lt_isSome a c hc
  unfold ucb1
  rw [hnd]
  dsimp only
  by_cases hv : nd.visits = 0
  · rw [if_pos hv]
    exact ⟨_, rfl, rfl⟩
  · rw [if_neg hv]
    obtain ⟨-, -, hpar⟩ := hWF.2.1 c nd hnd
    obtain ⟨pi, hpi, hlt⟩ := hpar hc0
    rw [hpi]
    dsimp only
    obtain ⟨pnd, hpnd⟩ := getElem?_lt_isSome a pi (by omega)
    rw [hpnd]
    exact ⟨_, rfl, rfl⟩

/-- The `selectChild` scan returns a valid child index once fed a nonempty
child list (or a previously found best index). -/
theorem selectChildLoop_some (sq lg : ℚ → ℚ) (b : Board) (a : Arena)
    (hWF : arenaWF b a) :
    ∀ (cs : List ℕ) (best : Option ℕ) (bu : XScore),
      (∀ c ∈ cs, c ≠ 0 ∧ c < a.length) →
      (∀ j, best = some j → j < a.length) →
      (best = none → bu = XScore.ninf) →
      (best ≠ none ∨ cs ≠ []) →
      ∃ j, selectChildLoop sq lg a cs best bu = some (some j) ∧ j < a.length := by
  intro cs
  induction cs with
  | nil =>
    intro best bu _ hbv _ hne
    rcases best with _ | j
    · rcases hne with hne | hne
      · exact absurd rfl hne
      · exact absurd rfl hne
    · exact ⟨j, by rw [selectChildLoop], hbv j rfl⟩
  | cons c cs ih =>
    intro best bu hcs hbv hbn _
    obtain ⟨hc0, hclt⟩ := hcs c (List.mem_cons_self c cs)
    obtain ⟨u, hu, hlt⟩ := ucb1_some sq lg b a c hWF hc0 hclt
    rw [selectChildLoop, hu]
    dsimp only
    have hcs' : ∀ c' ∈ cs, c' ≠ 0 ∧ c' < a.length :=
      fun c' hc' => hcs c' (List.mem_cons_of_mem _ hc')
    cases hcmp : XScore.lt bu u with
    | true =>
      rw [if_pos rfl]
      exact ih (some c) u hcs'
        (fun j hj => by rw [Option.some_inj] at hj; omega)
        (by intro h; cases h) (Or.inl (by simp))
    | false =>
      rw [if_neg (by simp)]
      rcases best with _ | j
      · rw [hbn rfl, hlt] at hcmp
        cases hcmp
      · exact ih (some j) bu hcs' (fun j' hj' => by
            rw [Option.some_inj] at hj'
            subst hj'
            exact hbv j rfl)
          (by intro h; cases h) (Or.inl (by simp))

/-- `selectChild` finds a valid child when the node has children. -/
theorem selectChild_some (sq lg : ℚ → ℚ) (b : Board) (a : Arena) (i : ℕ)
    (hWF : arenaWF b a) (nd : MCTSNode) (hnd : a[i]? = some nd)
    (hne : nd.children ≠ []) :
    ∃ j, selectChild sq lg a i = some (some j) ∧ j < a.length := by
  unfold selectChild
  rw [hnd]
  dsimp only
  refine selectChildLoop_some sq lg b a hWF nd.children none XScore.ninf
    ?_ (fun j hj => by cases hj) (fun _ => rfl) (Or.inr hne)
  intro c hc
  have := (hWF.2.1 i nd hnd).1 c hc
  omega

/-- The selection descent never crashes from a valid start, preserves
well-formedness, ends on a valid node, and leaves size and the root's child
list unchanged. -/
theorem mctsSelectLoop_spec (sq lg : ℚ → ℚ) (b : Board) :
    ∀ (fuel : ℕ) (a : Arena) (i : ℕ), arenaWF b a → i < a.length →
      ∃ a' i', mctsSelectLoop sq lg fuel a i = some (a', i') ∧ arenaWF b a' ∧
        i' < a'.length ∧ a'.length = a.length ∧
        rootChildCount a' = rootChildCount a := by
  intro fuel
  induction fuel with
  | zero =>
    intro a i hWF hi
    exact ⟨a, i, rfl, hWF, hi, rfl, rfl⟩
  | succ fuel ih =>
    intro a i hWF hi
    obtain ⟨nd, hnd⟩ := getElem?_lt_isSome a i hi
    rw [mctsSelectLoop]
    unfold isTerminalN
    rw [hnd]
    simp only [Option.map_some']
    cases hterm : (isGameOver nd.board).over with
    | true =>
      exact ⟨a, i, rfl, hWF, hi, rfl, rfl⟩
    | false =>
      obtain ⟨a1, l, hgu, hWF1, hlen1, hrc1, nd', hnd', hu'⟩ :=
        getUntriedMoves_spec b a i hWF hi
      rw [hgu]
      dsimp only
      by_cases hl : l.length ≠ 0
      · rw [if_pos hl]
        exact ⟨a1, i, rfl, hWF1, by omega, hlen1, hrc1⟩
      · rw [if_neg hl]
        rw [hnd']
        dsimp only
        by_cases hch : nd'.children.length = 0
        · rw [if_pos hch]
          exact ⟨a1, i, rfl, hWF1, by omega, hlen1, hrc1⟩
        · rw [if_neg hch]
          obtain ⟨j, hsc, hjlt⟩ := selectChild_some sq lg b a1 i hWF1 nd' hnd'
            (fun he => hch (by rw [he]; rfl))
          rw [hsc]
          obtain ⟨a', i', hloop, hWF', hi', hlen', hrc'⟩ := ih a1 j hWF1 hjlt
          exact ⟨a', i', hloop, hWF', hi', by omega, by rw [hrc', hrc1]⟩

/-- Backpropagation never crashes from a valid node, and touches only visit
and win counters. -/
theorem mctsBackpropagate_spec (b : Board) (rootTeam : Int) (result : ℚ) :
    ∀ (fuel : ℕ) (a : Arena) (i : ℕ), arenaWF b a → i < a.length →
      ∃ a', mctsBackpropagate rootTeam result fuel a i = some a' ∧
        arenaWF b a' ∧ a'.length = a.length ∧
        rootChildCount a' = rootChildCount a := by
  intro fuel
  induction fuel with
  | zero =>
    intro a i hWF hi
    exact ⟨a, rfl, hWF, rfl, rfl⟩
  | succ fuel ih =>
    intro a i hWF hi
    obtain ⟨nd, hnd⟩ := getElem?_lt_isSome a i hi
    rw [mctsBackpropagate, hnd]
    dsimp only
    rcases hpar : nd.parent with _ | pi
    · dsimp only
      refine ⟨_, rfl, ?_, by simp, ?_⟩
      · exact arenaWF_set b a i nd _ hWF hnd rfl rfl hpar.symm rfl rfl
          ((hWF.2.1 i nd hnd).2.1)
      · exact rootChildCount_set a i nd _ hnd rfl
    · have hi0 : i ≠ 0 := by
        intro h0
        subst h0
        obtain ⟨rootNd, hroot, -, hrootp⟩ := hWF.1
        rw [hnd, Option.some_inj] at hroot
        subst hroot
        rw [hrootp] at hpar
        cases hpar
      have hpilt : pi < i := by
        obtain ⟨-, -, hp⟩ := hWF.2.1 i nd hnd
        obtain ⟨pi', hpi', hlt⟩ := hp hi0
        rw [hpar, Option.some_inj] at hpi'
        omega
      dsimp only
      obtain ⟨pnd, hpnd⟩ := getElem?_lt_isSome a pi (by omega)
      rw [hpnd]
      simp only [Option.map_some']
      obtain ⟨a', hrec, hWF', hlen', hrc'⟩ := ih
        (a.set i { nd with parent := some pi, visits := nd.visits + 1, wins := nd.wins + (if pnd.team == 1 then result else 1 - result) }) pi
        (arenaWF_set b a i nd _ hWF hnd rfl rfl hpar.symm rfl rfl
          ((hWF.2.1 i nd hnd).2.1))
        (by simp only [List.length_set]; omega)
      refine ⟨a', hrec, hWF', ?_, ?_⟩
      · simp only [List.length_set] at hlen'
        exact hlen'
      · rw [hrc']
        exact rootChildCount_set a i nd _ hnd rfl

/-- Appending a fresh leaf child preserves arena well-formedness. -/
theorem arenaWF_append (b : Board) (a : Arena) (child : MCTSNode)
    (hWF : arenaWF b a)
    (hpar : ∃ pi, child.parent = some pi ∧ pi < a.length)
    (hch : child.children = []) (hunt : child.untried = none) :
    arenaWF b (a ++ [child]) := by
  obtain ⟨⟨rootNd, hroot, hrootb, hrootp⟩, hnode, hrc⟩ := hWF
  have h0 : 0 < a.length := getElem?_some_lt hroot
  refine ⟨⟨rootNd, by rw [List.getElem?_append_left h0]; exact hroot, hrootb,
    hrootp⟩, ?_, ?_⟩
  · intro j nd hj
    by_cases hja : j < a.length
    · rw [List.getElem?_append_left hja] at hj
      obtain ⟨hc1, hc2, hc3⟩ := hnode j nd hj
      refine ⟨?_, hc2, hc3⟩
      intro c hcm
      have := hc1 c hcm
      simp only [List.length_append, List.length_cons, List.length_nil]
      omega
    · have hj2 := getElem?_some_lt hj
      simp only [List.length_append, List.length_cons, List.length_nil] at hj2
      have hja2 : j = a.length := by omega
      subst hja2
      rw [List.getElem?_append_right (le_refl _)] at hj
      simp only [Nat.sub_self, List.getElem?_cons_zero, Option.some_inj] at hj
      subst hj
      refine ⟨?_, ?_, ?_⟩
      · intro c hcm
        rw [hch] at hcm
        cases hcm
      · intro l hl
        rw [hunt] at hl
        cases hl
      · intro hne
        obtain ⟨pi, hpi, hlt⟩ := hpar
        exact ⟨pi, hpi, by omega⟩
  · intro rootNd' hroot' c hcm ndc hc'
    rw [List.getElem?_append_left h0, hroot, Option.some_inj] at hroot'
    subst hroot'
    have hclt := (hnode 0 rootNd hroot).1 c hcm
    rw [List.getElem?_append_left (by omega)] at hc'
    exact hrc rootNd hroot c hcm ndc hc'

/-- Registering a strictly later valid child on a node preserves
well-formedness, provided a root child also carries its identifying fields. -/
theorem arenaWF_set_addChild (b : Board) (a : Arena) (i : ℕ) (nd : MCTSNode)
    (cIdx : ℕ) (hWF : arenaWF b a) (hnd : a[i]? = some nd)
    (hlt : i < cIdx) (hcb : cIdx < a.length)
    (hrootc : i = 0 → ∀ ndc, a[cIdx]? = some ndc →
      (∃ p, ndc.piece = some p ∧ p ∈ b.pieces) ∧ (∃ mv, ndc.move = some mv)) :
    arenaWF b (a.set i { nd with children := nd.children ++ [cIdx] }) := by
  obtain ⟨⟨rootNd, hroot, hrootb, hrootp⟩, hnode, hrc⟩ := hWF
  have hi : i < a.length := getElem?_some_lt hnd
  refine ⟨?_, ?_, ?_⟩
  · by_cases h0 : i = 0
    · subst h0
      refine ⟨_, by rw [List.getElem?_set_self hi], ?_, ?_⟩
      · rw [hnd] at hroot
        cases hroot
        exact hrootb
      · rw [hnd] at hroot
        cases hroot
        exact hrootp
    · exact ⟨rootNd, by rw [List.getElem?_set_ne h0]; exact hroot, hrootb,
        hrootp⟩
  · intro j ndj hj
    by_cases hij : i = j
    · subst hij
      rw [List.getElem?_set_self hi, Option.some_inj] at hj
      subst hj
      obtain ⟨hc1, hc2, hc3⟩ := hnode i nd hnd
      refine ⟨?_, hc2, hc3⟩
      intro c hcm
      simp only [List.length_set]
      rw [List.mem_append] at hcm
      rcases hcm with hcm | hcm
      · have := hc1 c hcm
        omega
      · rw [List.mem_singleton] at hcm
        omega
    · rw [List.getElem?_set_ne hij] at hj
      obtain ⟨hc1, hc2, hc3⟩ := hnode j ndj hj
      refine ⟨?_, hc2, hc3⟩
      intro c hcm
      simp only [List.length_set]
      have := hc1 c hcm
      omega
  · intro rootNd' hroot' c hcm ndc hc'
    by_cases h0 : i = 0
    · subst h0
      rw [List.getElem?_set_self hi, Option.some_inj] at hroot'
      subst hroot'
      rw [hnd] at hroot
      cases hroot
      dsimp only at hcm
      rw [List.mem_append] at hcm
      rcases hcm with hcm | hcm
      · have hcne : (0 : ℕ) ≠ c := by
          have := (hnode 0 nd hnd).1 c hcm
          omega
        rw [List.getElem?_set_ne hcne] at hc'
        exact hrc nd hnd c hcm ndc hc'
      · rw [List.mem_singleton] at hcm
        have hcne : (0 : ℕ) ≠ c := by omega
        rw [List.getElem?_set_ne hcne] at hc'
        rw [hcm] at hc'
        exact hrootc rfl ndc hc'
    · rw [List.getElem?_set_ne h0] at hroot'
      by_cases hic : i = c
      · subst hic
        rw [List.getElem?_set_self hi, Option.some_inj] at hc'
        subst hc'
        obtain ⟨hp2, hm2⟩ := hrc rootNd' hroot' i hcm nd hnd
        exact ⟨hp2, hm2⟩
      · rw [List.getElem?_set_ne hic] at hc'
        exact hrc rootNd' hroot' c hcm ndc hc'

/-- On a node with a cached untried list, `getUntriedMoves` is a read. -/
theorem getUntriedMoves_cached {a : Arena} {i : ℕ} {nd : MCTSNode}
    {l : List TMove} (hnd : a[i]? = some nd) (hu : nd.untried = some l) :
    getUntriedMoves a i = some (a, l) := by
  unfold getUntriedMoves
  rw [hnd]
  dsimp only
  rw [hu]

/-- `expand` on a node with no untried moves left is a no-op returning null. -/
theorem expand_empty {o : ℕ → ℚ} {a : Arena} {i k : ℕ} {nd : MCTSNode}
    (hnd : a[i]? = some nd) (hu : nd.untried = some []) :
    expand o a i k = some (a, none, k) := by
  unfold expand
  rw [getUntriedMoves_cached hnd hu]
  simp

/-- `expand` on a node with cached nonempty untried moves appends a child,
preserves well-formedness, and grows the root child list exactly when the node
is the root. -/
theorem expand_spec (b : Board) (o : ℕ → ℚ) (a : Arena) (i k : ℕ)
    (nd : MCTSNode) (l : List TMove) (hWF : arenaWF b a) (hok : OracleOK o)
    (hnd : a[i]? = some nd) (hu : nd.untried = some l) (hl : l ≠ []) :
    ∃ a' j k', expand o a i k = some (a', some j, k') ∧ arenaWF b a' ∧
      a.length ≤ a'.length ∧ j < a'.length ∧
      rootChildCount a ≤ rootChildCount a' ∧
      (i = 0 → rootChildCount a' = rootChildCount a + 1) := by
  have hi : i < a.length := getElem?_some_lt hnd
  have hlen : 0 < l.length := List.length_pos.mpr hl
  unfold expand
  rw [getUntriedMoves_cached hnd hu]
  dsimp only
  rw [if_neg (by omega)]
  obtain ⟨tm, htm⟩ := getElem?_lt_isSome l _ (randIndex_lt (hok k).1 (hok k).2 hlen)
  rw [htm, hnd]
  dsimp only
  have htmem : tm ∈ l := List.getElem?_mem htm
  have hpiece : tm.piece ∈ nd.board.pieces :=
    (hWF.2.1 i nd hnd).2.1 l hu tm htmem
  obtain ⟨res, hres⟩ := applyMoveOnBoard_isSome nd.board tm.piece tm.move.1
    tm.move.2 ⟨tm.piece, hpiece, rfl⟩
  rw [hres]
  dsimp only
  have hWF2 : arenaWF b (a.set i { nd with untried := some (l.eraseIdx (randIndex (o k) l.length)) }) := by
    apply arenaWF_set b a i nd
      { nd with untried := some (l.eraseIdx (randIndex (o k) l.length)) }
      hWF hnd rfl rfl rfl rfl rfl
    intro l' hl' m hm
    have : l' = l.eraseIdx (randIndex (o k) l.length) := by simpa using hl'.symm
    subst this
    exact (hWF.2.1 i nd hnd).2.1 l hu m (List.mem_of_mem_eraseIdx hm)
  set a2 := a.set i { nd with untried := some (l.eraseIdx (randIndex (o k) l.length)) } with ha2
  have hlen2 : a2.length = a.length := by
    rw [ha2]
    simp
  set child : MCTSNode := ⟨res.1, if nd.team == 1 then 2 else 1, some i,
    some tm.move, some tm.piece, [], 0, 0, none⟩ with hchild
  have hWF3 : arenaWF b (a2 ++ [child]) := by
    apply arenaWF_append b a2 child hWF2 ⟨i, rfl, by omega⟩ rfl rfl
  obtain ⟨nd2, hnd2⟩ := getElem?_lt_isSome (a2 ++ [child]) i (by
    simp only [List.length_append, List.length_cons, List.length_nil]
    omega)
  rw [hnd2]
  dsimp only
  have hnd2v : nd2 = { nd with untried := some (l.eraseIdx (randIndex (o k) l.length)) } := by
    have : (a2 ++ [child])[i]? = a2[i]? := List.getElem?_append_left (by omega)
    rw [this, ha2, List.getElem?_set_self hi, Option.some_inj] at hnd2
    exact hnd2.symm
  have hchildren : nd2.children = nd.children := by rw [hnd2v]
  have hWF4 : arenaWF b ((a2 ++ [child]).set i { nd2 with children := nd2.children ++ [a2.length] }) := by
    apply arenaWF_set_addChild b (a2 ++ [child]) i nd2 a2.length hWF3 hnd2
      (by omega)
      (by simp only [List.length_append, List.length_cons, List.length_nil]; omega)
    intro h0 ndc hndc
    rw [List.getElem?_append_right (le_refl _)] at hndc
    simp only [Nat.sub_self, List.getElem?_cons_zero, Option.some_inj] at hndc
    subst hndc
    refine ⟨⟨tm.piece, rfl, ?_⟩, ⟨tm.move, rfl⟩⟩
    subst h0
    obtain ⟨rootNd, hroot, hrootb, -⟩ := hWF.1
    rw [hnd, Option.some_inj] at hroot
    subst hroot
    rw [← hrootb]
    exact hpiece
  have hbound : i < (a2 ++ [child]).length := by
    simp only [List.length_append, List.length_cons, List.length_nil]
    omega
  have hrcF : ∀ (h0 : i = 0),
      rootChildCount ((a2 ++ [child]).set i { nd2 with children := nd2.children ++ [a2.length] }) = rootChildCount a + 1 := by
    intro h0
    subst h0
    unfold rootChildCount
    rw [List.getElem?_set_self hbound]
    dsimp only
    rw [hchildren, hnd]
    simp
  have hrcNe : ∀ (h0 : i ≠ 0),
      rootChildCount ((a2 ++ [child]).set i { nd2 with children := nd2.children ++ [a2.length] }) = rootChildCount a := by
    intro h0
    unfold rootChildCount
    rw [List.getElem?_set_ne h0]
    rw [List.getElem?_append_left (by omega)]
    rw [ha2, List.getElem?_set_ne h0]
  refine ⟨_, a2.length, k + 1, rfl, hWF4, ?_, ?_, ?_, hrcF⟩
  · simp only [List.length_set, List.length_append, List.length_cons,
      List.length_nil]
    omega
  · simp only [List.length_set, List.length_append, List.length_cons,
      List.length_nil]
    omega
  · by_cases h0 : i = 0
    · rw [hrcF h0]
      omega
    · rw [hrcNe h0]

/-- The rollout loop of `mctsSimulate` always produces a score. -/
theorem mctsSimulateLoop_total (o : ℕ → ℚ) (hok : OracleOK o) :
    ∀ (fuel : ℕ) (simBoard : Board) (team : Int) (k : ℕ),
      ∃ r k', mctsSimulateLoop o fuel simBoard team k = some (r, k') := by
  intro fuel
  induction fuel with
  | zero =>
    intro simBoard team k
    exact ⟨_, k, rfl⟩
  | succ fuel ih =>
    intro simBoard team k
    rw [mctsSimulateLoop]
    dsimp only
    by_cases hover : (isGameOver simBoard).over = true
    · rw [if_pos hover]
      exact ⟨_, _, rfl⟩
    · rw [if_neg hover]
      by_cases hmv : (getAllMovesForTeam simBoard team).length = 0
      · rw [if_pos hmv]
        exact ⟨_, _, rfl⟩
      · rw [if_neg hmv]
        have hmember : ∀ (chosen : TMove) (k1 : ℕ),
            chosen ∈ getAllMovesForTeam simBoard team →
            ∃ r k', (match applyMoveOnBoard simBoard chosen.piece chosen.move.1
                chosen.move.2 with
              | none => none
              | some result =>
                mctsSimulateLoop o fuel result.1
                  (if team == 1 then 2 else 1) k1) = some (r, k') := by
          intro chosen k1 hmem
          obtain ⟨res, hres⟩ := applyMoveOnBoard_isSome simBoard chosen.piece
            chosen.move.1 chosen.move.2
            ⟨chosen.piece, mem_getAllMoves_piece hmem, rfl⟩
          rw [hres]
          exact ih res.1 (if team == 1 then 2 else 1) k1
        by_cases hcap : ((getAllMovesForTeam simBoard team).filter (fun m =>
            (pieceKilledOnBoard m.piece m.move.1 m.move.2 simBoard).isSome)).length > 0
        · rw [if_pos hcap]
          obtain ⟨tm, htm⟩ := getElem?_lt_isSome _ _
            (randIndex_lt (hok k).1 (hok k).2 hcap)
          rw [htm]
          dsimp only
          exact hmember tm (k + 1) (List.mem_filter.mp (List.getElem?_mem htm)).1
        · rw [if_neg hcap]
          by_cases hsafe : ((getAllMovesForTeam simBoard team).filter (fun m =>
              isSquareSafe simBoard m.move.1 m.move.2 team)).length > 0
          · rw [if_pos hsafe]
            by_cases hr : o k < 7/10
            · rw [if_pos hr]
              obtain ⟨tm, htm⟩ := getElem?_lt_isSome _ _
                (randIndex_lt (hok (k + 1)).1 (hok (k + 1)).2 hsafe)
              rw [htm]
              dsimp only
              exact hmember tm (k + 2) (List.mem_filter.mp (List.getElem?_mem htm)).1
            · rw [if_neg hr]
              have hpos : 0 < (getAllMovesForTeam simBoard team).length := by omega
              obtain ⟨tm, htm⟩ := getElem?_lt_isSome _ _
                (randIndex_lt (hok (k + 1)).1 (hok (k + 1)).2 hpos)
              rw [htm]
              dsimp only
              exact hmember tm (k + 2) (List.getElem?_mem htm)
          · rw [if_neg hsafe]
            have hpos : 0 < (getAllMovesForTeam simBoard team).length := by omega
            obtain ⟨tm, htm⟩ := getElem?_lt_isSome _ _
              (randIndex_lt (hok k).1 (hok k).2 hpos)
            rw [htm]
            dsimp only
            exact hmember tm (k + 1) (List.getElem?_mem htm)

/-- `mctsSimulate` always produces a score. -/
theorem mctsSimulate_total (o : ℕ → ℚ) (hok : OracleOK o) (board : Board)
    (team : Int) (k : ℕ) :
    ∃ r k', mctsSimulate o board team k = some (r, k') :=
  mctsSimulateLoop_total o hok 100 (cloneBoard board) team k

/-- One MCTS iteration never crashes on a well-formed arena, preserves
well-formedness and never loses root children. -/
theorem mctsIter_spec (sq lg : ℚ → ℚ) (o : ℕ → ℚ) (b : Board) (rootTeam : Int)
    (a : Arena) (k : ℕ) (hWF : arenaWF b a) (hok : OracleOK o) :
    ∃ a' k', mctsIter sq lg o rootTeam a k = some (a', k') ∧ arenaWF b a' ∧
      rootChildCount a ≤ rootChildCount a' := by
  have h0 : 0 < a.length := by
    obtain ⟨rootNd, hroot, -, -⟩ := hWF.1
    exact getElem?_some_lt hroot
  unfold mctsIter
  obtain ⟨a1, i, hsel, hWF1, hi1, hlen1, hrc1⟩ :=
    mctsSelectLoop_spec sq lg b a.length a 0 hWF h0
  rw [hsel]
  dsimp only
  obtain ⟨nd1, hnd1⟩ := getElem?_lt_isSome a1 i hi1
  unfold isTerminalN
  rw [hnd1]
  simp only [Option.map_some']
  have htail : ∀ (a4 : Arena) (j k1 : ℕ), arenaWF b a4 → j < a4.length →
      ∃ a' k', (match isTerminalN a4 j with
        | none => none
        | some term2 =>
          match a4[j]? with
          | none => none
          | some nd =>
            match (if term2 then
                some ((if (isGameOver nd.board).winner == some 1 then (1 : ℚ)
                  else 0), k1)
              else mctsSimulate o nd.board nd.team k1) with
            | none => none
            | some (result, k2) =>
              match mctsBackpropagate rootTeam result (j + 1) a4 j with
              | none => none
              | some a5 => some (a5, k2)) = some (a', k') ∧
        arenaWF b a' ∧ rootChildCount a' = rootChildCount a4 := by
    intro a4 j k1 hWF4 hj4
    obtain ⟨nd4, hnd4⟩ := getElem?_lt_isSome a4 j hj4
    unfold isTerminalN
    rw [hnd4]
    simp only [Option.map_some']
    obtain ⟨a5, hbp, hWF5, hlen5, hrc5⟩ :=
      mctsBackpropagate_spec b rootTeam
        (if (isGameOver nd4.board).winner == some 1 then (1 : ℚ) else 0)
        (j + 1) a4 j hWF4 hj4
    cases hterm2 : (isGameOver nd4.board).over with
    | true =>
      rw [if_pos rfl]
      dsimp only
      rw [hbp]
      exact ⟨a5, k1, rfl, hWF5, hrc5⟩
    | false =>
      rw [if_neg (by simp)]
      obtain ⟨r, k2, hsim⟩ := mctsSimulate_total o hok nd4.board nd4.team k1
      rw [hsim]
      dsimp only
      obtain ⟨a5', hbp', hWF5', hlen5', hrc5'⟩ :=
        mctsBackpropagate_spec b rootTeam r (j + 1) a4 j hWF4 hj4
      rw [hbp']
      exact ⟨a5', k2, rfl, hWF5', hrc5'⟩
  cases hterm : (isGameOver nd1.board).over with
  | true =>
    rw [if_pos rfl]
    dsimp only
    obtain ⟨a', k', htl, hWF', hrc'⟩ := htail a1 i k hWF1 hi1
    exact ⟨a', k', htl, hWF', by omega⟩
  | false =>
    rw [if_neg (by simp)]
    obtain ⟨a2, l, hgu, hWF2, hlen2, hrc2, nd2, hnd2, hu2⟩ :=
      getUntriedMoves_spec b a1 i hWF1 hi1
    rw [hgu]
    dsimp only
    by_cases hl : l.length = 0
    · rw [if_pos hl]
      dsimp only
      obtain ⟨a', k', htl, hWF', hrc'⟩ := htail a2 i k hWF2 (by omega)
      exact ⟨a', k', htl, hWF', by omega⟩
    · rw [if_neg hl]
      obtain ⟨a3, j, k3, hexp, hWF3, hlen3, hj3, hrc3, -⟩ :=
        expand_spec b o a2 i k nd2 l hWF2 hok hnd2 hu2
          (fun he => hl (by rw [he]; rfl))
      rw [hexp]
      dsimp only
      obtain ⟨a', k', htl, hWF', hrc'⟩ := htail a3 j k3 hWF3 hj3
      exact ⟨a', k', htl, hWF', by omega⟩

/-- The first MCTS iteration from a fresh root of a non-terminal position with
at least one move expands a root child. -/
theorem mctsIter_grow (sq lg : ℚ → ℚ) (o : ℕ → ℚ) (b : Board)
    (rootTeam team : Int) (k : ℕ) (hok : OracleOK o)
    (hover : (isGameOver b).over = false)
    (hmv : getAllMovesForTeam b team ≠ []) :
    ∃ a' k', mctsIter sq lg o rootTeam
        [⟨b, team, none, none, none, [], 0, 0, none⟩] k = some (a', k') ∧
      arenaWF b a' ∧ 1 ≤ rootChildCount a' := by
  have hWF0 := arenaWF_init b team
  have hgu0 : getUntriedMoves [⟨b, team, none, none, none, [], 0, 0, none⟩] 0 =
      some ([⟨b, team, none, none, none, [], 0, 0,
        some (getAllMovesForTeam b team)⟩], getAllMovesForTeam b team) := rfl
  have hlpos : (getAllMovesForTeam b team).length ≠ 0 :=
    fun he => hmv (List.length_eq_zero.mp he)
  have hsel : mctsSelectLoop sq lg
      ([(⟨b, team, none, none, none, [], 0, 0, none⟩ : MCTSNode)] : Arena).length
      [⟨b, team, none, none, none, [], 0, 0, none⟩] 0 =
      some ([⟨b, team, none, none, none, [], 0, 0,
        some (getAllMovesForTeam b team)⟩], 0) := by
    show mctsSelectLoop sq lg (0 + 1)
      [⟨b, team, none, none, none, [], 0, 0, none⟩] 0 = _
    rw [mctsSelectLoop]
    unfold isTerminalN
    simp only [List.getElem?_cons_zero, Option.map_some']
    rw [hover]
    dsimp only
    rw [hgu0]
    dsimp only
    rw [if_pos hlpos]
  have hWF1 : arenaWF b [⟨b, team, none, none, none, [], 0, 0,
      some (getAllMovesForTeam b team)⟩] := by
    have := arenaWF_set b [⟨b, team, none, none, none, [], 0, 0, none⟩] 0
      ⟨b, team, none, none, none, [], 0, 0, none⟩
      ⟨b, team, none, none, none, [], 0, 0, some (getAllMovesForTeam b team)⟩
      hWF0 rfl rfl rfl rfl rfl rfl
      (by
        intro l' hl' m hm
        have hll : l' = getAllMovesForTeam b team := by simpa using hl'.symm
        subst hll
        exact mem_getAllMoves_piece hm)
    exact this
  unfold mctsIter
  rw [hsel]
  unfold isTerminalN
  simp only [List.getElem?_cons_zero, Option.map_some']
  rw [hover]
  rw [getUntriedMoves_cached (List.getElem?_cons_zero) rfl]
  dsimp only
  rw [if_neg hlpos]
  obtain ⟨a3, j, k3, hexp, hWF3, hlen3, hj3, hrc3, hgrow⟩ :=
    expand_spec b o _ 0 k
      ⟨b, team, none, none, none, [], 0, 0, some (getAllMovesForTeam b team)⟩
      (getAllMovesForTeam b team) hWF1 hok List.getElem?_cons_zero rfl hmv
  rw [hexp]
  have hrc1 : rootChildCount [(⟨b, team, none, none, none, [], 0, 0,
      some (getAllMovesForTeam b team)⟩ : MCTSNode)] = 0 := rfl
  have hrc3v : rootChildCount a3 = 1 := by
    rw [hgrow rfl, hrc1]
  rw [if_neg (by simp)]
  dsimp only
  obtain ⟨nd4, hnd4⟩ := getElem?_lt_isSome a3 j hj3
  rw [hnd4]
  simp only [Option.map_some']
  cases hterm2 : (isGameOver nd4.board).over with
  | true =>
    rw [if_pos rfl]
    dsimp only
    obtain ⟨a5, hbp, hWF5, hlen5, hrc5⟩ :=
      mctsBackpropagate_spec b rootTeam
        (if (isGameOver nd4.board).winner == some 1 then (1 : ℚ) else 0)
        (j + 1) a3 j hWF3 hj3
    rw [hbp]
    exact ⟨a5, k3, rfl, hWF5, by omega⟩
  | false =>
    rw [if_neg (by simp)]
    obtain ⟨r, k2, hsim⟩ := mctsSimulate_total o hok nd4.board nd4.team k3
    rw [hsim]
    dsimp only
    obtain ⟨a5, hbp, hWF5, hlen5, hrc5⟩ :=
      mctsBackpropagate_spec b rootTeam r (j + 1) a3 j hWF3 hj3
    rw [hbp]
    exact ⟨a5, k2, rfl, hWF5, by omega⟩

/-- The MCTS main loop never crashes and never loses root children. -/
theorem mctsIterate_spec (sq lg : ℚ → ℚ) (o : ℕ → ℚ) (b : Board)
    (rootTeam : Int) (hok : OracleOK o) :
    ∀ (n : ℕ) (a : Arena) (k : ℕ), arenaWF b a →
      ∃ a' k', mctsIterate sq lg o rootTeam n a k = some (a', k') ∧
        arenaWF b a' ∧ rootChildCount a ≤ rootChildCount a' := by
  intro n
  induction n with
  | zero =>
    intro a k hWF
    exact ⟨a, k, rfl, hWF, le_refl _⟩
  | succ n ih =>
    intro a k hWF
    rw [mctsIterate]
    obtain ⟨a1, k1, hiter, hWF1, hrc1⟩ :=
      mctsIter_spec sq lg o b rootTeam a k hWF hok
    rw [hiter]
    obtain ⟨a', k', hrec, hWF', hrc'⟩ := ih a1 k1 hWF1
    exact ⟨a', k', hrec, hWF', by omega⟩

/-- Looking a board piece up by its own id succeeds. -/
theorem find_id_isSome {b : Board} {p : Piece} (hp : p ∈ b.pieces) :
    ∃ q, b.pieces.find? (fun q => q.id == p.id) = some q := by
  rw [← Option.isSome_iff_exists, List.find?_isSome]
  exact ⟨p, hp, by simp⟩

/-- The most-visited-child scan returns a child of the list (or the incoming
best) whenever either exists. -/
theorem bestChildLoop_some (a : Arena) :
    ∀ (cs : List ℕ) (best : Option ℕ) (bv : Int),
      (∀ c ∈ cs, c < a.length) →
      (best = none → bv = -1) →
      (best ≠ none ∨ cs ≠ []) →
      ∃ c', bestChildLoop a cs best bv = some (some c') ∧
        (c' ∈ cs ∨ best = some c') := by
  intro cs
  induction cs with
  | nil =>
    intro best bv _ _ hne
    rcases best with _ | j
    · rcases hne with hne | hne <;> exact absurd rfl hne
    · exact ⟨j, by rw [bestChildLoop], Or.inr rfl⟩
  | cons c cs ih =>
    intro best bv hcs hbn _
    obtain ⟨nd, hnd⟩ := getElem?_lt_isSome a c (hcs c (List.mem_cons_self c cs))
    rw [bestChildLoop, hnd]
    dsimp only
    have hcs' := fun c' hc' => hcs c' (List.mem_cons_of_mem c hc')
    by_cases hv : (nd.visits : Int) > bv
    · rw [if_pos hv]
      obtain ⟨c', hrec, hm⟩ := ih (some c) nd.visits hcs'
        (by intro h; cases h) (Or.inl (by simp))
      refine ⟨c', hrec, ?_⟩
      rcases hm with hm | hm
      · exact Or.inl (List.mem_cons_of_mem c hm)
      · rw [Option.some_inj] at hm
        exact Or.inl (by rw [← hm]; exact List.mem_cons_self c cs)
    · rw [if_neg hv]
      rcases best with _ | j
      · exfalso
        rw [hbn rfl] at hv
        have : (0 : Int) ≤ (nd.visits : Int) := Int.natCast_nonneg _
        omega
      · obtain ⟨c', hrec, hm⟩ := ih (some j) bv hcs'
          (by intro h; cases h) (Or.inl (by simp))
        refine ⟨c', hrec, ?_⟩
        rcases hm with hm | hm
        · exact Or.inl (List.mem_cons_of_mem c hm)
        · exact Or.inr hm

/-- `mctsAI` returns null on a terminal root board (even with legal moves) or
without legal moves; on a non-terminal board with at least one legal move it
returns a defined piece-and-move pair. -/
theorem mctsAI_spec (sq lg : ℚ → ℚ) (o : ℕ → ℚ) (b : Board) (team : Int)
    (k iters : ℕ) (hok : OracleOK o) (hit : 1 ≤ iters) :
    ((isGameOver b).over = true →
      mctsAI sq lg o b team k iters = some (none, k)) ∧
    (getAllMovesForTeam b team = [] →
      ∃ k', mctsAI sq lg o b team k iters = some (none, k')) ∧
    ((isGameOver b).over = false → getAllMovesForTeam b team ≠ [] →
      ∃ p mv k', mctsAI sq lg o b team k iters =
        some (some (some p, some mv), k') ∧ p ∈ b.pieces) := by
  refine ⟨?_, ?_, ?_⟩
  · intro hover
    unfold mctsAI
    rw [if_pos hover]
  · intro hmv
    unfold mctsAI
    by_cases hover : (isGameOver b).over = true
    · rw [if_pos hover]
      exact ⟨k, rfl⟩
    · rw [if_neg hover]
      dsimp only
      rw [if_pos (by rw [hmv]; rfl)]
      exact ⟨k, rfl⟩
  · intro hover hmv
    have hlen : 0 < (getAllMovesForTeam b team).length := List.length_pos.mpr hmv
    unfold mctsAI
    rw [if_neg (by rw [hover]; simp)]
    dsimp only
    rw [if_neg (by omega)]
    by_cases h1 : (getAllMovesForTeam b team).length = 1
    · rw [if_pos h1]
      obtain ⟨m, hm⟩ := getElem?_lt_isSome (getAllMovesForTeam b team) 0 hlen
      rw [hm]
      exact ⟨m.piece, m.move, k, rfl, mem_getAllMoves_piece (List.getElem?_mem hm)⟩
    · rw [if_neg h1]
      obtain ⟨niters, hniters⟩ : ∃ n, iters = n + 1 := ⟨iters - 1, by omega⟩
      subst hniters
      rw [mctsIterate]
      obtain ⟨a1, k1, hiter1, hWF1, hrc1⟩ :=
        mctsIter_grow sq lg o b team team k hok hover hmv
      rw [hiter1]
      dsimp only
      obtain ⟨aF, kF, hitern, hWFF, hrcF⟩ :=
        mctsIterate_spec sq lg o b team hok niters a1 k1 hWF1
      rw [hitern]
      dsimp only
      obtain ⟨rootNd, hroot, hrootb, -⟩ := hWFF.1
      rw [hroot]
      dsimp only
      have hchne : rootNd.children ≠ [] := by
        intro he
        unfold rootChildCount at hrcF
        rw [hroot] at hrcF
        dsimp only at hrcF
        rw [he] at hrcF
        simp at hrcF
        unfold rootChildCount at hrc1
        omega
      obtain ⟨c, hbc, hcm⟩ := bestChildLoop_some aF rootNd.children none (-1)
        (fun c hc => ((hWFF.2.1 0 rootNd hroot).1 c hc).2)
        (fun _ => rfl) (Or.inr hchne)
      rw [hbc]
      dsimp only
      have hcmem : c ∈ rootNd.children := by
        rcases hcm with h | h
        · exact h
        · cases h
      obtain ⟨ndc, hndc⟩ := getElem?_lt_isSome aF c
        ((hWFF.2.1 0 rootNd hroot).1 c hcmem).2
      rw [hndc]
      dsimp only
      obtain ⟨⟨p, hp, hpmem⟩, ⟨mv, hmv2⟩⟩ :=
        hWFF.2.2 rootNd hroot c hcmem ndc hndc
      rw [hp]
      dsimp only
      obtain ⟨q, hq⟩ := find_id_isSome hpmem
      rw [hmv2, hq]
      exact ⟨q, mv, kF, rfl, List.mem_of_find?_eq_some hq⟩

theorem enforceMandatoryCapture_defined (o : ℕ → ℚ) (b : Board) (t : Int)
    (p : Piece) (mv : Int × Int) (k' : ℕ) (hok : OracleOK o) :
    ∃ p' mv' k'',
      enforceMandatoryCapture o b t (some (some (some p, some mv), k')) =
        some (some (some p', some mv'), k'') := by
  unfold enforceMandatoryCapture
  dsimp only
  cases hc : (pieceKilledOnBoard p mv.1 mv.2 b).isSome
  · simp only [Bool.not_false]
    rw [if_pos trivial]
    by_cases hlen : 0 < (getAllMovesForTeam b t).length
    · rw [if_pos hlen]
      obtain ⟨c0, hc0⟩ := getElem?_lt_isSome (getAllMovesForTeam b t) 0 hlen
      rw [hc0]
      dsimp only
      by_cases hcap : (pieceKilledOnBoard c0.piece c0.move.1 c0.move.2 b).isSome = true
      · rw [if_pos hcap]
        have hri := randIndex_lt (hok k').1 (hok k').2 hlen
        obtain ⟨cm, hcm⟩ := getElem?_lt_isSome (getAllMovesForTeam b t) _ hri
        rw [hcm]
        exact ⟨cm.piece, cm.move, k' + 1, rfl⟩
      · rw [if_neg hcap]
        exact ⟨p, mv, k', rfl⟩
    · rw [if_neg hlen]
      exact ⟨p, mv, k', rfl⟩
  · simp only [Bool.not_true]
    rw [if_neg Bool.false_ne_true]
    exact ⟨p, mv, k', rfl⟩

theorem enforce_lift_spec (o : ℕ → ℚ) (b : Board) (t : Int)
    (hok : OracleOK o) (r : Option (Option TMove × ℕ))
    (hnull : getAllMovesForTeam b t = [] → ∃ k', r = some (none, k'))
    (hsome : getAllMovesForTeam b t ≠ [] → ∃ m k', r = some (some m, k')) :
    (getAllMovesForTeam b t = [] →
      ∃ k', enforceMandatoryCapture o b t (liftPolicy r) = some (none, k')) ∧
    (getAllMovesForTeam b t ≠ [] →
      ∃ p mv k', enforceMandatoryCapture o b t (liftPolicy r) =
        some (some (some p, some mv), k')) := by
  constructor
  · intro hm
    obtain ⟨k', hk'⟩ := hnull hm
    refine ⟨k', ?_⟩
    rw [hk']
    rfl
  · intro hm
    obtain ⟨m, k', hk'⟩ := hsome hm
    obtain ⟨p', mv', k'', h2⟩ :=
      enforceMandatoryCapture_defined o b t m.piece m.move k' hok
    refine ⟨p', mv', k'', ?_⟩
    rw [hk']
    have hl : liftPolicy (some (some m, k')) =
        some (some (some m.piece, some m.move), k') := rfl
    rw [hl]
    exact h2

/-- Claim C9: for every board, team in {1, 2}, and policy identifier, the
dispatcher `getAIMove` returns a null move exactly when the team's move list
is empty — except that the `mcts` policy additionally requires the board to
be non-terminal; on a non-terminal board with at least one legal move every
policy returns a defined `{ piece, move }` pair, and no policy ever
crashes. -/
theorem C9_getAIMove_nullness (pt : PlayerType) (sq lg : ℚ → ℚ) (o : ℕ → ℚ)
    (b : Board) (t : Int) (k : ℕ) (hok : OracleOK o) (ht : t = 1 ∨ t = 2) :
    (getAllMovesForTeam b t = [] →
      ∃ k', getAIMove pt sq lg o b t k = some (none, k')) ∧
    (getAllMovesForTeam b t ≠ [] →
      (pt = PlayerType.mcts → (isGameOver b).over = false) →
      ∃ p mv k', getAIMove pt sq lg o b t k =
        some (some (some p, some mv), k')) := by
  cases pt
  case random =>
    have hs := randomAI_spec b t o k hok
    have h := enforce_lift_spec o b t hok (randomAI b t o k)
      (fun hm => ⟨k, hs.1 hm⟩) hs.2
    exact ⟨h.1, fun hm _ => h.2 hm⟩
  case greedy =>
    have hs := greedyAI_spec b t o k hok
    have h := enforce_lift_spec o b t hok (greedyAI b t o k)
      (fun hm => ⟨k, hs.1 hm⟩) hs.2
    exact ⟨h.1, fun hm _ => h.2 hm⟩
  case superGreedy =>
    have hs := superGreedyAI_spec b t o k hok
    have h := enforce_lift_spec o b t hok (superGreedyAI b t o k)
      (fun hm => ⟨k, hs.1 hm⟩) hs.2
    exact ⟨h.1, fun hm _ => h.2 hm⟩
  case defensive =>
    have hs := defensiveAI_spec b t o k hok
    have h := enforce_lift_spec o b t hok (defensiveAI b t o k)
      (fun hm => ⟨k, hs.1 hm⟩) hs.2
    exact ⟨h.1, fun hm _ => h.2 hm⟩
  case adaptive =>
    have hs := adaptiveAI_spec b t o k hok
    have h := enforce_lift_spec o b t hok (adaptiveAI b t o k)
      (fun hm => ⟨k, hs.1 hm⟩) hs.2
    exact ⟨h.1, fun hm _ => h.2 hm⟩
  case positional =>
    have hs := positionalAI_spec b t o k hok
    have h := enforce_lift_spec o b t hok (positionalAI b t o k)
      (fun hm => ⟨k, hs.1 hm⟩) hs.2
    exact ⟨h.1, fun hm _ => h.2 hm⟩
  case minimax =>
    have hs := minimaxAI_spec b t o k 4 ht
    have h := enforce_lift_spec o b t hok (minimaxAI b t o k 4)
      (fun hm => ⟨k, hs.1 hm⟩) hs.2
    exact ⟨h.1, fun hm _ => h.2 hm⟩
  case mcts =>
    have hs := mctsAI_spec sq lg o b t k 1000 hok (by norm_num)
    constructor
    · intro hm
      obtain ⟨k', hk'⟩ := hs.2.1 hm
      refine ⟨k', ?_⟩
      unfold getAIMove
      rw [hk']
      rfl
    · intro hm hterm
      obtain ⟨p, mv, k', hk', -⟩ := hs.2.2 (hterm rfl) hm
      obtain ⟨p', mv', k'', h2⟩ :=
        enforceMandatoryCapture_defined o b t p mv k' hok
      refine ⟨p', mv', k'', ?_⟩
      unfold getAIMove
      rw [hk']
      exact h2

/-- The C9 claim as frozen is false: on a board where the opponent has no
pieces, the game is over, and the `mcts` policy returns a null move even
though the side to move has legal moves. -/
theorem C9_counterexample :
    ∃ (b : Board) (t : Int), getAllMovesForTeam b t ≠ [] ∧
      ∀ (sq lg : ℚ → ℚ) (o : ℕ → ℚ) (k : ℕ),
        getAIMove PlayerType.mcts sq lg o b t k = some (none, k) := by
  refine ⟨⟨[mkPiece 0 0 0 1]⟩, 1, by decide, fun sq lg o k => ?_⟩
  rfl

theorem C9_getAIMove_nullness_witness :
    getAllMovesForTeam setupGameBoard 1 ≠ [] ∧
    ∃ p mv k',
      getAIMove PlayerType.greedy id id (fun _ => 0) setupGameBoard 1 0 =
        some (some (some p, some mv), k') := by
  have hmv : getAllMovesForTeam setupGameBoard 1 ≠ [] := by decide
  exact ⟨hmv,
    (C9_getAIMove_nullness PlayerType.greedy id id (fun _ => 0) setupGameBoard 1 0
      (fun i => ⟨by norm_num, by norm_num⟩) (Or.inl rfl)).2 hmv
      (fun h => PlayerType.noConfusion h)⟩

end Damas
